import Mathlib

/-!
# af_lavcac3enc: the runtime AC-3 encoding filter

A shallow embedding of `src/libaf/af_lavcac3enc.c` and a verification of its
data path (`play`, `encode_data`) and of its negotiation (`control`).

* C `int` values are `Int`.  Signed overflow is undefined in C; the arithmetic
  is modelled without wrap-around.
* A memory block is a `List Nat` of byte values, a pointer into a block is an
  offset.  `peek` reads and `poke` stores inside one block; the part of an
  access that lies past the end of the block is dropped.  Such an access is
  undefined in C, and what the model computes from there on is not what the
  program does; `memset_defined` says when a `memset` stays inside its
  block.
* libavcodec, libavresample, `reorder_channel_nch` and the declarations of
  `af.h` are not part of the sources: they are the fields of `Lavc` and of
  `Host`, over an arbitrary state type of the library.
* The outcome of `malloc` in a data call is a parameter of the call.
* Every call of `encode_data` made by `play` is recorded in a trace, and every
  library call made by `control` in a log.

Two smaller units are embedded after the filter: `fill_with_padding` of
`src/libao2/ao_lavc.c`, and `conversion_map` with `imgfmt2pixfmt` and
`pixfmt2imgfmt` of `src/fmt-conversion.c`.

The file has two parts: the definitions (the model, then the notions used to
state the results, then concrete sessions), and the lemmas and theorems.
-/

namespace Ac3enc

/-! ## Constants -/

def AC3_MAX_CHANNELS : Int := 6

def AC3_MAX_CODED_FRAME_SIZE : Int := 3840

def AC3_FRAME_SIZE : Int := 6 * 256

def ac3_bitrate_tab : List Int :=
  [32, 40, 48, 56, 64, 80, 96, 112, 128,
   160, 192, 224, 256, 320, 384, 448, 512, 576, 640]

/-! ## Memory blocks -/

/-- The `n` bytes at offset `off` of a block. -/
def peek (mem : List Nat) (off n : Nat) : List Nat :=
  (mem.drop off).take n

/-- Store `bytes` at offset `off` of a block; the block keeps its size. -/
def poke (mem : List Nat) (off : Nat) (bytes : List Nat) : List Nat :=
  mem.take off ++ bytes.take (mem.length - off) ++ mem.drop (off + bytes.length)

/-- The count of a `memset` as the `size_t` it is converted to: a negative
`int` becomes a count larger than any block.  Only the part of the count that
lies inside the block is kept. -/
def size_t_count (mem : List Nat) (n : Int) : Nat :=
  if n < 0 then mem.length else n.toNat

/-- Model of `memset(mem + off, c, n)`: the bytes that the call sets inside the
block.  When the call reaches past the end of the block (see
`memset_defined`) the C program has no defined behaviour from there on, and
this value is not what it computes. -/
def memset (mem : List Nat) (off : Nat) (c : Nat) (n : Int) : List Nat :=
  poke mem off (List.replicate (size_t_count mem n) c)

/-- The call `memset(mem + off, c, n)` is defined in C: the count is not
negative and the bytes set lie inside the block.  A negative `n` is converted
to a `size_t` larger than any object, and the call writes past the end of the
block. -/
def memset_defined (mem : List Nat) (off : Nat) (n : Int) : Prop :=
  0 ≤ n ∧ off + n.toNat ≤ mem.length

/-- Model of `AV_WB16(mem + off, v)`: the low 16 bits of `v`, high byte first. -/
def AV_WB16 (mem : List Nat) (off : Nat) (v : Int) : List Nat :=
  poke mem off [((v / 256) % 256).toNat, (v % 256).toNat]

/-! ## Data model -/

structure AVCodecContext where
  channels : Int
  sample_rate : Int
  bit_rate : Int
  frame_size : Int
  sample_fmt : Int
deriving DecidableEq

/-- The descriptor `af_data_t`; `audio` is the address of the block (0 is NULL). -/
structure af_data_t where
  audio : Nat
  len : Int
  rate : Int
  nch : Int
  format : Int
  bps : Int
deriving DecidableEq

/-- The filter's private data `af_ac3enc_t`.  `avr` says whether `s->avr` is
set; `pending_data` is the content of the block `s->pending_data`. -/
structure af_ac3enc_t where
  avr : Bool
  lavc_actx : AVCodecContext
  add_iec61937_header : Int
  bit_rate : Int
  pending_data_size : Int
  pending_data : List Nat
  pending_len : Int
  expect_len : Int
  min_channel_num : Int
  in_sampleformat : Int
deriving DecidableEq

/-- The filter instance: `af->setup`, `af->data`, `af->mul`, and the content
of the block `af->data->audio`. -/
structure af_instance_s where
  setup : af_ac3enc_t
  data : af_data_t
  audio_mem : List Nat
  mul : ℚ
deriving DecidableEq

/-- What `avcodec_encode_audio2` leaves behind: its return value, the
got-packet flag, and the bytes it stored at `pkt.data` (`pkt.size` is their
number). -/
structure EncOut where
  ret : Int
  got_frame : Int
  pkt : List Nat
deriving DecidableEq

/-- The collaborators of the filter, over the state `σ` of the library. -/
structure Lavc (σ : Type) where
  AF_ERROR : Int
  av_get_bytes_per_sample : Int → Int
  reorder_channel_nch : Int → Int → Int → List Nat → List Nat
  avresample_convert : σ → List Nat → σ × Int × List Nat
  avcodec_encode_audio2 : σ → AVCodecContext → List Nat → Int → σ × EncOut

/-! ## encode_data -/

/-- Result of `encode_data`: the library state, the source block after the
in-place reordering, the source frame as it was on entry, the bytes stored at
`dst`, and the return value. -/
structure EncData (σ : Type) where
  codec : σ
  mem : List Nat
  frame : List Nat
  dst : List Nat
  ret : Int

/-- The statements of `encode_data` after the reordering: the optional
conversion by libavresample, then `avcodec_encode_audio2`.  `src` is the
reordered frame; the result is the library state, the bytes stored at `dst`
and the value returned. -/
def encode_src {σ : Type} (L : Lavc σ) (s : af_ac3enc_t) (cs : σ) (src : List Nat)
    (dst_len : Int) : σ × List Nat × Int :=
  if s.avr then
    let r := L.avresample_convert cs src
    if r.2.1 < 0 then (r.1, [], L.AF_ERROR)
    else if r.2.1 ≠ AC3_FRAME_SIZE then (r.1, [], -1)
    else
      let e := L.avcodec_encode_audio2 r.1 s.lavc_actx r.2.2 dst_len
      (e.1, e.2.pkt,
        if e.2.ret < 0 then e.2.ret
        else if e.2.got_frame ≠ 0 then (e.2.pkt.length : Int) else 0)
  else
    let e := L.avcodec_encode_audio2 cs s.lavc_actx src dst_len
    (e.1, e.2.pkt,
      if e.2.ret < 0 then e.2.ret
      else if e.2.got_frame ≠ 0 then (e.2.pkt.length : Int) else 0)

/-- Model of `encode_data(s, mem + off, dst, dst_len)`. -/
def encode_data {σ : Type} (L : Lavc σ) (s : af_ac3enc_t) (cs : σ)
    (mem : List Nat) (off : Nat) (dst_len : Int) : EncData σ :=
  let total_samples := AC3_FRAME_SIZE * s.lavc_actx.channels
  let bps := L.av_get_bytes_per_sample s.lavc_actx.sample_fmt
  let n := (total_samples * bps).toNat
  let frame := peek mem off n
  let mem1 :=
    if s.lavc_actx.channels ≥ 5 then
      poke mem off
        ((L.reorder_channel_nch s.lavc_actx.channels total_samples bps frame).take
          frame.length)
    else mem
  let e := encode_src L s cs (peek mem1 off n) dst_len
  { codec := e.1, mem := mem1, frame := frame, dst := e.2.1, ret := e.2.2 }

/-! ## play -/

/-- One recorded call of `encode_data`: the frame handed over (as it was
before the reordering), whether it came from the pending buffer, the offset of
`dest` in the output block, the size passed, the bytes stored at `dest`, and
the value returned. -/
structure EncCall where
  frame : List Nat
  from_pending : Bool
  dest : Int
  dst_len : Int
  pkt : List Nat
  ret : Int
deriving DecidableEq

/-- The variables of the loop of `play`.  `src` and `buf` are offsets into the
caller's block and into the output block. -/
structure PlayLoop (σ : Type) where
  s : af_ac3enc_t
  codec : σ
  in_mem : List Nat
  out_mem : List Nat
  src : Int
  left : Int
  buf : Int
  outsize : Int
  calls : List EncCall

/-- The statements of the S/PDIF framing that come before its `memset`: the
two sync words, `bsmod`, the data type and the length field `len << 3`. -/
def spdif_head (out_mem : List Nat) (buf : Int) (len : Int) : List Nat :=
  let dest := buf + 8
  let bsmod := (out_mem.getD (dest + 5).toNat 0) % 8
  let m1 := AV_WB16 out_mem buf.toNat 0xF872
  let m2 := AV_WB16 m1 (buf + 2).toNat 0x4E1F
  let m3 := poke m2 (buf + 4).toNat [bsmod]
  let m4 := poke m3 (buf + 5).toNat [0x01]
  AV_WB16 m4 (buf + 6).toNat (len * 8)

/-- The count `AC3_FRAME_SIZE * 2 * 2 - 8 - len` handed to the `memset` of the
S/PDIF framing of a payload of `len` bytes. -/
def pad_count (len : Int) : Int := AC3_FRAME_SIZE * 2 * 2 - 8 - len

/-- The S/PDIF framing of one payload of `len` bytes stored at `buf + 8`: the
header statements, then `memset(buf + 8 + len, 0, AC3_FRAME_SIZE * 2 * 2 - 8 -
len)`. -/
def spdif_frame (out_mem : List Nat) (buf : Int) (len : Int) : List Nat :=
  memset (spdif_head out_mem buf len) (buf + 8 + len).toNat 0 (pad_count len)

/-- How one pass through the body of the loop ends. -/
inductive Step (σ : Type) where
  | next : PlayLoop σ → Step σ
  | brk : PlayLoop σ → Step σ
  | null : PlayLoop σ → Step σ

/-- The `if (left + s->pending_len < s->expect_len)` branch: the input left
over is appended to the pending buffer. -/
def stash {σ : Type} (st : PlayLoop σ) : PlayLoop σ :=
  { st with
    s := { st.s with
      pending_data := poke st.s.pending_data st.s.pending_len.toNat
        (peek st.in_mem st.src.toNat st.left.toNat)
      pending_len := st.s.pending_len + st.left }
    src := st.src + st.left
    left := 0 }

/-- The `if (needs > 0)` statement: the pending buffer is topped off from the
input. -/
def top_off {σ : Type} (st : PlayLoop σ) : PlayLoop σ :=
  let needs := st.s.expect_len - st.s.pending_len
  if needs > 0 then
    { st with
      s := { st.s with
        pending_data := poke st.s.pending_data st.s.pending_len.toNat
          (peek st.in_mem st.src.toNat needs.toNat) }
      src := st.src + needs
      left := st.left - needs }
  else st

/-- The `if (s->pending_len)` branch: top off, encode the pending buffer,
clear `pending_len`.  The second component is `len`. -/
def encode_pending {σ : Type} (L : Lavc σ) (dest destsize : Int) (st : PlayLoop σ) :
    PlayLoop σ × Int :=
  let st0 := top_off st
  let r := encode_data L st0.s st0.codec st0.s.pending_data 0 destsize
  ({ st0 with
      s := { st0.s with pending_data := r.mem, pending_len := 0 }
      codec := r.codec
      out_mem := poke st0.out_mem dest.toNat r.dst
      calls := st0.calls ++ [⟨r.frame, true, dest, destsize, r.dst, r.ret⟩] }, r.ret)

/-- The `else` branch: encode straight from the input. -/
def encode_direct {σ : Type} (L : Lavc σ) (dest destsize : Int) (st : PlayLoop σ) :
    PlayLoop σ × Int :=
  let r := encode_data L st.s st.codec st.in_mem st.src.toNat destsize
  ({ st with
      codec := r.codec
      in_mem := r.mem
      out_mem := poke st.out_mem dest.toNat r.dst
      src := st.src + st.s.expect_len
      left := st.left - st.s.expect_len
      calls := st.calls ++ [⟨r.frame, false, dest, destsize, r.dst, r.ret⟩] }, r.ret)

/-- The statements after `if (len <= 0) return NULL;`: the optional S/PDIF
framing, then `outsize += len; buf += len;`. -/
def emit {σ : Type} (st : PlayLoop σ) (len : Int) : PlayLoop σ :=
  let st3 : PlayLoop σ × Int :=
    if st.s.add_iec61937_header ≠ 0 then
      ({ st with out_mem := spdif_frame st.out_mem st.buf len }, AC3_FRAME_SIZE * 2 * 2)
    else (st, len)
  { st3.1 with outsize := st3.1.outsize + st3.2, buf := st3.1.buf + st3.2 }

/-- The statements from `dest = ...` to the call of `encode_data`, in either
branch of `if (s->pending_len)`.  The second component is `len`. -/
def enc_step {σ : Type} (L : Lavc σ) (l_len : Int) (st : PlayLoop σ) : PlayLoop σ × Int :=
  let dest := if st.s.add_iec61937_header ≠ 0 then st.buf + 8 else st.buf
  let destsize := l_len - st.buf
  if st.s.pending_len ≠ 0 then encode_pending L dest destsize st
  else encode_direct L dest destsize st

/-- The body of `while (left > 0)`; `l_len` is `l->len`. -/
def play_body {σ : Type} (L : Lavc σ) (l_len : Int) (st : PlayLoop σ) : Step σ :=
  if st.left + st.s.pending_len < st.s.expect_len then Step.brk (stash st)
  else
    let e := enc_step L l_len st
    if e.2 ≤ 0 then Step.null e.1 else Step.next (emit e.1 e.2)

/-- The loop of `play`, with a bound on the number of passes.  The result is
the final variables and whether the loop was left normally (`true`) or by
`return NULL` (`false`); `none` when the bound is used up. -/
def play_loop {σ : Type} (L : Lavc σ) (l_len : Int) :
    Nat → PlayLoop σ → Option (Bool × PlayLoop σ)
  | 0, st => if st.left > 0 then none else some (true, st)
  | fuel + 1, st =>
    if st.left > 0 then
      match play_body L l_len st with
      | Step.next st1 => play_loop L l_len fuel st1
      | Step.brk st1 => some (true, st1)
      | Step.null st1 => some (false, st1)
    else some (true, st)

/-- The outcome of `malloc` in one call of `play`: the address returned
(0 is NULL) and the indeterminate content of the fresh block. -/
structure Malloc where
  addr : Nat
  fill : Nat → Nat

/-- What a call of `play` leaves behind.  `ret` is `false` for `return NULL`
and `true` for `return c`, in which case `data` is the descriptor returned. -/
structure PlayResult (σ : Type) where
  af : af_instance_s
  codec : σ
  data : af_data_t
  in_mem : List Nat
  ret : Bool
  calls : List EncCall

/-- The value of `max_output_len` computed at the start of `play` for an input
of `len` bytes. -/
def max_output_len (s : af_ac3enc_t) (len : Int) : Int :=
  let frame_num := (len + s.pending_len).tdiv s.expect_len
  if s.add_iec61937_header ≠ 0 then AC3_FRAME_SIZE * 2 * 2 * frame_num
  else AC3_MAX_CODED_FRAME_SIZE * frame_num

/-- The output block after the `if (af->data->len < max_output_len)` statement
when `malloc` did not return NULL. -/
def resize (m : Malloc) (af : af_instance_s) (len : Int) : af_instance_s :=
  if af.data.len < max_output_len af.setup len then
    { af with
      data := { af.data with audio := m.addr, len := max_output_len af.setup len }
      audio_mem := (List.range (max_output_len af.setup len).toNat).map m.fill }
  else af

/-- The variables of the loop when it is entered. -/
def loop_init {σ : Type} (af : af_instance_s) (cs : σ) (data : af_data_t)
    (in_mem : List Nat) : PlayLoop σ :=
  { s := af.setup, codec := cs, in_mem := in_mem, out_mem := af.audio_mem,
    src := 0, left := data.len, buf := 0, outsize := 0, calls := [] }

/-- What `play` leaves behind once the loop is left: by `return NULL` when
`b` is `false`, through the assignments to `c` and `return c` otherwise. -/
def play_done {σ : Type} (af1 : af_instance_s) (data : af_data_t) (b : Bool)
    (st : PlayLoop σ) : PlayResult σ :=
  { af := { af1 with setup := st.s, audio_mem := st.out_mem }
    codec := st.codec
    data := if b then { data with audio := af1.data.audio, nch := 2, bps := 2,
                                  len := st.outsize }
            else data
    in_mem := st.in_mem
    ret := b
    calls := st.calls }

/-- What `play` leaves behind when `malloc` returns NULL. -/
def play_nomem {σ : Type} (af : af_instance_s) (cs : σ) (data : af_data_t)
    (in_mem : List Nat) : PlayResult σ :=
  { af := { af with data := { af.data with audio := 0 }, audio_mem := [] }
    codec := cs, data := data, in_mem := in_mem, ret := false, calls := [] }

/-- Model of `play(af, data)`.  `in_mem` is the content of the block
`data->audio`.  The result is `none` for the division by zero when
`expect_len` is 0 and for a loop that does not end. -/
def play {σ : Type} (L : Lavc σ) (m : Malloc) (af : af_instance_s) (cs : σ)
    (data : af_data_t) (in_mem : List Nat) : Option (PlayResult σ) :=
  if af.setup.expect_len = 0 then none
  else if af.data.len < max_output_len af.setup data.len ∧ m.addr = 0 then
    some (play_nomem af cs data in_mem)
  else
    let af1 := resize m af data.len
    (play_loop L af1.data.len (data.len.toNat + 1) (loop_init af1 cs data in_mem)).map
      fun x => play_done af1 data x.1 x.2

/-- The bytes handed back by a call of `play`: the first `c->len` bytes of the
output block, nothing when the call returned NULL. -/
def PlayResult.output {σ : Type} (r : PlayResult σ) : List Nat :=
  if r.ret then r.af.audio_mem.take r.data.len.toNat else []

/-- A sequence of data calls on one filter instance, each with its own
outcome of `malloc`, descriptor and input block.  The result is the instance
and the library state after the last call, and the concatenation of the bytes
handed back by the calls. -/
def play_seq {σ : Type} (L : Lavc σ) :
    List (Malloc × af_data_t × List Nat) → af_instance_s → σ →
      Option (af_instance_s × σ × List Nat)
  | [], af, cs => some (af, cs, [])
  | c :: rest, af, cs =>
    match play L c.1 af cs c.2.1 c.2.2 with
    | none => none
    | some r =>
      match play_seq L rest r.af r.codec with
      | none => none
      | some x => some (x.1, x.2.1, r.output ++ x.2.2)

/-! ## control -/

/-- The part of `af.h`, `af_format.h`, libavcodec and libavresample that
`control` uses; none of it is among the sources. -/
structure Host (σ : Type) where
  AF_DETACH : Int
  AF_OK : Int
  AF_UNKNOWN : Int
  AF_FORMAT_AC3_BE : Int
  AF_FORMAT_IS_AC3 : Int → Bool
  af_fmt2bits : Int → Int
  af_test_output : af_data_t → af_data_t → Int × af_data_t
  av_get_default_channel_layout : Int → Int
  av_get_packed_sample_fmt : Int → Int
  avcodec_close : σ → AVCodecContext → σ × AVCodecContext
  avresample_close : σ → σ
  av_samples_alloc : σ → Int → Int → σ × Int
  avresample_open : σ → Int → Int → Int → Int → σ × Int
  avcodec_open2 : σ → AVCodecContext → σ × Int × AVCodecContext

/-- The library calls that `control` can make. -/
inductive LibCall where
  | avcodec_close
  | avresample_close
  | av_samples_alloc
  | avresample_open
  | avcodec_open2
deriving DecidableEq

/-- The commands handled by `control`.  The argument of REINIT is the
descriptor `*data`; the argument of COMMAND_LINE is given by the integers
that `sscanf` converts from the string, in order (at most the first three
count). -/
inductive Cmd where
  | AF_CONTROL_REINIT (data : af_data_t)
  | AF_CONTROL_COMMAND_LINE (fields : List Int)
  | other

/-- What a call of `control` leaves behind: the filter, the library state,
the descriptor `*data` of REINIT (`none` for the other commands), the value
returned, and the library calls made. -/
structure CtlResult (σ : Type) where
  af : af_instance_s
  lib : σ
  data : Option af_data_t
  ret : Int
  log : List LibCall

def default_bit_rate : List Int :=
  [0, 96000, 192000, 256000, 384000, 448000, 448000]

/-- The value of `i` after the loop over `ac3_bitrate_tab`: the index of the
first entry with `ac3_bitrate_tab[i] * 1000 == bit_rate`, 19 if there is
none. -/
def bitrate_index (bit_rate : Int) : Nat :=
  ac3_bitrate_tab.findIdx fun t => decide (t * 1000 = bit_rate)

/-- Model of `case AF_CONTROL_COMMAND_LINE`. -/
def command_line (s : af_ac3enc_t) (fields : List Int) : af_ac3enc_t :=
  let hdr := fields.getD 0 0
  let br0 := fields.getD 1 0
  let mc0 := fields.getD 2 0
  let br1 := if br0 < 1000 then br0 * 1000 else br0
  let br2 := if br1 ≠ 0 then (if bitrate_index br1 ≥ 19 then 0 else br1) else br1
  let mc1 := if mc0 = 0 then 5 else mc0
  { s with add_iec61937_header := hdr, bit_rate := br2, min_channel_num := mc1 }

/-- What the reopening part of REINIT leaves behind: whether it got through
(`false` stands for `return AF_ERROR`), the codec context, the library state
and the library calls made. -/
structure Reopen (σ : Type) where
  ok : Bool
  ctx : AVCodecContext
  lib : σ
  log : List LibCall

/-- The statement `if (avcodec_open2(...) < 0) return AF_ERROR;` after the
three assignments to the context. -/
def open_codec {σ : Type} (H : Host σ) (ctx : AVCodecContext) (lib : σ)
    (log : List LibCall) : Reopen σ :=
  let o := H.avcodec_open2 lib ctx
  { ok := decide (¬ o.2.1 < 0), ctx := o.2.2, lib := o.1,
    log := log ++ [LibCall.avcodec_open2] }

/-- The statements of REINIT from the comparison with the open configuration
up to the call of `avcodec_open2`; `nch` and `rate` are `af->data->nch` and
`af->data->rate`. -/
def reopen {σ : Type} (H : Host σ) (s : af_ac3enc_t) (nch rate bit_rate : Int) (lib : σ) :
    Reopen σ :=
  if s.lavc_actx.channels ≠ nch ∨ s.lavc_actx.sample_rate ≠ rate ∨
      s.lavc_actx.bit_rate ≠ bit_rate then
    let c := H.avcodec_close lib s.lavc_actx
    let ctx1 : AVCodecContext :=
      { c.2 with channels := nch, sample_rate := rate, bit_rate := bit_rate }
    if s.avr then
      let ch_layout := H.av_get_default_channel_layout nch
      let in_sample_fmt := H.av_get_packed_sample_fmt c.2.sample_fmt
      let lib1 := H.avresample_close c.1
      let log1 := [LibCall.avcodec_close, LibCall.avresample_close]
      let a : σ × Int × List LibCall :=
        if nch ≠ c.2.channels then
          let r := H.av_samples_alloc lib1 nch c.2.sample_fmt
          (r.1, r.2, log1 ++ [LibCall.av_samples_alloc])
        else (lib1, 0, log1)
      if a.2.1 < 0 then { ok := false, ctx := c.2, lib := a.1, log := a.2.2 }
      else
        let r := H.avresample_open a.1 ch_layout rate in_sample_fmt c.2.sample_fmt
        if r.2 < 0 then
          { ok := false, ctx := c.2, lib := r.1, log := a.2.2 ++ [LibCall.avresample_open] }
        else open_codec H ctx1 r.1 (a.2.2 ++ [LibCall.avresample_open])
    else open_codec H ctx1 c.1 [LibCall.avcodec_close]
  else { ok := true, ctx := s.lavc_actx, lib := lib, log := [] }

/-- Model of `control(af, cmd, arg)`.  The result is `none` when the
`assert` of REINIT fails. -/
def control {σ : Type} (L : Lavc σ) (H : Host σ) (af : af_instance_s) (lib : σ) :
    Cmd → Option (CtlResult σ)
  | Cmd.AF_CONTROL_REINIT data =>
    let s := af.setup
    if H.AF_FORMAT_IS_AC3 data.format = true ∨ data.nch < s.min_channel_num then
      some { af := af, lib := lib, data := some data, ret := H.AF_DETACH, log := [] }
    else
      let d1 : af_data_t :=
        { af.data with
          format := s.in_sampleformat
          bps := (H.af_fmt2bits s.in_sampleformat).tdiv 8
          rate := if data.rate = 48000 ∨ data.rate = 44100 ∨ data.rate = 32000 then data.rate
                  else 48000
          nch := if data.nch > AC3_MAX_CHANNELS then AC3_MAX_CHANNELS else data.nch }
      let t := H.af_test_output d1 data
      let expect_len := AC3_FRAME_SIZE * t.2.nch * d1.bps
      if ¬ expect_len ≤ s.pending_data_size then none
      else
        let mul : ℚ :=
          if s.add_iec61937_header ≠ 0 then ((AC3_FRAME_SIZE : ℚ) * 2 * 2) / (expect_len : ℚ)
          else (AC3_MAX_CODED_FRAME_SIZE : ℚ) / (expect_len : ℚ)
        let bit_rate := if s.bit_rate ≠ 0 then s.bit_rate
                        else default_bit_rate.getD d1.nch.toNat 0
        let o := reopen H s d1.nch d1.rate bit_rate lib
        let s2 : af_ac3enc_t :=
          { s with pending_len := 0, expect_len := expect_len, lavc_actx := o.ctx }
        if o.ok = false ∨ o.ctx.frame_size ≠ AC3_FRAME_SIZE then
          some { af := { af with setup := s2, data := d1, mul := mul }
                 lib := o.lib, data := some t.2, ret := L.AF_ERROR, log := o.log }
        else
          some { af := { af with
                         setup := s2
                         data := { d1 with format := H.AF_FORMAT_AC3_BE, bps := 2, nch := 2 }
                         mul := mul }
                 lib := o.lib, data := some t.2, ret := t.1, log := o.log }
  | Cmd.AF_CONTROL_COMMAND_LINE fields =>
    some { af := { af with setup := command_line af.setup fields }, lib := lib,
           data := none, ret := H.AF_OK, log := [] }
  | Cmd.other =>
    some { af := af, lib := lib, data := none, ret := H.AF_UNKNOWN, log := [] }

/-- The eight header bytes of a burst. -/
def spdif_header (bsmod : Nat) (len : Int) : List Nat :=
  [0xF8, 0x72, 0x4E, 0x1F, bsmod, 0x01, ((len * 8 / 256) % 256).toNat, ((len * 8) % 256).toNat]

/-- The burst of one payload: header, payload, zero padding up to
`AC3_FRAME_SIZE * 2 * 2` bytes. -/
def spdif_burst (bsmod : Nat) (pkt : List Nat) : List Nat :=
  spdif_header bsmod pkt.length ++ pkt ++ List.replicate (6136 - pkt.length) 0

/-- The fields of the session that `play` never assigns, and the size of the
pending block. -/
def SameCfg (s s' : af_ac3enc_t) : Prop :=
  s'.avr = s.avr ∧ s'.lavc_actx = s.lavc_actx ∧
  s'.add_iec61937_header = s.add_iec61937_header ∧ s'.bit_rate = s.bit_rate ∧
  s'.pending_data_size = s.pending_data_size ∧ s'.expect_len = s.expect_len ∧
  s'.min_channel_num = s.min_channel_num ∧ s'.in_sampleformat = s.in_sampleformat ∧
  s'.pending_data.length = s.pending_data.length

/-- A trace entry that records a call of `encode_data` under the codec
configuration of `s`. -/
def FromEnc {σ : Type} (L : Lavc σ) (s : af_ac3enc_t) (c : EncCall) : Prop :=
  ∃ (s' : af_ac3enc_t) (cs : σ) (mem : List Nat) (off : Nat),
    s'.avr = s.avr ∧ s'.lavc_actx = s.lavc_actx ∧
    c.ret = (encode_data L s' cs mem off c.dst_len).ret ∧
    c.pkt = (encode_data L s' cs mem off c.dst_len).dst ∧
    c.frame = (encode_data L s' cs mem off c.dst_len).frame

/-! ## Concrete sessions -/

/-- A library whose encoder stores the packet `pkt` for every frame and
reports `got` as the got-packet flag; 16-bit samples, no reordering. -/
def exLavc (pkt : List Nat) (got : Int) : Lavc Unit :=
  { AF_ERROR := -2
    av_get_bytes_per_sample := fun _ => 2
    reorder_channel_nch := fun _ _ _ bytes => bytes
    avresample_convert := fun cs bytes => (cs, 1536, bytes)
    avcodec_encode_audio2 := fun cs _ _ _ => (cs, ⟨0, got, pkt⟩) }

/-- The session of a filter opened for six channels of packed 16-bit samples:
`expect_len` is `1536 * 6 * 2`. -/
def exSession (hdr : Int) : af_ac3enc_t :=
  { avr := false
    lavc_actx := ⟨6, 48000, 448000, 1536, 1⟩
    add_iec61937_header := hdr
    bit_rate := 0
    pending_data_size := 24576
    pending_data := List.replicate 24576 0
    pending_len := 0
    expect_len := 18432
    min_channel_num := 5
    in_sampleformat := 0 }

/-- The filter instance before its first data call. -/
def exAf (hdr : Int) : af_instance_s :=
  { setup := exSession hdr, data := ⟨0, 0, 48000, 2, 0, 2⟩, audio_mem := [], mul := 1 }

/-- The descriptor of an input block of `n` bytes. -/
def exData (n : Int) : af_data_t := ⟨1, n, 48000, 6, 0, 2⟩

/-- A `malloc` that succeeds. -/
def exMalloc : Malloc := ⟨2, fun _ => 0xAA⟩

/-- A `malloc` that succeeds and returns a block with other content. -/
def exMallocB : Malloc := ⟨3, fun _ => 0x55⟩

/-- A library whose encoder fails with the error code `err` for every frame. -/
def exLavcErr (err : Int) : Lavc Unit :=
  { AF_ERROR := -2
    av_get_bytes_per_sample := fun _ => 2
    reorder_channel_nch := fun _ _ _ bytes => bytes
    avresample_convert := fun cs bytes => (cs, 1536, bytes)
    avcodec_encode_audio2 := fun cs _ _ _ => (cs, ⟨err, 0, []⟩) }

/-- A filter instance with S/PDIF framing whose output block holds the two
bursts of an earlier call, each with a payload of 1792 bytes `0B`, so that
the `bsmod` byte of both is 3. -/
def exAfUsed : af_instance_s :=
  { setup := exSession 1, data := ⟨2, 12288, 48000, 2, 0, 2⟩,
    audio_mem := spdif_burst 3 (List.replicate 1792 0x0B)
      ++ spdif_burst 3 (List.replicate 1792 0x0B),
    mul := 1 }

/-- The descriptor of a stereo stream of 16-bit samples. -/
def exStereo : af_data_t := ⟨1, 4096, 44100, 2, 0, 2⟩

/-- A host in which every library call succeeds and the encoder reports its
frame size on opening. -/
def exHost : Host Unit :=
  { AF_DETACH := 2
    AF_OK := 1
    AF_UNKNOWN := -1
    AF_FORMAT_AC3_BE := 0x400
    AF_FORMAT_IS_AC3 := fun fmt => decide (fmt = 0x400)
    af_fmt2bits := fun _ => 16
    af_test_output := fun d out => if d = out then (1, out) else (0, d)
    av_get_default_channel_layout := fun n => n
    av_get_packed_sample_fmt := fun f => f
    avcodec_close := fun cs ctx => (cs, ctx)
    avresample_close := fun cs => cs
    av_samples_alloc := fun cs _ _ => (cs, 0)
    avresample_open := fun cs _ _ _ _ => (cs, 0)
    avcodec_open2 := fun cs ctx => (cs, 0, { ctx with frame_size := 1536 }) }

/-- The number of bytes `encode_data` reads at `src`:
`total_samples * bps`. -/
def frame_bytes {σ : Type} (L : Lavc σ) (s : af_ac3enc_t) : Int :=
  AC3_FRAME_SIZE * s.lavc_actx.channels * L.av_get_bytes_per_sample s.lavc_actx.sample_fmt

/-- The bytes still to be framed at the head of the loop: the pending bytes,
then the input from `src` on. -/
def stream {σ : Type} (st : PlayLoop σ) : List Nat :=
  st.s.pending_data.take st.s.pending_len.toNat ++ st.in_mem.drop st.src.toNat

/-- The loop variables are consistent: `pending_len` within `expect_len`,
`expect_len` within the pending block and equal to the number of bytes that
`encode_data` reads, `src` and `left` delimit the rest of the input block. -/
structure LoopOK {σ : Type} (L : Lavc σ) (st : PlayLoop σ) : Prop where
  hE : 0 < st.s.expect_len
  hp0 : 0 ≤ st.s.pending_len
  hp : st.s.pending_len < st.s.expect_len
  hcap : st.s.expect_len ≤ st.s.pending_data.length
  hfb : frame_bytes L st.s = st.s.expect_len
  hsrc : 0 ≤ st.src
  hleft : 0 ≤ st.left
  hin : st.src + st.left = st.in_mem.length

/-- The bytes a data call has to frame: the pending bytes, then the input. -/
def call_stream (s : af_ac3enc_t) (in_mem : List Nat) : List Nat :=
  s.pending_data.take s.pending_len.toNat ++ in_mem

/-- The offset of `dest` in the output block. -/
def dest_of {σ : Type} (st : PlayLoop σ) : Int :=
  if st.s.add_iec61937_header ≠ 0 then st.buf + 8 else st.buf

/-- The burst of the call `c` stands at offset `off` of the output block: the
header with the length field of `c.ret`; and, when the payload is `c.ret`
bytes long and at most 6136 bytes, the whole burst, with the `bsmod` byte
taken from byte 5 of the payload when the payload has one. -/
def BurstAt (mem : List Nat) (off : Nat) (c : EncCall) : Prop :=
  (∃ bs, peek mem off 8 = spdif_header bs c.ret) ∧
  (c.ret = c.pkt.length → c.pkt.length ≤ 6136 →
    ∃ bs, peek mem off 6144 = spdif_burst bs c.pkt ∧
      (6 ≤ c.pkt.length → bs = c.pkt.getD 5 0 % 8))

/-- The loop variables of a session with S/PDIF framing: the output block has
room for the bursts of all the frames still to come. -/
structure HdrOK {σ : Type} (st : PlayLoop σ) : Prop where
  hdr : st.s.add_iec61937_header ≠ 0
  hE : 0 < st.s.expect_len
  hp0 : 0 ≤ st.s.pending_len
  hp : st.s.pending_len < st.s.expect_len
  hleft : 0 ≤ st.left
  hbuf : 0 ≤ st.buf
  hcap : ∃ f : Nat, st.left + st.s.pending_len < (f + 1) * st.s.expect_len ∧
    st.buf + 6144 * f ≤ st.out_mem.length

/-- The variables of the loop when `play` enters it in a fresh session with
S/PDIF framing that is fed two frames: the output block is the fresh block of
12288 bytes. -/
def exLoop2 : PlayLoop Unit :=
  loop_init (resize exMalloc (exAf 1) (exData 36864).len) () (exData 36864)
    (List.replicate 36864 7)

/-- A frame after `reorder_channel_nch` has worked on it in place. -/
def reordered {σ : Type} (L : Lavc σ) (s : af_ac3enc_t) (frame : List Nat) : List Nat :=
  if s.lavc_actx.channels ≥ 5 then
    poke frame 0
      ((L.reorder_channel_nch s.lavc_actx.channels (AC3_FRAME_SIZE * s.lavc_actx.channels)
          (L.av_get_bytes_per_sample s.lavc_actx.sample_fmt) frame).take frame.length)
  else frame

/-- What one payload adds to the output: the payload itself, or its burst
when S/PDIF framing is on. -/
def contrib (hdr : Int) (pkt : List Nat) : List Nat :=
  if hdr ≠ 0 then spdif_burst (pkt.getD 5 0 % 8) pkt else pkt

/-- The framing of a byte stream as a function: whole frames of `E` bytes are
encoded in order, their contributions are concatenated, the rest is left
over.  The result is the library state, the output and the bytes left over. -/
def spec_run {σ : Type} (L : Lavc σ) (s : af_ac3enc_t) (E : Nat) (cs : σ) (S : List Nat) :
    σ × List Nat × List Nat :=
  if _h : 0 < E ∧ E ≤ S.length then
    let e := encode_src L s cs (reordered L s (S.take E)) 0
    let R := spec_run L s E e.1 (S.drop E)
    (R.1, contrib s.add_iec61937_header e.2.1 ++ R.2.1, R.2.2)
  else (cs, [], S)
termination_by S.length
decreasing_by
  simp only [List.length_drop]
  omega

/-- The room one frame may take in the output block: a burst with S/PDIF
framing, a coded frame of the maximum size without. -/
def unit_size (hdr : Int) : Int := if hdr ≠ 0 then 6144 else 3840

/-- The encoder of a session: what it returns and stores does not depend on
the size of the destination, the value `encode_data` returns is the number of
bytes stored, and this number is between 1 and `AC3_MAX_CODED_FRAME_SIZE`, and
at least 6 when S/PDIF framing is on. -/
structure GoodEngine {σ : Type} (L : Lavc σ) (s : af_ac3enc_t) : Prop where
  hd : ∀ cs ctx f d d',
    L.avcodec_encode_audio2 cs ctx f d = L.avcodec_encode_audio2 cs ctx f d'
  hgood : ∀ cs src, (encode_src L s cs src 0).2.2 = (encode_src L s cs src 0).2.1.length ∧
    1 ≤ (encode_src L s cs src 0).2.1.length ∧
    (encode_src L s cs src 0).2.1.length ≤ 3840 ∧
    (s.add_iec61937_header ≠ 0 → 6 ≤ (encode_src L s cs src 0).2.1.length)

/-- The output block has room for all the frames still to come. -/
structure Room {σ : Type} (st : PlayLoop σ) : Prop where
  hbuf : 0 ≤ st.buf
  hroom : ∃ f : Nat, st.left + st.s.pending_len < (f + 1) * st.s.expect_len ∧
    st.buf + unit_size st.s.add_iec61937_header * f ≤ st.out_mem.length

/-- A filter instance in the state that `af_open`, REINIT and earlier data
calls leave behind: `0 ≤ pending_len < expect_len`, `expect_len` within the
pending block and equal to the number of bytes `encode_data` reads per frame,
and the output block at least as large as its recorded size. -/
structure PlayOK {σ : Type} (L : Lavc σ) (af : af_instance_s) : Prop where
  hE : 0 < af.setup.expect_len
  hp0 : 0 ≤ af.setup.pending_len
  hp : af.setup.pending_len < af.setup.expect_len
  hcap : af.setup.expect_len ≤ af.setup.pending_data.length
  hfb : frame_bytes L af.setup = af.setup.expect_len
  hmem : af.data.len ≤ af.audio_mem.length

/-- The input blocks of a sequence of calls, one after the other. -/
def inputs (calls : List (Malloc × af_data_t × List Nat)) : List Nat :=
  (calls.map fun c => c.2.2).flatten

/-- The condition of `return AF_DETACH` in REINIT. -/
def detaches {σ : Type} (H : Host σ) (af : af_instance_s) (data : af_data_t) : Prop :=
  H.AF_FORMAT_IS_AC3 data.format = true ∨ data.nch < af.setup.min_channel_num

/-- The descriptor `*af->data` after the assignments at the head of REINIT:
the input sample format and its byte width, the rate, the channel count. -/
def reinit_data {σ : Type} (H : Host σ) (af : af_instance_s) (data : af_data_t) : af_data_t :=
  { af.data with
    format := af.setup.in_sampleformat
    bps := (H.af_fmt2bits af.setup.in_sampleformat).tdiv 8
    rate := if data.rate = 48000 ∨ data.rate = 44100 ∨ data.rate = 32000 then data.rate
            else 48000
    nch := if data.nch > AC3_MAX_CHANNELS then AC3_MAX_CHANNELS else data.nch }

/-- The value assigned to `s->expect_len` in REINIT; `data->nch` is read after
the call of `af_test_output`. -/
def reinit_expect_len {σ : Type} (H : Host σ) (af : af_instance_s) (data : af_data_t) : Int :=
  AC3_FRAME_SIZE * (H.af_test_output (reinit_data H af data) data).2.nch
    * (reinit_data H af data).bps

/-- The local variable `bit_rate` of REINIT. -/
def reinit_bit_rate (s : af_ac3enc_t) (nch : Int) : Int :=
  if s.bit_rate ≠ 0 then s.bit_rate else default_bit_rate.getD nch.toNat 0

/-- The context handed to `avcodec_open2` in REINIT: the context as
`avcodec_close` left it, with the three sample parameters assigned. -/
def open_request {σ : Type} (H : Host σ) (s : af_ac3enc_t) (nch rate bit_rate : Int)
    (lib : σ) : AVCodecContext :=
  { (H.avcodec_close lib s.lavc_actx).2 with
    channels := nch, sample_rate := rate, bit_rate := bit_rate }

/-- The value of `af->mul` assigned in REINIT, as an exact rational. -/
def reinit_mul (s : af_ac3enc_t) (expect_len : Int) : ℚ :=
  if s.add_iec61937_header ≠ 0 then ((AC3_FRAME_SIZE : ℚ) * 2 * 2) / (expect_len : ℚ)
  else (AC3_MAX_CODED_FRAME_SIZE : ℚ) / (expect_len : ℚ)

/-- The sample rate that the negotiation is specified to choose for the input
rate `R_in`: `R_in` when it is 32000, 44100 or 48000, and 48000 otherwise. -/
def spec_negotiated_rate (R_in : Int) : Int :=
  if R_in = 32000 ∨ R_in = 44100 ∨ R_in = 48000 then R_in else 48000

/-- An input descriptor of eight channels at 44100 Hz. -/
def exData8 : af_data_t := ⟨1, 4096, 44100, 8, 0, 2⟩

/-- An input descriptor of five channels at 48000 Hz. -/
def exData5 : af_data_t := ⟨1, 4096, 48000, 5, 0, 2⟩

/-- The bit-rate field `b` of the configuration string after
`if (s->bit_rate < 1000) s->bit_rate *= 1000;`. -/
def scaled_bit_rate (b : Int) : Int := if b < 1000 then b * 1000 else b

/-- Following the words of the specification: the entry of the bit-rate table,
times 1000, that is nearest to `b` (the lower one of two that are equally
near). -/
def spec_nearest_bit_rate (b : Int) : Int :=
  (ac3_bitrate_tab.map fun t => t * 1000).foldl
    (fun best t => if (t - b).natAbs < (best - b).natAbs then t else best) 32000

/-- A host like `exHost` whose `avcodec_open2` fails for a context of five
channels, which it leaves as it was given. -/
def exHostFail : Host Unit :=
  { exHost with
    avcodec_open2 := fun cs ctx =>
      if ctx.channels = 5 then (cs, -22, ctx) else (cs, 0, { ctx with frame_size := 1536 }) }

/-- The filter instance as `af_open` leaves it: the codec context not yet
opened. -/
def exAfFresh : af_instance_s :=
  { exAf 0 with setup := { exSession 0 with lavc_actx := ⟨0, 0, 0, 0, 1⟩ } }

/-- A filter instance in which a data call has left half a frame pending. -/
def exAfPending : af_instance_s :=
  { exAf 0 with setup := { exSession 0 with pending_len := 9216 } }

/-- The loop variables at the head of a pass, measured against the recorded
size `l->len` of the output block: the bytes emitted so far, plus the room of
one frame for every frame still to encode, fit. -/
structure Within {σ : Type} (l_len : Int) (st : PlayLoop σ) : Prop where
  hE : 0 < st.s.expect_len
  hp0 : 0 ≤ st.s.pending_len
  hp : st.s.pending_len < st.s.expect_len
  hleft : 0 ≤ st.left
  hbuf : 0 ≤ st.buf
  hroom : st.buf + unit_size st.s.add_iec61937_header
      * ((st.left + st.s.pending_len) / st.s.expect_len) ≤ l_len

/-! ## ao_lavc: fill_with_padding -/

/-- The `int` value of `*(char *)p` for the byte `b` at `p`: negative for a
byte of 128 or more where `char` is signed. -/
def char_value (char_signed : Bool) (b : Nat) : Int :=
  if char_signed = true ∧ 128 ≤ b then (b : Int) - 256 else (b : Int)

/-- Model of `memcpy(mem + off, src, n)`. -/
def memcpy (mem : List Nat) (off : Nat) (src : List Nat) (n : Int) : List Nat :=
  poke mem off (src.take n.toNat)

/-- The loop `for (i = 0; i < cnt; ++i) memcpy((char *) buf + i * sz, padding, sz);`
of `fill_with_padding`, from the index `i` on, with `todo` passes to go. -/
def fill_loop (off : Nat) (sz : Int) (padding : List Nat) : Nat → Int → List Nat → List Nat
  | 0, _, mem => mem
  | todo + 1, i, mem =>
    fill_loop off sz padding todo (i + 1) (memcpy mem (off + (i * sz).toNat) padding sz)

/-- Model of `fill_with_padding(mem + off, cnt, sz, padding)`.  `memset`
takes the value `cnt` as an `unsigned char` and the count `*(char *)padding`
as a `size_t`. -/
def fill_with_padding (char_signed : Bool) (mem : List Nat) (off : Nat) (cnt sz : Int)
    (padding : List Nat) : List Nat :=
  if sz = 1 then
    memset mem off (cnt % 256).toNat (char_value char_signed (padding.getD 0 0))
  else fill_loop off sz padding cnt.toNat 0 mem

/-- The padding of unsigned 8-bit samples, with the terminating zero of the
string literal. -/
def sample_padding_u8 : List Nat := [0x80, 0]

/-- The padding of signed samples, with the terminating zero of the string
literal. -/
def sample_padding_signed : List Nat := [0, 0, 0, 0, 0]

/-! ## fmt-conversion -/

/-- The `IMGFMT_*` constants named in `conversion_map`, taken as pairwise
distinct. -/
inductive ImgName where
  | IMGFMT_ARGB
  | IMGFMT_BGRA
  | IMGFMT_BGR24
  | IMGFMT_BGR16BE
  | IMGFMT_BGR16LE
  | IMGFMT_BGR15BE
  | IMGFMT_BGR15LE
  | IMGFMT_BGR12BE
  | IMGFMT_BGR12LE
  | IMGFMT_BGR8
  | IMGFMT_BGR4
  | IMGFMT_BGR1
  | IMGFMT_RGB1
  | IMGFMT_RG4B
  | IMGFMT_BG4B
  | IMGFMT_RGB48LE
  | IMGFMT_RGB48BE
  | IMGFMT_ABGR
  | IMGFMT_RGBA
  | IMGFMT_RGB24
  | IMGFMT_RGB16BE
  | IMGFMT_RGB16LE
  | IMGFMT_RGB15BE
  | IMGFMT_RGB15LE
  | IMGFMT_RGB12BE
  | IMGFMT_RGB12LE
  | IMGFMT_RGB8
  | IMGFMT_RGB4
  | IMGFMT_GBRP
  | IMGFMT_GBRP9
  | IMGFMT_GBRP10
  | IMGFMT_YUY2
  | IMGFMT_UYVY
  | IMGFMT_NV12
  | IMGFMT_NV21
  | IMGFMT_Y800
  | IMGFMT_Y8
  | IMGFMT_YVU9
  | IMGFMT_IF09
  | IMGFMT_YV12
  | IMGFMT_I420
  | IMGFMT_IYUV
  | IMGFMT_411P
  | IMGFMT_422P
  | IMGFMT_444P
  | IMGFMT_440P
  | IMGFMT_420A
  | IMGFMT_420P16_LE
  | IMGFMT_420P16_BE
  | IMGFMT_420P9_LE
  | IMGFMT_420P9_BE
  | IMGFMT_420P10_LE
  | IMGFMT_420P10_BE
  | IMGFMT_422P10_LE
  | IMGFMT_422P10_BE
  | IMGFMT_444P9_BE
  | IMGFMT_444P9_LE
  | IMGFMT_444P10_BE
  | IMGFMT_444P10_LE
  | IMGFMT_422P16_LE
  | IMGFMT_422P16_BE
  | IMGFMT_422P9_LE
  | IMGFMT_422P9_BE
  | IMGFMT_444P16_LE
  | IMGFMT_444P16_BE
  | IMGFMT_VDPAU_MPEG1
  | IMGFMT_VDPAU_MPEG2
  | IMGFMT_VDPAU_H264
  | IMGFMT_VDPAU_WMV3
  | IMGFMT_VDPAU_VC1
  | IMGFMT_VDPAU_MPEG4
deriving DecidableEq

/-- The `AV_PIX_FMT_*` constants named in `conversion_map`, apart from
`AV_PIX_FMT_NONE`, taken as pairwise distinct. -/
inductive PixName where
  | AV_PIX_FMT_ARGB
  | AV_PIX_FMT_BGRA
  | AV_PIX_FMT_BGR24
  | AV_PIX_FMT_RGB565BE
  | AV_PIX_FMT_RGB565LE
  | AV_PIX_FMT_RGB555BE
  | AV_PIX_FMT_RGB555LE
  | AV_PIX_FMT_RGB444BE
  | AV_PIX_FMT_RGB444LE
  | AV_PIX_FMT_RGB8
  | AV_PIX_FMT_RGB4
  | AV_PIX_FMT_MONOBLACK
  | AV_PIX_FMT_BGR4_BYTE
  | AV_PIX_FMT_RGB4_BYTE
  | AV_PIX_FMT_RGB48LE
  | AV_PIX_FMT_RGB48BE
  | AV_PIX_FMT_ABGR
  | AV_PIX_FMT_RGBA
  | AV_PIX_FMT_RGB24
  | AV_PIX_FMT_BGR565BE
  | AV_PIX_FMT_BGR565LE
  | AV_PIX_FMT_BGR555BE
  | AV_PIX_FMT_BGR555LE
  | AV_PIX_FMT_BGR444BE
  | AV_PIX_FMT_BGR444LE
  | AV_PIX_FMT_BGR8
  | AV_PIX_FMT_BGR4
  | AV_PIX_FMT_PAL8
  | AV_PIX_FMT_GBRP
  | AV_PIX_FMT_GBRP9
  | AV_PIX_FMT_GBRP10
  | AV_PIX_FMT_YUYV422
  | AV_PIX_FMT_UYVY422
  | AV_PIX_FMT_NV12
  | AV_PIX_FMT_NV21
  | AV_PIX_FMT_GRAY8
  | AV_PIX_FMT_YUV410P
  | AV_PIX_FMT_YUV420P
  | AV_PIX_FMT_YUV411P
  | AV_PIX_FMT_YUV422P
  | AV_PIX_FMT_YUV444P
  | AV_PIX_FMT_YUV440P
  | AV_PIX_FMT_YUVA420P
  | AV_PIX_FMT_YUV420P16LE
  | AV_PIX_FMT_YUV420P16BE
  | AV_PIX_FMT_YUV420P9LE
  | AV_PIX_FMT_YUV420P9BE
  | AV_PIX_FMT_YUV420P10LE
  | AV_PIX_FMT_YUV420P10BE
  | AV_PIX_FMT_YUV422P10LE
  | AV_PIX_FMT_YUV422P10BE
  | AV_PIX_FMT_YUV444P9BE
  | AV_PIX_FMT_YUV444P9LE
  | AV_PIX_FMT_YUV444P10BE
  | AV_PIX_FMT_YUV444P10LE
  | AV_PIX_FMT_YUV422P16LE
  | AV_PIX_FMT_YUV422P16BE
  | AV_PIX_FMT_YUV422P9LE
  | AV_PIX_FMT_YUV422P9BE
  | AV_PIX_FMT_YUV444P16LE
  | AV_PIX_FMT_YUV444P16BE
  | AV_PIX_FMT_YUVJ420P
  | AV_PIX_FMT_YUVJ422P
  | AV_PIX_FMT_YUVJ444P
  | AV_PIX_FMT_YUVJ440P
  | AV_PIX_FMT_VDPAU_MPEG1
  | AV_PIX_FMT_VDPAU_MPEG2
  | AV_PIX_FMT_VDPAU_H264
  | AV_PIX_FMT_VDPAU_WMV3
  | AV_PIX_FMT_VDPAU_VC1
  | AV_PIX_FMT_VDPAU_MPEG4
deriving DecidableEq

/-- An image format code (`int fmt`): 0, one of the `IMGFMT_*` constants of
`conversion_map`, or another value. -/
inductive ImgFmt where
  | zero
  | img (c : ImgName)
  | other (n : Nat)
deriving DecidableEq

/-- A pixel format (`enum AVPixelFormat`): `AV_PIX_FMT_NONE`, one of the other
`AV_PIX_FMT_*` constants of `conversion_map`, or another value. -/
inductive PixFmt where
  | AV_PIX_FMT_NONE
  | pix (c : PixName)
  | other (n : Nat)
deriving DecidableEq

/-- An entry of `conversion_map`. -/
structure MapEntry where
  fmt : ImgFmt
  pix_fmt : PixFmt
deriving DecidableEq

/-- The entry `{f, p}` of two named constants. -/
def entry (f : ImgName) (p : PixName) : MapEntry := ⟨ImgFmt.img f, PixFmt.pix p⟩

def conversion_map : List MapEntry :=
  [entry .IMGFMT_ARGB .AV_PIX_FMT_ARGB,
   entry .IMGFMT_BGRA .AV_PIX_FMT_BGRA,
   entry .IMGFMT_BGR24 .AV_PIX_FMT_BGR24,
   entry .IMGFMT_BGR16BE .AV_PIX_FMT_RGB565BE,
   entry .IMGFMT_BGR16LE .AV_PIX_FMT_RGB565LE,
   entry .IMGFMT_BGR15BE .AV_PIX_FMT_RGB555BE,
   entry .IMGFMT_BGR15LE .AV_PIX_FMT_RGB555LE,
   entry .IMGFMT_BGR12BE .AV_PIX_FMT_RGB444BE,
   entry .IMGFMT_BGR12LE .AV_PIX_FMT_RGB444LE,
   entry .IMGFMT_BGR8 .AV_PIX_FMT_RGB8,
   entry .IMGFMT_BGR4 .AV_PIX_FMT_RGB4,
   entry .IMGFMT_BGR1 .AV_PIX_FMT_MONOBLACK,
   entry .IMGFMT_RGB1 .AV_PIX_FMT_MONOBLACK,
   entry .IMGFMT_RG4B .AV_PIX_FMT_BGR4_BYTE,
   entry .IMGFMT_BG4B .AV_PIX_FMT_RGB4_BYTE,
   entry .IMGFMT_RGB48LE .AV_PIX_FMT_RGB48LE,
   entry .IMGFMT_RGB48BE .AV_PIX_FMT_RGB48BE,
   entry .IMGFMT_ABGR .AV_PIX_FMT_ABGR,
   entry .IMGFMT_RGBA .AV_PIX_FMT_RGBA,
   entry .IMGFMT_RGB24 .AV_PIX_FMT_RGB24,
   entry .IMGFMT_RGB16BE .AV_PIX_FMT_BGR565BE,
   entry .IMGFMT_RGB16LE .AV_PIX_FMT_BGR565LE,
   entry .IMGFMT_RGB15BE .AV_PIX_FMT_BGR555BE,
   entry .IMGFMT_RGB15LE .AV_PIX_FMT_BGR555LE,
   entry .IMGFMT_RGB12BE .AV_PIX_FMT_BGR444BE,
   entry .IMGFMT_RGB12LE .AV_PIX_FMT_BGR444LE,
   entry .IMGFMT_RGB8 .AV_PIX_FMT_BGR8,
   entry .IMGFMT_RGB4 .AV_PIX_FMT_BGR4,
   entry .IMGFMT_BGR8 .AV_PIX_FMT_PAL8,
   entry .IMGFMT_GBRP .AV_PIX_FMT_GBRP,
   entry .IMGFMT_GBRP9 .AV_PIX_FMT_GBRP9,
   entry .IMGFMT_GBRP10 .AV_PIX_FMT_GBRP10,
   entry .IMGFMT_YUY2 .AV_PIX_FMT_YUYV422,
   entry .IMGFMT_UYVY .AV_PIX_FMT_UYVY422,
   entry .IMGFMT_NV12 .AV_PIX_FMT_NV12,
   entry .IMGFMT_NV21 .AV_PIX_FMT_NV21,
   entry .IMGFMT_Y800 .AV_PIX_FMT_GRAY8,
   entry .IMGFMT_Y8 .AV_PIX_FMT_GRAY8,
   entry .IMGFMT_YVU9 .AV_PIX_FMT_YUV410P,
   entry .IMGFMT_IF09 .AV_PIX_FMT_YUV410P,
   entry .IMGFMT_YV12 .AV_PIX_FMT_YUV420P,
   entry .IMGFMT_I420 .AV_PIX_FMT_YUV420P,
   entry .IMGFMT_IYUV .AV_PIX_FMT_YUV420P,
   entry .IMGFMT_411P .AV_PIX_FMT_YUV411P,
   entry .IMGFMT_422P .AV_PIX_FMT_YUV422P,
   entry .IMGFMT_444P .AV_PIX_FMT_YUV444P,
   entry .IMGFMT_440P .AV_PIX_FMT_YUV440P,
   entry .IMGFMT_420A .AV_PIX_FMT_YUVA420P,
   entry .IMGFMT_420P16_LE .AV_PIX_FMT_YUV420P16LE,
   entry .IMGFMT_420P16_BE .AV_PIX_FMT_YUV420P16BE,
   entry .IMGFMT_420P9_LE .AV_PIX_FMT_YUV420P9LE,
   entry .IMGFMT_420P9_BE .AV_PIX_FMT_YUV420P9BE,
   entry .IMGFMT_420P10_LE .AV_PIX_FMT_YUV420P10LE,
   entry .IMGFMT_420P10_BE .AV_PIX_FMT_YUV420P10BE,
   entry .IMGFMT_422P10_LE .AV_PIX_FMT_YUV422P10LE,
   entry .IMGFMT_422P10_BE .AV_PIX_FMT_YUV422P10BE,
   entry .IMGFMT_444P9_BE .AV_PIX_FMT_YUV444P9BE,
   entry .IMGFMT_444P9_LE .AV_PIX_FMT_YUV444P9LE,
   entry .IMGFMT_444P10_BE .AV_PIX_FMT_YUV444P10BE,
   entry .IMGFMT_444P10_LE .AV_PIX_FMT_YUV444P10LE,
   entry .IMGFMT_422P16_LE .AV_PIX_FMT_YUV422P16LE,
   entry .IMGFMT_422P16_BE .AV_PIX_FMT_YUV422P16BE,
   entry .IMGFMT_422P9_LE .AV_PIX_FMT_YUV422P9LE,
   entry .IMGFMT_422P9_BE .AV_PIX_FMT_YUV422P9BE,
   entry .IMGFMT_444P16_LE .AV_PIX_FMT_YUV444P16LE,
   entry .IMGFMT_444P16_BE .AV_PIX_FMT_YUV444P16BE,
   entry .IMGFMT_YV12 .AV_PIX_FMT_YUVJ420P,
   entry .IMGFMT_422P .AV_PIX_FMT_YUVJ422P,
   entry .IMGFMT_444P .AV_PIX_FMT_YUVJ444P,
   entry .IMGFMT_440P .AV_PIX_FMT_YUVJ440P,
   entry .IMGFMT_VDPAU_MPEG1 .AV_PIX_FMT_VDPAU_MPEG1,
   entry .IMGFMT_VDPAU_MPEG2 .AV_PIX_FMT_VDPAU_MPEG2,
   entry .IMGFMT_VDPAU_H264 .AV_PIX_FMT_VDPAU_H264,
   entry .IMGFMT_VDPAU_WMV3 .AV_PIX_FMT_VDPAU_WMV3,
   entry .IMGFMT_VDPAU_VC1 .AV_PIX_FMT_VDPAU_VC1,
   entry .IMGFMT_VDPAU_MPEG4 .AV_PIX_FMT_VDPAU_MPEG4,
   MapEntry.mk ImgFmt.zero PixFmt.AV_PIX_FMT_NONE]

/-- Model of `imgfmt2pixfmt(fmt)`: the loop stops at the first entry whose
`fmt` is 0 or equal to `fmt`; the last entry of the table has `fmt` 0. -/
def imgfmt2pixfmt (fmt : ImgFmt) : PixFmt :=
  let i := conversion_map.findIdx fun e => decide (e.fmt = ImgFmt.zero ∨ e.fmt = fmt)
  (conversion_map.getD i ⟨ImgFmt.zero, PixFmt.AV_PIX_FMT_NONE⟩).pix_fmt

/-- Model of `pixfmt2imgfmt(pix_fmt)`: the loop stops at the first entry whose
`pix_fmt` is `AV_PIX_FMT_NONE` or equal to `pix_fmt`; the last entry of the
table has `AV_PIX_FMT_NONE`. -/
def pixfmt2imgfmt (pix_fmt : PixFmt) : ImgFmt :=
  let i := conversion_map.findIdx fun e =>
    decide (e.pix_fmt = PixFmt.AV_PIX_FMT_NONE ∨ e.pix_fmt = pix_fmt)
  (conversion_map.getD i ⟨ImgFmt.zero, PixFmt.AV_PIX_FMT_NONE⟩).fmt

/-- The format `f` stands in the first entry of `conversion_map` that has its
pixel format: some entry with `fmt = f` is the first one with its
`pix_fmt`. -/
def first_of_pix_fmt (f : ImgFmt) : Prop :=
  ∃ e ∈ conversion_map, e.fmt = f ∧
    conversion_map.find? (fun e' => decide (e'.pix_fmt = e.pix_fmt)) = some e

/-! ## Lemmas and theorems -/

theorem poke_length (mem : List Nat) (off : Nat) (bs : List Nat) :
    (poke mem off bs).length = mem.length := by
  simp only [poke, List.length_append, List.length_take, List.length_drop]
  omega

theorem peek_length (mem : List Nat) (off n : Nat) :
    (peek mem off n).length = min n (mem.length - off) := by
  simp [peek]

theorem peek_getElem? (mem : List Nat) (off n i : Nat) :
    (peek mem off n)[i]? = if i < n then mem[off + i]? else none := by
  simp only [peek, List.getElem?_take, List.getElem?_drop]

theorem poke_getElem? (mem : List Nat) (off : Nat) (bs : List Nat) (i : Nat) :
    (poke mem off bs)[i]?
      = if off ≤ i ∧ i < off + bs.length ∧ i < mem.length then bs[i - off]? else mem[i]? := by
  unfold poke
  simp only [List.getElem?_append, List.getElem?_take, List.getElem?_drop, List.length_append,
    List.length_take]
  by_cases h1 : i < off
  · by_cases h2 : i < mem.length
    · have : i < min off mem.length + min (mem.length - off) bs.length := by omega
      have h3 : i < min off mem.length := by omega
      simp only [this, h3, if_true, h1]
      rw [if_neg (by omega)]
    · have hn : mem[i]? = none := List.getElem?_eq_none (by omega)
      rw [if_neg (by omega), hn]
      split_ifs <;> first | rfl | (exact List.getElem?_eq_none (by omega)) | omega
  · by_cases h2 : i < mem.length
    · have hmin : min off mem.length = off := by omega
      by_cases h3 : i < off + bs.length
      · rw [if_pos (by omega), if_neg (by omega), if_pos (by omega), if_pos ⟨by omega, h3, h2⟩,
          hmin]
      · rw [if_neg (by omega), if_neg (by omega)]
        congr 1
        omega
    · have hn : mem[i]? = none := List.getElem?_eq_none (by omega)
      rw [if_neg (by omega), if_neg (by omega), hn]
      exact List.getElem?_eq_none (by omega)

theorem poke_take_le (mem : List Nat) (off : Nat) (bs : List Nat) (k : Nat) (h : k ≤ off) :
    (poke mem off bs).take k = mem.take k := by
  apply List.ext_getElem?
  intro i
  simp only [List.getElem?_take, poke_getElem?]
  split_ifs <;> first | rfl | omega

theorem poke_drop_ge (mem : List Nat) (off : Nat) (bs : List Nat) (k : Nat)
    (h : off + bs.length ≤ k) : (poke mem off bs).drop k = mem.drop k := by
  apply List.ext_getElem?
  intro i
  simp only [List.getElem?_drop, poke_getElem?]
  split_ifs <;> first | rfl | omega

theorem peek_poke_same (mem : List Nat) (off : Nat) (bs : List Nat)
    (h : off + bs.length ≤ mem.length) : peek (poke mem off bs) off bs.length = bs := by
  apply List.ext_getElem?
  intro i
  simp only [peek_getElem?, poke_getElem?]
  by_cases hi : i < bs.length
  · rw [if_pos hi, if_pos ⟨by omega, by omega, by omega⟩]
    congr 1
    omega
  · rw [if_neg hi]
    exact (List.getElem?_eq_none (by omega)).symm

theorem peek_poke_lt (mem : List Nat) (off : Nat) (bs : List Nat) (a n : Nat)
    (h : a + n ≤ off) : peek (poke mem off bs) a n = peek mem a n := by
  apply List.ext_getElem?
  intro i
  simp only [peek_getElem?, poke_getElem?]
  split_ifs <;> first | rfl | omega

theorem peek_poke_ge (mem : List Nat) (off : Nat) (bs : List Nat) (a n : Nat)
    (h : off + bs.length ≤ a) : peek (poke mem off bs) a n = peek mem a n := by
  apply List.ext_getElem?
  intro i
  simp only [peek_getElem?, poke_getElem?]
  split_ifs <;> first | rfl | omega

theorem poke_nil (mem : List Nat) (off : Nat) : poke mem off [] = mem := by
  apply List.ext_getElem?
  intro i
  simp only [poke_getElem?, List.length_nil]
  split_ifs <;> first | rfl | omega

theorem peek_zero_eq_take (mem : List Nat) (n : Nat) : peek mem 0 n = mem.take n := by
  simp [peek]

theorem peek_drop (mem : List Nat) (a off n : Nat) :
    peek (mem.drop a) off n = peek mem (a + off) n := by
  simp only [peek, List.drop_drop]

theorem poke_poke_adjacent (mem xs ys : List Nat) (a : Nat) :
    poke (poke mem a xs) (a + xs.length) ys = poke mem a (xs ++ ys) := by
  apply List.ext_getElem?
  intro i
  simp only [poke_getElem?, poke_length, List.length_append, List.getElem?_append]
  by_cases h0 : i < mem.length
  · by_cases h1 : i < a
    · rw [if_neg (by omega), if_neg (by omega), if_neg (by omega)]
    · by_cases h2 : i < a + xs.length
      · rw [if_neg (by omega), if_pos ⟨by omega, h2, h0⟩, if_pos ⟨by omega, by omega, h0⟩,
          if_pos (by omega)]
      · by_cases h3 : i < a + xs.length + ys.length
        · rw [if_pos ⟨by omega, h3, h0⟩, if_pos ⟨by omega, by omega, h0⟩, if_neg (by omega)]
          congr 1
          omega
        · rw [if_neg (by omega), if_neg (by omega), if_neg (by omega)]
  · rw [if_neg (by omega), if_neg (by omega), if_neg (by omega)]

theorem poke_poke_before (mem xs ys : List Nat) (a : Nat) :
    poke (poke mem (a + xs.length) ys) a xs = poke mem a (xs ++ ys) := by
  apply List.ext_getElem?
  intro i
  simp only [poke_getElem?, poke_length, List.length_append, List.getElem?_append]
  by_cases h0 : i < mem.length
  · by_cases h1 : i < a
    · rw [if_neg (by omega), if_neg (by omega), if_neg (by omega)]
    · by_cases h2 : i < a + xs.length
      · rw [if_pos ⟨by omega, h2, h0⟩, if_pos ⟨by omega, by omega, h0⟩, if_pos (by omega)]
      · by_cases h3 : i < a + xs.length + ys.length
        · rw [if_neg (by omega), if_pos ⟨by omega, h3, h0⟩, if_pos ⟨by omega, by omega, h0⟩,
            if_neg (by omega)]
          congr 1
          omega
        · rw [if_neg (by omega), if_neg (by omega), if_neg (by omega)]
  · rw [if_neg (by omega), if_neg (by omega), if_neg (by omega)]

theorem spdif_burst_length (bsmod : Nat) (pkt : List Nat) (h : pkt.length ≤ 6136) :
    (spdif_burst bsmod pkt).length = 6144 := by
  simp only [spdif_burst, spdif_header, List.length_append, List.length_cons, List.length_nil,
    List.length_replicate]
  omega

/-- The header statements amount to one store of eight bytes at `buf`. -/
theorem spdif_head_eq (mem : List Nat) (buf len : Int) (hb : 0 ≤ buf) :
    spdif_head mem buf len
      = poke mem buf.toNat (spdif_header (mem.getD (buf.toNat + 13) 0 % 8) len) := by
  have e2 : (buf + 2).toNat = buf.toNat + 2 := by omega
  have e4 : (buf + 4).toNat = buf.toNat + 2 + 2 := by omega
  have e5 : (buf + 5).toNat = buf.toNat + 2 + 2 + 1 := by omega
  have e6 : (buf + 6).toNat = buf.toNat + 2 + 2 + 1 + 1 := by omega
  have e13 : (buf + 8 + 5).toNat = buf.toNat + 13 := by omega
  have c1 : ((0xF872 : Int) / 256 % 256).toNat = 0xF8 := by decide
  have c2 : ((0xF872 : Int) % 256).toNat = 0x72 := by decide
  have c3 : ((0x4E1F : Int) / 256 % 256).toNat = 0x4E := by decide
  have c4 : ((0x4E1F : Int) % 256).toNat = 0x1F := by decide
  unfold spdif_head
  simp only [e2, e4, e5, e6, e13, AV_WB16, c1, c2, c3, c4]
  have a1 := poke_poke_adjacent mem [0xF8, 0x72] [0x4E, 0x1F] buf.toNat
  have a2 := poke_poke_adjacent mem [0xF8, 0x72, 0x4E, 0x1F] [mem.getD (buf.toNat + 13) 0 % 8]
    buf.toNat
  have a3 := poke_poke_adjacent mem [0xF8, 0x72, 0x4E, 0x1F, mem.getD (buf.toNat + 13) 0 % 8]
    [0x01] buf.toNat
  have a4 := poke_poke_adjacent mem
    [0xF8, 0x72, 0x4E, 0x1F, mem.getD (buf.toNat + 13) 0 % 8, 0x01]
    [((len * 8 / 256) % 256).toNat, ((len * 8) % 256).toNat] buf.toNat
  simp only [List.length_cons, List.length_nil, List.cons_append, List.nil_append,
    Nat.zero_add, Nat.reduceAdd] at a1 a2 a3 a4
  simp only [Nat.add_assoc, Nat.reduceAdd] at a1 a2 a3 a4 ⊢
  rw [a1, a2, a3, a4]
  rfl

/-- The header part of `spdif_frame` is one store of eight bytes at `buf`,
followed by the `memset`. -/
theorem spdif_frame_eq (mem : List Nat) (buf len : Int) (hb : 0 ≤ buf) :
    spdif_frame mem buf len
      = memset (poke mem buf.toNat
            (spdif_header (mem.getD (buf.toNat + 13) 0 % 8) len))
          (buf + 8 + len).toNat 0 (AC3_FRAME_SIZE * 2 * 2 - 8 - len) := by
  unfold spdif_frame pad_count
  rw [spdif_head_eq mem buf len hb]

theorem encode_data_mem_length {σ : Type} (L : Lavc σ) (s : af_ac3enc_t) (cs : σ)
    (mem : List Nat) (off : Nat) (d : Int) :
    (encode_data L s cs mem off d).mem.length = mem.length := by
  unfold encode_data
  simp only []
  split_ifs <;> simp [poke_length]

theorem SameCfg.refl (s : af_ac3enc_t) : SameCfg s s :=
  ⟨rfl, rfl, rfl, rfl, rfl, rfl, rfl, rfl, rfl⟩

theorem SameCfg.trans {s s' s'' : af_ac3enc_t} (h : SameCfg s s') (h' : SameCfg s' s'') :
    SameCfg s s'' := by
  obtain ⟨a1, a2, a3, a4, a5, a6, a7, a8, a9⟩ := h
  obtain ⟨b1, b2, b3, b4, b5, b6, b7, b8, b9⟩ := h'
  exact ⟨b1.trans a1, b2.trans a2, b3.trans a3, b4.trans a4, b5.trans a5, b6.trans a6,
    b7.trans a7, b8.trans a8, b9.trans a9⟩

section steps

variable {σ : Type} (L : Lavc σ) (l_len : Int) (st : PlayLoop σ)

theorem stash_cfg : SameCfg st.s (stash st).s := by
  simp [SameCfg, stash, poke_length]

theorem enc_step_cfg : SameCfg st.s (enc_step L l_len st).1.s := by
  unfold enc_step encode_pending encode_direct top_off
  simp only []
  split_ifs <;> simp [SameCfg, poke_length, encode_data_mem_length]

theorem enc_step_pending_len : (enc_step L l_len st).1.s.pending_len = 0 := by
  unfold enc_step encode_pending encode_direct top_off
  simp only []
  split_ifs <;> simp_all

theorem enc_step_left (hp : st.s.pending_len < st.s.expect_len) :
    (enc_step L l_len st).1.left = st.left + st.s.pending_len - st.s.expect_len := by
  unfold enc_step encode_pending encode_direct top_off
  simp only []
  split_ifs <;> simp_all <;> omega

theorem enc_step_calls :
    ∃ c, (enc_step L l_len st).1.calls = st.calls ++ [c] ∧ c.ret = (enc_step L l_len st).2 ∧
      FromEnc L st.s c := by
  unfold enc_step encode_pending encode_direct top_off
  simp only []
  split_ifs <;> exact ⟨_, rfl, rfl, _, _, _, _, rfl, rfl, rfl, rfl, rfl⟩

theorem emit_s (len : Int) : (emit st len).s = st.s := by
  unfold emit; simp only []; split_ifs <;> rfl

theorem emit_left (len : Int) : (emit st len).left = st.left := by
  unfold emit; simp only []; split_ifs <;> rfl

theorem emit_calls (len : Int) : (emit st len).calls = st.calls := by
  unfold emit; simp only []; split_ifs <;> rfl

end steps

theorem fromEnc_of_cfg {σ : Type} {L : Lavc σ} {s s' : af_ac3enc_t} {c : EncCall}
    (h : SameCfg s s') (hc : FromEnc L s' c) : FromEnc L s c := by
  obtain ⟨t, cs, mem, off, h1, h2, h3⟩ := hc
  exact ⟨t, cs, mem, off, h1.trans h.1, h2.trans h.2.1, h3⟩

theorem play_loop_basic {σ : Type} (L : Lavc σ) (l_len : Int) :
    ∀ (fuel : Nat) (st : PlayLoop σ), 0 < st.s.expect_len → 0 ≤ st.s.pending_len →
      st.s.pending_len < st.s.expect_len → 0 ≤ st.left → st.left.toNat ≤ fuel →
      ∃ b st', play_loop L l_len fuel st = some (b, st') ∧
        SameCfg st.s st'.s ∧ 0 ≤ st'.s.pending_len ∧
        st'.s.pending_len < st.s.expect_len ∧
        ∃ new, st'.calls = st.calls ++ new ∧ (∀ c ∈ new, FromEnc L st.s c) ∧
          (b = true → (∀ c ∈ new, 0 < c.ret) ∧
            st.left + st.s.pending_len = new.length * st.s.expect_len + st'.s.pending_len) ∧
          (b = false → st'.s.pending_len = 0 ∧ ∃ init last, new = init ++ [last] ∧
            last.ret ≤ 0 ∧ ∀ c ∈ init, 0 < c.ret) := by
  intro fuel
  induction fuel with
  | zero =>
    intro st hE hp0 hp hl hf
    have h0 : st.left = 0 := by omega
    refine ⟨true, st, ?_, SameCfg.refl _, hp0, hp, [], by simp, by simp, ?_, by simp⟩
    · simp [play_loop, h0]
    · intro _
      simp [h0]
  | succ n ih =>
    intro st hE hp0 hp hl hf
    by_cases hpos : st.left > 0
    · by_cases hs : st.left + st.s.pending_len < st.s.expect_len
      · refine ⟨true, stash st, ?_, stash_cfg st, ?_, ?_, [], by simp [stash], by simp, ?_,
          by simp⟩
        · simp [play_loop, hpos, play_body, hs]
        · simp only [stash]; omega
        · simp only [stash]; omega
        · intro _
          simp [stash, add_comm]
      · obtain ⟨c, hc, hcr, hfe⟩ := enc_step_calls L l_len st
        have hcfg := enc_step_cfg L l_len st
        have hE' := hcfg.2.2.2.2.2.1
        have hP' := enc_step_pending_len L l_len st
        have hL' := enc_step_left L l_len st hp
        by_cases hlen : (enc_step L l_len st).2 ≤ 0
        · refine ⟨false, (enc_step L l_len st).1, ?_, hcfg, ?_, ?_, [c], hc, by simpa using hfe,
            by simp, ?_⟩
          · simp [play_loop, hpos, play_body, hs, hlen]
          · omega
          · omega
          · intro _
            exact ⟨hP', [], c, rfl, by omega, by simp⟩
        · have hstep : play_loop L l_len (n + 1) st
              = play_loop L l_len n (emit (enc_step L l_len st).1 (enc_step L l_len st).2) := by
            simp [play_loop, hpos, play_body, hs, hlen]
          obtain ⟨b, st', h1, h2, h3, h4, new, h5, h5', h6, h7⟩ :=
            ih (emit (enc_step L l_len st).1 (enc_step L l_len st).2)
              (by rw [emit_s]; omega) (by rw [emit_s]; omega) (by rw [emit_s]; omega)
              (by rw [emit_left]; omega) (by rw [emit_left]; omega)
          rw [emit_s] at h2 h4 h6 h5'
          rw [emit_left] at h6
          rw [emit_calls] at h5
          refine ⟨b, st', by rw [hstep, h1], hcfg.trans h2, h3, by omega, c :: new, ?_, ?_, ?_,
            ?_⟩
          · rw [h5, hc]; simp
          · intro x hx
            rcases List.mem_cons.1 hx with rfl | hx
            · exact hfe
            · exact fromEnc_of_cfg hcfg (h5' x hx)
          · intro hb
            obtain ⟨h61, h62⟩ := h6 hb
            refine ⟨?_, ?_⟩
            · intro x hx
              rcases List.mem_cons.1 hx with rfl | hx
              · omega
              · exact h61 x hx
            · rw [hE', hP', hL'] at h62
              simp only [List.length_cons, Nat.cast_add, Nat.cast_one]
              linarith
          · intro hb
            obtain ⟨hz, init, last, h71, h72, h73⟩ := h7 hb
            refine ⟨hz, c :: init, last, by rw [h71]; rfl, h72, ?_⟩
            intro x hx
            rcases List.mem_cons.1 hx with rfl | hx
            · omega
            · exact h73 x hx
    · have h0 : st.left = 0 := by omega
      refine ⟨true, st, ?_, SameCfg.refl _, hp0, hp, [], by simp, by simp, ?_, by simp⟩
      · simp [play_loop, h0]
      · intro _
        simp [h0]

theorem resize_setup (m : Malloc) (af : af_instance_s) (len : Int) :
    (resize m af len).setup = af.setup := by
  unfold resize; split_ifs <;> rfl

theorem play_basic {σ : Type} (L : Lavc σ) (m : Malloc) (af : af_instance_s) (cs : σ)
    (data : af_data_t) (in_mem : List Nat)
    (hE : 0 < af.setup.expect_len) (hp0 : 0 ≤ af.setup.pending_len)
    (hp : af.setup.pending_len < af.setup.expect_len) (hlen : 0 ≤ data.len) :
    ∃ r, play L m af cs data in_mem = some r ∧ SameCfg af.setup r.af.setup ∧
      0 ≤ r.af.setup.pending_len ∧ r.af.setup.pending_len < af.setup.expect_len ∧
      (∀ c ∈ r.calls, FromEnc L af.setup c) ∧
      (r.ret = true →
        r.data = { data with audio := (resize m af data.len).data.audio, nch := 2, bps := 2,
                             len := r.data.len } ∧
        r.af.data = (resize m af data.len).data ∧
        (∀ c ∈ r.calls, 0 < c.ret) ∧
        data.len + af.setup.pending_len
          = r.calls.length * af.setup.expect_len + r.af.setup.pending_len) ∧
      (r.ret = false → r.data = data ∧
        ((m.addr = 0 ∧ r.calls = [] ∧ r.af.setup = af.setup) ∨
         (r.af.setup.pending_len = 0 ∧ ∃ init last, r.calls = init ++ [last] ∧
            last.ret ≤ 0 ∧ ∀ c ∈ init, 0 < c.ret))) := by
  have hE0 : af.setup.expect_len ≠ 0 := by omega
  by_cases ha : af.data.len < max_output_len af.setup data.len ∧ m.addr = 0
  · have hplay : play L m af cs data in_mem = some (play_nomem af cs data in_mem) := by
      simp only [play, hE0, ha, if_false, and_self, if_true]
    refine ⟨_, hplay, SameCfg.refl _, hp0, hp, by simp [play_nomem], by simp [play_nomem], ?_⟩
    intro _
    exact ⟨rfl, Or.inl ⟨ha.2, rfl, rfl⟩⟩
  · have hs := resize_setup m af data.len
    obtain ⟨b, st', h1, h2, h3, h4, new, h5, h5', h6, h7⟩ :=
      play_loop_basic L (resize m af data.len).data.len (data.len.toNat + 1)
        (loop_init (resize m af data.len) cs data in_mem)
        (by simp only [loop_init, hs]; exact hE) (by simp only [loop_init, hs]; exact hp0)
        (by simp only [loop_init, hs]; exact hp) (by simp only [loop_init]; exact hlen)
        (by simp only [loop_init]; omega)
    simp only [loop_init, hs, List.nil_append] at h2 h4 h5 h5' h6 h7
    have hplay : play L m af cs data in_mem
        = some (play_done (resize m af data.len) data b st') := by
      simp only [play, hE0, ha, if_false, h1, Option.map_some']
    refine ⟨_, hplay, h2, h3, h4, ?_, ?_, ?_⟩
    · intro c hc
      simp only [play_done, h5] at hc
      exact h5' c hc
    · intro hb
      simp only [play_done] at hb
      obtain ⟨h61, h62⟩ := h6 hb
      subst hb
      refine ⟨rfl, rfl, ?_, ?_⟩
      · intro c hc
        simp only [play_done, h5] at hc
        exact h61 c hc
      · simp only [play_done, h5]; exact h62
    · intro hb
      simp only [play_done] at hb
      obtain ⟨hz, init, last, h71, h72, h73⟩ := h7 hb
      subst hb
      exact ⟨rfl, Or.inr ⟨hz, init, last, by simp only [play_done, h5, h71], h72, h73⟩⟩

/-- In a call where `malloc` does not return NULL and every call of
`encode_data` returned a positive value, `play` returns `c`. -/
theorem ret_true_of_pos {σ : Type} {m : Malloc} {af : af_instance_s} {r : PlayResult σ}
    (hm : m.addr ≠ 0) (hpos : ∀ c ∈ r.calls, 0 < c.ret)
    (hf : r.ret = false →
      ((m.addr = 0 ∧ r.calls = [] ∧ r.af.setup = af.setup) ∨
       (r.af.setup.pending_len = 0 ∧ ∃ init last, r.calls = init ++ [last] ∧
          last.ret ≤ 0 ∧ ∀ c ∈ init, 0 < c.ret))) :
    r.ret = true := by
  by_contra hb
  have hb' : r.ret = false := by simpa using hb
  rcases hf hb' with ⟨h0, _⟩ | ⟨_, init, last, h1, h2, _⟩
  · exact hm h0
  · have := hpos last (by rw [h1]; simp)
    omega

/-- A call that returned a value `≤ 0` is the last of the trace, `play`
returned NULL, and the descriptor is untouched. -/
theorem fatal_of_nonpos {σ : Type} {data : af_data_t} {r : PlayResult σ} {af : af_instance_s}
    {m : Malloc} {E : Int} {P : Int → Prop} (hP : ∀ x, P x → x ≤ 0)
    (hbad : ∃ c ∈ r.calls, P c.ret)
    (ht : r.ret = true →
        r.data = { data with audio := (resize m af data.len).data.audio, nch := 2, bps := 2,
                             len := r.data.len } ∧
        r.af.data = (resize m af data.len).data ∧ (∀ c ∈ r.calls, 0 < c.ret) ∧
        data.len + af.setup.pending_len = r.calls.length * E + r.af.setup.pending_len)
    (hf : r.ret = false → r.data = data ∧
      ((m.addr = 0 ∧ r.calls = [] ∧ r.af.setup = af.setup) ∨
       (r.af.setup.pending_len = 0 ∧ ∃ init last, r.calls = init ++ [last] ∧
          last.ret ≤ 0 ∧ ∀ c ∈ init, 0 < c.ret))) :
    r.ret = false ∧ r.data = data ∧ r.output = [] ∧ r.af.setup.pending_len = 0 ∧
      ∃ init last, r.calls = init ++ [last] ∧ P last.ret ∧ ∀ c ∈ init, 0 < c.ret := by
  obtain ⟨c, hc, hcP⟩ := hbad
  have hb : r.ret = false := by
    by_contra hb
    have hb' : r.ret = true := by simpa using hb
    have := (ht hb').2.2.1 c hc
    have := hP _ hcP
    omega
  obtain ⟨hd, hcase⟩ := hf hb
  refine ⟨hb, hd, by simp [PlayResult.output, hb], ?_⟩
  rcases hcase with ⟨_, h0, _⟩ | ⟨hz, init, last, h1, h2, h3⟩
  · rw [h0] at hc; simp at hc
  · refine ⟨hz, init, last, h1, ?_, h3⟩
    rw [h1] at hc
    rcases List.mem_append.1 hc with hc | hc
    · have := h3 c hc
      have := hP _ hcP
      omega
    · simp only [List.mem_singleton] at hc
      rw [← hc]; exact hcP

theorem exLavc_ret (pkt : List Nat) (got : Int) (s : af_ac3enc_t) (mem : List Nat) (off : Nat)
    (d : Int) (h : s.avr = false) :
    (encode_data (exLavc pkt got) s () mem off d).ret
        = (if got ≠ 0 then (pkt.length : Int) else 0) ∧
      (encode_data (exLavc pkt got) s () mem off d).dst = pkt := by
  unfold encode_data encode_src
  simp [exLavc, h]

/-- Claim C2.  Pending-length invariant of `play`: from a state with
`0 < expect_len` and `0 ≤ pending_len < expect_len`, a data call with
`len ≥ 0` returns, and the state it leaves satisfies `0 ≤ pending_len <
expect_len` again with `expect_len` unchanged, for every library (whatever
`encode_data` returns) and every outcome of `malloc`, the calls that return
NULL included. -/
theorem pending_len_invariant {σ : Type} (L : Lavc σ) (m : Malloc) (af : af_instance_s)
    (cs : σ) (data : af_data_t) (in_mem : List Nat)
    (hE : 0 < af.setup.expect_len) (hp0 : 0 ≤ af.setup.pending_len)
    (hp : af.setup.pending_len < af.setup.expect_len) (hlen : 0 ≤ data.len) :
    ∃ r, play L m af cs data in_mem = some r ∧
      r.af.setup.expect_len = af.setup.expect_len ∧
      0 ≤ r.af.setup.pending_len ∧ r.af.setup.pending_len < r.af.setup.expect_len := by
  obtain ⟨r, h1, h2, h3, h4, -⟩ := play_basic L m af cs data in_mem hE hp0 hp hlen
  exact ⟨r, h1, h2.2.2.2.2.2.1, h3, by rw [h2.2.2.2.2.2.1]; exact h4⟩

theorem pending_len_invariant_witness :
    ∃ r, play (exLavc [] 0) exMalloc (exAf 1) () (exData 20000) (List.replicate 20000 7)
        = some r ∧
      r.af.setup.expect_len = (exAf 1).setup.expect_len ∧
      0 ≤ r.af.setup.pending_len ∧ r.af.setup.pending_len < r.af.setup.expect_len :=
  pending_len_invariant (exLavc [] 0) exMalloc (exAf 1) () (exData 20000)
    (List.replicate 20000 7) (by decide) (by decide) (by decide) (by decide)

theorem count_of_eq {a E n p : Int} (hE : 0 < E) (h0 : 0 ≤ p) (h1 : p < E)
    (h : a = n * E + p) : n = a / E ∧ p = a % E := by
  have := (Int.ediv_emod_unique (a := a) (r := p) (q := n) hE).2
    ⟨by rw [h]; ring, h0, h1⟩
  exact ⟨this.1.symm, this.2.symm⟩

/-- Claim C3.  Frame count and remainder of `play`: from a state with
`0 < E = expect_len` and `0 ≤ p = pending_len < E`, a data call with `len ≥ 0`
in which `malloc` does not fail returns; if every call of `encode_data` in it
returned a positive value, `play` returns `c`, `encode_data` was called
`(len + p) / E` times, and `pending_len` is `(len + p) % E` afterwards.  In
particular `2 * E` bytes with `p = 0` give two calls and `pending_len = 0`;
and half of `E` bytes with `p = 0` give no call and `pending_len = E / 2`,
after which three halves of `E` bytes in a second call give two calls and
`pending_len = 0`. -/
theorem frame_count_and_remainder {σ : Type} (L : Lavc σ) (m m2 : Malloc)
    (af : af_instance_s) (cs : σ) (data data2 : af_data_t) (in_mem in_mem2 : List Nat)
    (hE : 0 < af.setup.expect_len) (hp0 : 0 ≤ af.setup.pending_len)
    (hp : af.setup.pending_len < af.setup.expect_len) (hlen : 0 ≤ data.len)
    (hm : m.addr ≠ 0) (hm2 : m2.addr ≠ 0) :
    ∃ r, play L m af cs data in_mem = some r ∧
      ((∀ c ∈ r.calls, 0 < c.ret) →
        r.ret = true ∧
        (r.calls.length : Int) = (data.len + af.setup.pending_len) / af.setup.expect_len ∧
        r.af.setup.pending_len = (data.len + af.setup.pending_len) % af.setup.expect_len ∧
        (af.setup.pending_len = 0 → data.len = 2 * af.setup.expect_len →
          r.calls.length = 2 ∧ r.af.setup.pending_len = 0) ∧
        (af.setup.pending_len = 0 → 2 * data.len = af.setup.expect_len →
          2 * data2.len = 3 * af.setup.expect_len →
          r.calls.length = 0 ∧ 2 * r.af.setup.pending_len = af.setup.expect_len ∧
          ∃ r2, play L m2 r.af r.codec data2 in_mem2 = some r2 ∧
            ((∀ c ∈ r2.calls, 0 < c.ret) →
              r2.ret = true ∧ r2.calls.length = 2 ∧ r2.af.setup.pending_len = 0))) := by
  obtain ⟨r, h1, h2, h3, h4, -, h6, h7⟩ := play_basic L m af cs data in_mem hE hp0 hp hlen
  refine ⟨r, h1, ?_⟩
  intro hpos
  have hb : r.ret = true := ret_true_of_pos hm hpos (fun h => (h7 h).2)
  obtain ⟨-, -, -, heq⟩ := h6 hb
  have hE' : r.af.setup.expect_len = af.setup.expect_len := h2.2.2.2.2.2.1
  obtain ⟨hq, hr⟩ := count_of_eq hE h3 h4 heq
  refine ⟨hb, hq, hr, ?_, ?_⟩
  · intro hz hd
    have hcnt : (r.calls.length : Int) = 2 := by
      rw [hq, hz, hd, add_zero]
      exact Int.mul_ediv_cancel 2 (by omega)
    constructor
    · exact_mod_cast hcnt
    · rw [hcnt, hz, hd] at heq
      omega
  · intro hz hd hd2
    have hlt : data.len + af.setup.pending_len < af.setup.expect_len := by omega
    have hcnt : (r.calls.length : Int) = 0 := by
      rw [hq]; exact Int.ediv_eq_zero_of_lt (by omega) hlt
    have hpend : 2 * r.af.setup.pending_len = af.setup.expect_len := by
      rw [hcnt] at heq; omega
    refine ⟨by exact_mod_cast hcnt, hpend, ?_⟩
    obtain ⟨r2, g1, g2, g3, g4, -, g6, g7⟩ := play_basic L m2 r.af r.codec data2 in_mem2
      (by rw [hE']; exact hE) h3 (by rw [hE']; exact h4) (by omega)
    refine ⟨r2, g1, ?_⟩
    intro hpos2
    have hb2 : r2.ret = true := ret_true_of_pos hm2 hpos2 (fun h => (g7 h).2)
    obtain ⟨-, -, -, geq⟩ := g6 hb2
    rw [hE'] at geq g4
    have hc2 : (r2.calls.length : Int) = 2 := by
      have h4E : data2.len + r.af.setup.pending_len = 2 * af.setup.expect_len := by omega
      rw [h4E] at geq
      have := count_of_eq (a := 2 * af.setup.expect_len) hE g3 g4 geq
      rw [this.1]
      exact Int.mul_ediv_cancel 2 (by omega)
    refine ⟨hb2, by exact_mod_cast hc2, ?_⟩
    rw [hc2] at geq
    omega

theorem frame_count_and_remainder_witness :
    ∃ r, play (exLavc [11, 119] 1) exMalloc (exAf 0) () (exData 36864)
        (List.replicate 36864 7) = some r ∧
      ((∀ c ∈ r.calls, 0 < c.ret) →
        r.ret = true ∧
        (r.calls.length : Int)
          = ((exData 36864).len + (exAf 0).setup.pending_len) / (exAf 0).setup.expect_len ∧
        r.af.setup.pending_len
          = ((exData 36864).len + (exAf 0).setup.pending_len) % (exAf 0).setup.expect_len ∧
        ((exAf 0).setup.pending_len = 0 → (exData 36864).len = 2 * (exAf 0).setup.expect_len →
          r.calls.length = 2 ∧ r.af.setup.pending_len = 0) ∧
        ((exAf 0).setup.pending_len = 0 → 2 * (exData 36864).len = (exAf 0).setup.expect_len →
          2 * (exData 27648).len = 3 * (exAf 0).setup.expect_len →
          r.calls.length = 0 ∧ 2 * r.af.setup.pending_len = (exAf 0).setup.expect_len ∧
          ∃ r2, play (exLavc [11, 119] 1) exMalloc r.af r.codec (exData 27648)
              (List.replicate 27648 7) = some r2 ∧
            ((∀ c ∈ r2.calls, 0 < c.ret) →
              r2.ret = true ∧ r2.calls.length = 2 ∧ r2.af.setup.pending_len = 0))) :=
  frame_count_and_remainder (exLavc [11, 119] 1) exMalloc exMalloc (exAf 0) ()
    (exData 36864) (exData 27648) (List.replicate 36864 7) (List.replicate 27648 7)
    (by decide) (by decide) (by decide) (by decide) (by decide) (by decide)

/-- Claim C5, counterexample.  One frame of `1536 * 6 * 2` bytes is fed to a
session whose encoder reports no error and no packet, so that `encode_data`
returns 0 for the frame: `play` returns NULL and hands back no byte. -/
theorem zero_length_result_counterexample :
    ∃ r, play (exLavc [] 0) exMalloc (exAf 0) () (exData 18432) (List.replicate 18432 7)
        = some r ∧
      r.calls.map (fun c => c.ret) = [0] ∧ r.ret = false ∧ r.output = [] := by
  obtain ⟨r, h1, -, h3, h4, h5, h6, h7⟩ := play_basic (exLavc [] 0) exMalloc (exAf 0) ()
    (exData 18432) (List.replicate 18432 7) (by decide) (by decide) (by decide) (by decide)
  have hz : ∀ c ∈ r.calls, c.ret = 0 := by
    intro c hc
    obtain ⟨s', cs, mem, off, e1, -, e3, -⟩ := h5 c hc
    rw [e3, (exLavc_ret [] 0 s' mem off c.dst_len (by rw [e1]; rfl)).1]
    simp
  have hb : r.ret = false := by
    by_contra hb
    have hb' : r.ret = true := by simpa using hb
    obtain ⟨-, -, hpos, heq⟩ := h6 hb'
    rcases hc : r.calls with _ | ⟨c, t⟩
    · rw [hc] at heq
      simp only [exData, exAf, exSession, List.length_nil, Nat.cast_zero] at heq h4
      omega
    · have h1 := hpos c (by rw [hc]; simp)
      have h2 := hz c (by rw [hc]; simp)
      omega
  refine ⟨r, h1, ?_, hb, by simp [PlayResult.output, hb]⟩
  rcases (h7 hb).2 with ⟨h0, -⟩ | ⟨-, init, last, g1, -, g3⟩
  · exact absurd h0 (by decide)
  · rcases hi : init with _ | ⟨c, t⟩
    · rw [g1, hi]
      simp [hz last (by rw [g1]; simp)]
    · have h1 := g3 c (by rw [hi]; simp)
      have h2 := hz c (by rw [g1, hi]; simp)
      omega

/-- Claim C5, amended.  A zero-length result of `encode_data` ends the call like
a negative one: from a state with `0 < expect_len` and `0 ≤ pending_len <
expect_len`, a data call with `len ≥ 0` returns, and if `encode_data`
returned 0 for some frame then that call of `encode_data` was the last one,
all earlier ones returned a positive value, `play` returned NULL, the
caller's descriptor is as on entry, no byte is handed back, and
`pending_len` is 0. -/
theorem zero_length_result_is_fatal {σ : Type} (L : Lavc σ) (m : Malloc) (af : af_instance_s)
    (cs : σ) (data : af_data_t) (in_mem : List Nat)
    (hE : 0 < af.setup.expect_len) (hp0 : 0 ≤ af.setup.pending_len)
    (hp : af.setup.pending_len < af.setup.expect_len) (hlen : 0 ≤ data.len) :
    ∃ r, play L m af cs data in_mem = some r ∧
      ((∃ c ∈ r.calls, c.ret = 0) →
        r.ret = false ∧ r.data = data ∧ r.output = [] ∧ r.af.setup.pending_len = 0 ∧
        ∃ init last, r.calls = init ++ [last] ∧ last.ret = 0 ∧ ∀ c ∈ init, 0 < c.ret) := by
  obtain ⟨r, h1, -, -, -, -, h6, h7⟩ := play_basic L m af cs data in_mem hE hp0 hp hlen
  exact ⟨r, h1, fun hbad =>
    fatal_of_nonpos (P := fun x => x = 0) (fun x hx => by omega) hbad h6 h7⟩

theorem zero_length_result_is_fatal_witness :
    ∃ r, play (exLavc [] 0) exMalloc (exAf 0) () (exData 18432) (List.replicate 18432 7)
        = some r ∧
      ((∃ c ∈ r.calls, c.ret = 0) →
        r.ret = false ∧ r.data = exData 18432 ∧ r.output = [] ∧
        r.af.setup.pending_len = 0 ∧
        ∃ init last, r.calls = init ++ [last] ∧ last.ret = 0 ∧ ∀ c ∈ init, 0 < c.ret) :=
  zero_length_result_is_fatal (exLavc [] 0) exMalloc (exAf 0) () (exData 18432)
    (List.replicate 18432 7) (by decide) (by decide) (by decide) (by decide)

/-- Claim C6.  A negative result of `encode_data` is fatal for the whole call:
from a state with `0 < expect_len` and `0 ≤ pending_len < expect_len`, a data
call with `len ≥ 0` returns, and if `encode_data` returned a negative value
for some frame then that call of `encode_data` was the last one (no later
frame is encoded), all earlier ones returned a positive value, `play`
returned NULL, the caller's descriptor (`audio`, `len`, `nch`, `bps` and the
other fields) is as on entry, and no byte is handed back. -/
theorem negative_result_is_fatal {σ : Type} (L : Lavc σ) (m : Malloc) (af : af_instance_s)
    (cs : σ) (data : af_data_t) (in_mem : List Nat)
    (hE : 0 < af.setup.expect_len) (hp0 : 0 ≤ af.setup.pending_len)
    (hp : af.setup.pending_len < af.setup.expect_len) (hlen : 0 ≤ data.len) :
    ∃ r, play L m af cs data in_mem = some r ∧
      ((∃ c ∈ r.calls, c.ret < 0) →
        r.ret = false ∧ r.data = data ∧ r.output = [] ∧
        ∃ init last, r.calls = init ++ [last] ∧ last.ret < 0 ∧ ∀ c ∈ init, 0 < c.ret) := by
  obtain ⟨r, h1, -, -, -, -, h6, h7⟩ := play_basic L m af cs data in_mem hE hp0 hp hlen
  refine ⟨r, h1, fun hbad => ?_⟩
  obtain ⟨g1, g2, g3, -, g5⟩ :=
    fatal_of_nonpos (P := fun x => x < 0) (fun x hx => by omega) hbad h6 h7
  exact ⟨g1, g2, g3, g5⟩

section enc

variable {σ : Type} (L : Lavc σ) (s : af_ac3enc_t) (cs : σ) (mem : List Nat) (off : Nat)
  (d : Int)

theorem encode_data_frame :
    (encode_data L s cs mem off d).frame = peek mem off (frame_bytes L s).toNat := rfl

theorem encode_data_mem :
    (encode_data L s cs mem off d).mem
      = if s.lavc_actx.channels ≥ 5 then
          poke mem off
            ((L.reorder_channel_nch s.lavc_actx.channels
                (AC3_FRAME_SIZE * s.lavc_actx.channels)
                (L.av_get_bytes_per_sample s.lavc_actx.sample_fmt)
                (peek mem off (frame_bytes L s).toNat)).take
              (peek mem off (frame_bytes L s).toNat).length)
        else mem := rfl

theorem encode_data_mem_drop (k : Nat) (h : off + (frame_bytes L s).toNat ≤ k) :
    (encode_data L s cs mem off d).mem.drop k = mem.drop k := by
  rw [encode_data_mem]
  split_ifs
  · apply poke_drop_ge
    simp only [List.length_take, peek_length]
    omega
  · rfl

end enc

theorem take_poke_eq (pd X : List Nat) (p : Nat) (hp : p + X.length ≤ pd.length) :
    (poke pd p X).take (p + X.length) = pd.take p ++ X := by
  apply List.ext_getElem?
  intro i
  simp only [List.getElem?_take, poke_getElem?, List.getElem?_append, List.length_take]
  have hmin : min p pd.length = p := by omega
  rw [hmin]
  by_cases h1 : i < p
  · rw [if_pos (by omega), if_neg (by omega), if_pos h1, if_pos h1]
  · by_cases h2 : i < p + X.length
    · rw [if_pos h2, if_pos ⟨by omega, h2, by omega⟩, if_neg h1]
    · rw [if_neg h2, if_neg h1]
      exact (List.getElem?_eq_none (by omega)).symm

theorem enc_step_of_pending {σ : Type} (L : Lavc σ) (l_len : Int) (st : PlayLoop σ)
    (h : st.s.pending_len ≠ 0) :
    enc_step L l_len st
      = encode_pending L (if st.s.add_iec61937_header ≠ 0 then st.buf + 8 else st.buf)
          (l_len - st.buf) st := by
  unfold enc_step
  simp only []
  rw [if_pos h]

theorem enc_step_of_direct {σ : Type} (L : Lavc σ) (l_len : Int) (st : PlayLoop σ)
    (h : st.s.pending_len = 0) :
    enc_step L l_len st
      = encode_direct L (if st.s.add_iec61937_header ≠ 0 then st.buf + 8 else st.buf)
          (l_len - st.buf) st := by
  unfold enc_step
  simp only []
  rw [if_neg (by simpa using h)]

theorem top_off_of_pos {σ : Type} (st : PlayLoop σ)
    (h : st.s.expect_len - st.s.pending_len > 0) :
    top_off st = { st with
      s := { st.s with
        pending_data := poke st.s.pending_data st.s.pending_len.toNat
          (peek st.in_mem st.src.toNat (st.s.expect_len - st.s.pending_len).toNat) }
      src := st.src + (st.s.expect_len - st.s.pending_len)
      left := st.left - (st.s.expect_len - st.s.pending_len) } := by
  unfold top_off
  simp only []
  rw [if_pos h]

theorem enc_step_frames {σ : Type} (L : Lavc σ) (l_len : Int) (st : PlayLoop σ)
    (ok : LoopOK L st) (hs : ¬ st.left + st.s.pending_len < st.s.expect_len) :
    ∃ c, (enc_step L l_len st).1.calls = st.calls ++ [c] ∧
      c.frame = (stream st).take st.s.expect_len.toNat ∧
      c.frame.length = st.s.expect_len.toNat ∧
      LoopOK L (enc_step L l_len st).1 ∧
      stream (enc_step L l_len st).1 = (stream st).drop st.s.expect_len.toNat := by
  obtain ⟨hE, hp0, hp, hcap, hfb, hsrc, hleft, hin⟩ := ok
  have hstream_len : st.s.expect_len.toNat ≤ (stream st).length := by
    simp only [stream, List.length_append, List.length_take, List.length_drop]
    omega
  by_cases hpz : st.s.pending_len ≠ 0
  · have hneeds : st.s.expect_len - st.s.pending_len > 0 := by omega
    have hX : (peek st.in_mem st.src.toNat (st.s.expect_len - st.s.pending_len).toNat).length
        = (st.s.expect_len - st.s.pending_len).toNat := by
      rw [peek_length]; omega
    have hpd : (poke st.s.pending_data st.s.pending_len.toNat
          (peek st.in_mem st.src.toNat (st.s.expect_len - st.s.pending_len).toNat)).take
            st.s.expect_len.toNat
        = (stream st).take st.s.expect_len.toNat := by
      have h1 := take_poke_eq st.s.pending_data
        (peek st.in_mem st.src.toNat (st.s.expect_len - st.s.pending_len).toNat)
        st.s.pending_len.toNat (by rw [hX]; omega)
      rw [hX] at h1
      have h2 : st.s.pending_len.toNat + (st.s.expect_len - st.s.pending_len).toNat
          = st.s.expect_len.toNat := by omega
      rw [h2] at h1
      rw [h1, stream, List.take_append_eq_append_take, List.length_take]
      have h3 : min st.s.pending_len.toNat st.s.pending_data.length = st.s.pending_len.toNat := by
        omega
      rw [h3, List.take_take]
      have h4 : min st.s.expect_len.toNat st.s.pending_len.toNat = st.s.pending_len.toNat := by
        omega
      rw [h4, peek]
      congr 2
      omega
    rw [enc_step_of_pending L l_len st hpz]
    simp only [encode_pending, top_off_of_pos st hneeds]
    refine ⟨_, rfl, ?_, ?_, ?_, ?_⟩
    · rw [encode_data_frame]
      simp only [frame_bytes] at hfb ⊢
      rw [hfb, peek_zero_eq_take, hpd]
    · rw [encode_data_frame]
      simp only [frame_bytes] at hfb ⊢
      rw [hfb, peek_zero_eq_take, hpd, List.length_take]
      omega
    · refine ⟨hE, by simp, by simpa using hE, ?_, hfb, ?_, ?_, ?_⟩
      · simp only [encode_data_mem_length, poke_length]; exact hcap
      · simp only []; omega
      · simp only []; omega
      · simp only []; omega
    · simp only [stream, Int.toNat_zero, List.take_zero, List.nil_append]
      have hnil : (st.s.pending_data.take st.s.pending_len.toNat).drop st.s.expect_len.toNat
          = [] := List.drop_eq_nil_of_le (by rw [List.length_take]; omega)
      rw [List.drop_append_eq_append_drop, hnil, List.nil_append, List.length_take,
        List.drop_drop]
      congr 1
      omega
  · have hz : st.s.pending_len = 0 := by simpa using hpz
    rw [enc_step_of_direct L l_len st hz]
    simp only [encode_direct]
    have hst : stream st = st.in_mem.drop st.src.toNat := by
      simp [stream, hz]
    refine ⟨_, rfl, ?_, ?_, ?_, ?_⟩
    · rw [encode_data_frame, hfb, hst]; rfl
    · rw [encode_data_frame, hfb, peek_length]; omega
    · refine ⟨hE, hp0, hp, hcap, hfb, ?_, ?_, ?_⟩
      · simp only []; omega
      · simp only []; omega
      · simp only [encode_data_mem_length]; omega
    · simp only [stream, hz, Int.toNat_zero, List.take_zero, List.nil_append]
      rw [encode_data_mem_drop L st.s st.codec st.in_mem st.src.toNat _ _
        (by rw [hfb]; omega), List.drop_drop]
      congr 1
      omega

section emitlemmas

variable {σ : Type} (st : PlayLoop σ) (len : Int)

theorem emit_in_mem : (emit st len).in_mem = st.in_mem := by
  unfold emit; simp only []; split_ifs <;> rfl

theorem emit_src : (emit st len).src = st.src := by
  unfold emit; simp only []; split_ifs <;> rfl

theorem emit_codec : (emit st len).codec = st.codec := by
  unfold emit; simp only []; split_ifs <;> rfl

theorem emit_stream : stream (emit st len) = stream st := by
  simp only [stream, emit_s, emit_in_mem, emit_src]

theorem emit_ok (L : Lavc σ) (h : LoopOK L st) : LoopOK L (emit st len) := by
  obtain ⟨hE, hp0, hp, hcap, hfb, hsrc, hleft, hin⟩ := h
  exact ⟨by rw [emit_s]; exact hE, by rw [emit_s]; exact hp0, by rw [emit_s]; exact hp,
    by rw [emit_s]; exact hcap, by rw [emit_s]; exact hfb, by rw [emit_src]; exact hsrc,
    by rw [emit_left]; exact hleft, by rw [emit_src, emit_left, emit_in_mem]; exact hin⟩

end emitlemmas

theorem stash_stream {σ : Type} (L : Lavc σ) (st : PlayLoop σ) (ok : LoopOK L st)
    (hs : st.left + st.s.pending_len < st.s.expect_len) :
    (stash st).s.pending_data.take (stash st).s.pending_len.toNat = stream st := by
  obtain ⟨hE, hp0, hp, hcap, hfb, hsrc, hleft, hin⟩ := ok
  have hX : (peek st.in_mem st.src.toNat st.left.toNat).length = st.left.toNat := by
    rw [peek_length]; omega
  have h1 := take_poke_eq st.s.pending_data (peek st.in_mem st.src.toNat st.left.toNat)
    st.s.pending_len.toNat (by rw [hX]; omega)
  rw [hX] at h1
  have h2 : (st.s.pending_len + st.left).toNat = st.s.pending_len.toNat + st.left.toNat := by
    omega
  simp only [stash, h2, h1, stream]
  congr 1
  rw [peek]
  exact List.take_of_length_le (by rw [List.length_drop]; omega)

theorem stream_of_left_zero {σ : Type} (L : Lavc σ) (st : PlayLoop σ) (ok : LoopOK L st)
    (h0 : st.left = 0) : st.s.pending_data.take st.s.pending_len.toNat = stream st := by
  obtain ⟨hE, hp0, hp, hcap, hfb, hsrc, hleft, hin⟩ := ok
  rw [stream, List.drop_eq_nil_of_le (by omega), List.append_nil]

theorem play_loop_frames {σ : Type} (L : Lavc σ) (l_len : Int) :
    ∀ (fuel : Nat) (st : PlayLoop σ) (b : Bool) (st' : PlayLoop σ), LoopOK L st →
      play_loop L l_len fuel st = some (b, st') →
      ∃ new, st'.calls = st.calls ++ new ∧
        (∀ k c, new[k]? = some c →
          c.frame = peek (stream st) (k * st.s.expect_len.toNat) st.s.expect_len.toNat ∧
          c.frame.length = st.s.expect_len.toNat) ∧
        (b = true → st'.s.pending_data.take st'.s.pending_len.toNat
          = (stream st).drop (new.length * st.s.expect_len.toNat)) := by
  intro fuel
  induction fuel with
  | zero =>
    intro st b st' ok h
    by_cases hpos : st.left > 0
    · simp [play_loop, hpos] at h
    · have h0 : st.left = 0 := by have := ok.hleft; omega
      simp only [play_loop, hpos, if_false, Option.some.injEq, Prod.mk.injEq] at h
      obtain ⟨rfl, rfl⟩ := h
      exact ⟨[], by simp, by simp, fun _ => by simpa using stream_of_left_zero L st ok h0⟩
  | succ n ih =>
    intro st b st' ok h
    by_cases hpos : st.left > 0
    · by_cases hs : st.left + st.s.pending_len < st.s.expect_len
      · simp only [play_loop, hpos, if_true, play_body, hs, Option.some.injEq,
          Prod.mk.injEq] at h
        obtain ⟨rfl, rfl⟩ := h
        exact ⟨[], by simp [stash], by simp, fun _ => by simpa using stash_stream L st ok hs⟩
      · obtain ⟨c, hc, hfr, hfl, hok, hst⟩ := enc_step_frames L l_len st ok hs
        have hE' : (enc_step L l_len st).1.s.expect_len = st.s.expect_len :=
          (enc_step_cfg L l_len st).2.2.2.2.2.1
        by_cases hlen : (enc_step L l_len st).2 ≤ 0
        · simp only [play_loop, hpos, if_true, play_body, hs, if_false, hlen, Option.some.injEq,
            Prod.mk.injEq] at h
          obtain ⟨rfl, rfl⟩ := h
          refine ⟨[c], hc, ?_, by simp⟩
          intro k x hk
          rcases k with _ | k
          · simp only [List.getElem?_cons_zero, Option.some.injEq] at hk
            subst hk
            exact ⟨by rw [hfr]; simp [peek], hfl⟩
          · simp at hk
        · simp only [play_loop, hpos, if_true, play_body, hs, if_false, hlen] at h
          obtain ⟨new, h5, h6, h7⟩ := ih _ b st' (emit_ok _ _ L hok) h
          rw [emit_calls, hc] at h5
          rw [emit_stream, emit_s, hE', hst] at h6 h7
          refine ⟨c :: new, by rw [h5]; simp, ?_, ?_⟩
          · intro k x hk
            rcases k with _ | k
            · simp only [List.getElem?_cons_zero, Option.some.injEq] at hk
              subst hk
              exact ⟨by rw [hfr]; simp [peek], hfl⟩
            · simp only [List.getElem?_cons_succ] at hk
              obtain ⟨g1, g2⟩ := h6 k x hk
              refine ⟨?_, g2⟩
              rw [g1, peek_drop]
              congr 1
              rw [Nat.succ_mul]
              omega
          · intro hb
            rw [h7 hb, List.drop_drop, List.length_cons, Nat.succ_mul]
            congr 1
            omega
    · have h0 : st.left = 0 := by have := ok.hleft; omega
      simp only [play_loop, hpos, if_false, Option.some.injEq, Prod.mk.injEq] at h
      obtain ⟨rfl, rfl⟩ := h
      exact ⟨[], by simp, by simp, fun _ => by simpa using stream_of_left_zero L st ok h0⟩

theorem play_inv {σ : Type} {L : Lavc σ} {m : Malloc} {af : af_instance_s} {cs : σ}
    {data : af_data_t} {in_mem : List Nat} {r : PlayResult σ}
    (h : play L m af cs data in_mem = some r) (hm : m.addr ≠ 0) :
    ∃ b st', play_loop L (resize m af data.len).data.len (data.len.toNat + 1)
        (loop_init (resize m af data.len) cs data in_mem) = some (b, st') ∧
      r = play_done (resize m af data.len) data b st' := by
  unfold play at h
  split_ifs at h with h1 h2
  · exact absurd h2.2 hm
  · simp only [Option.map_eq_some'] at h
    obtain ⟨⟨b, st'⟩, g1, g2⟩ := h
    exact ⟨b, st', g1, g2.symm⟩

theorem nat_count_of_eq {len p E p' : Int} {n slen : Nat} (hE : 0 < E) (hp0' : 0 ≤ p')
    (hp' : p' < E) (hs : (slen : Int) = len + p) (h : len + p = n * E + p') :
    n = slen / E.toNat ∧ p'.toNat = slen % E.toNat ∧ n * E.toNat = slen - slen % E.toNat := by
  have hN : slen = p'.toNat + E.toNat * n := by
    zify
    rw [Int.toNat_of_nonneg hp0', Int.toNat_of_nonneg hE.le]
    linarith
  have hpos : 0 < E.toNat := by omega
  have hlt : p'.toNat < E.toNat := by omega
  have := (Nat.div_mod_unique (a := slen) (b := E.toNat) (c := p'.toNat) (d := n)
    hpos).2 ⟨hN.symm, hlt⟩
  refine ⟨this.1.symm, this.2.symm, ?_⟩
  rw [this.2, Nat.mul_comm]
  omega

/-- Claim C4.  Frame contents of `play`.  Let `S` be the first `pending_len` bytes
of the pending buffer followed by the input of the call, and `E = expect_len`,
in a session with `0 < E`, `0 ≤ pending_len < E`, `E` within the pending block
and equal to the number of bytes `encode_data` reads per frame, and let
`malloc` not fail.  Then the call returns; the `k`-th frame handed to
`encode_data` is bytes `[k*E, (k+1)*E)` of `S` as they were on entry, before
any reordering in place, and it is `E` bytes long; and when every call of
`encode_data` returned a positive value, `|S| / E` frames were encoded and the
first `pending_len` bytes of the pending buffer are the last `|S| % E` bytes
of `S`. -/
theorem frame_contents {σ : Type} (L : Lavc σ) (m : Malloc) (af : af_instance_s) (cs : σ)
    (data : af_data_t) (in_mem : List Nat)
    (hE : 0 < af.setup.expect_len) (hp0 : 0 ≤ af.setup.pending_len)
    (hp : af.setup.pending_len < af.setup.expect_len)
    (hcap : af.setup.expect_len ≤ af.setup.pending_data.length)
    (hfb : frame_bytes L af.setup = af.setup.expect_len)
    (hlen : data.len = in_mem.length) (hm : m.addr ≠ 0) :
    ∃ r, play L m af cs data in_mem = some r ∧
      (∀ k c, r.calls[k]? = some c →
        c.frame = peek (call_stream af.setup in_mem) (k * af.setup.expect_len.toNat)
            af.setup.expect_len.toNat ∧
        c.frame.length = af.setup.expect_len.toNat) ∧
      ((∀ c ∈ r.calls, 0 < c.ret) →
        r.calls.length = (call_stream af.setup in_mem).length / af.setup.expect_len.toNat ∧
        r.af.setup.pending_len.toNat
          = (call_stream af.setup in_mem).length % af.setup.expect_len.toNat ∧
        r.af.setup.pending_data.take r.af.setup.pending_len.toNat
          = (call_stream af.setup in_mem).drop
              ((call_stream af.setup in_mem).length
                - (call_stream af.setup in_mem).length % af.setup.expect_len.toNat)) := by
  obtain ⟨r, h1, h2, h3, h4, -, h6, h7⟩ :=
    play_basic L m af cs data in_mem hE hp0 hp (by omega)
  obtain ⟨b, st', g1, g2⟩ := play_inv h1 hm
  have hs := resize_setup m af data.len
  have ok : LoopOK L (loop_init (resize m af data.len) cs data in_mem) :=
    ⟨by simp only [loop_init, hs]; exact hE, by simp only [loop_init, hs]; exact hp0,
      by simp only [loop_init, hs]; exact hp, by simp only [loop_init, hs]; exact hcap,
      by simp only [loop_init, hs]; exact hfb, by simp [loop_init],
      by simp only [loop_init]; omega, by simp only [loop_init]; omega⟩
  obtain ⟨new, f1, f2, f3⟩ := play_loop_frames L _ _ _ b st' ok g1
  have hstream : stream (loop_init (resize m af data.len) cs data in_mem)
      = call_stream af.setup in_mem := by
    simp [stream, loop_init, hs, call_stream]
  simp only [hstream] at f2 f3
  simp only [loop_init, hs, List.nil_append] at f1 f2 f3
  have hcalls : r.calls = new := by rw [g2]; exact f1
  refine ⟨r, h1, ?_, ?_⟩
  · intro k c hk
    rw [hcalls] at hk
    exact f2 k c hk
  · intro hpos
    have hb : r.ret = true := ret_true_of_pos hm hpos (fun h => (h7 h).2)
    obtain ⟨-, -, -, heq⟩ := h6 hb
    have hslen : ((call_stream af.setup in_mem).length : Int)
        = data.len + af.setup.pending_len := by
      simp only [call_stream, List.length_append, List.length_take]
      omega
    obtain ⟨c1, c2, c3⟩ := nat_count_of_eq hE h3 h4 hslen heq
    refine ⟨c1, c2, ?_⟩
    have hb' : b = true := by rw [g2] at hb; exact hb
    have := f3 hb'
    rw [← hcalls, c3] at this
    rw [g2]
    exact this

theorem frame_contents_witness :
    ∃ r, play (exLavc [11, 119] 1) exMalloc (exAf 0) () (exData 20000)
        (List.replicate 20000 7) = some r ∧
      (∀ k c, r.calls[k]? = some c →
        c.frame = peek (call_stream (exAf 0).setup (List.replicate 20000 7))
            (k * (exAf 0).setup.expect_len.toNat) (exAf 0).setup.expect_len.toNat ∧
        c.frame.length = (exAf 0).setup.expect_len.toNat) ∧
      ((∀ c ∈ r.calls, 0 < c.ret) →
        r.calls.length = (call_stream (exAf 0).setup (List.replicate 20000 7)).length
            / (exAf 0).setup.expect_len.toNat ∧
        r.af.setup.pending_len.toNat
          = (call_stream (exAf 0).setup (List.replicate 20000 7)).length
              % (exAf 0).setup.expect_len.toNat ∧
        r.af.setup.pending_data.take r.af.setup.pending_len.toNat
          = (call_stream (exAf 0).setup (List.replicate 20000 7)).drop
              ((call_stream (exAf 0).setup (List.replicate 20000 7)).length
                - (call_stream (exAf 0).setup (List.replicate 20000 7)).length
                    % (exAf 0).setup.expect_len.toNat)) :=
  frame_contents (exLavc [11, 119] 1) exMalloc (exAf 0) () (exData 20000)
    (List.replicate 20000 7) (by decide) (by decide) (by decide)
    (by show (18432 : Int) ≤ ((List.replicate 24576 0).length : Int)
        rw [List.length_replicate]; decide)
    (by decide)
    (by show (20000 : Int) = ((List.replicate 20000 7).length : Int)
        rw [List.length_replicate]; rfl)
    (by decide)

section outsteps

variable {σ : Type} (L : Lavc σ) (l_len : Int) (st : PlayLoop σ)

theorem enc_step_out :
    ∃ c, (enc_step L l_len st).1.calls = st.calls ++ [c] ∧ c.ret = (enc_step L l_len st).2 ∧
      c.dest = dest_of st ∧ c.dst_len = l_len - st.buf ∧
      (enc_step L l_len st).1.out_mem = poke st.out_mem (dest_of st).toNat c.pkt ∧
      (enc_step L l_len st).1.buf = st.buf ∧
      (enc_step L l_len st).1.outsize = st.outsize := by
  by_cases hpz : st.s.pending_len ≠ 0
  · rw [enc_step_of_pending L l_len st hpz]
    unfold encode_pending top_off dest_of
    simp only []
    split_ifs <;> exact ⟨_, rfl, rfl, rfl, rfl, rfl, rfl, rfl⟩
  · rw [enc_step_of_direct L l_len st (by simpa using hpz)]
    unfold encode_direct dest_of
    exact ⟨_, rfl, rfl, rfl, rfl, rfl, rfl, rfl⟩

theorem emit_hdr (len : Int) (h : st.s.add_iec61937_header ≠ 0) :
    (emit st len).out_mem = spdif_frame st.out_mem st.buf len ∧
      (emit st len).buf = st.buf + 6144 ∧ (emit st len).outsize = st.outsize + 6144 := by
  unfold emit
  simp only []
  rw [if_pos h]
  exact ⟨rfl, rfl, rfl⟩

theorem emit_nohdr (len : Int) (h : st.s.add_iec61937_header = 0) :
    (emit st len).out_mem = st.out_mem ∧
      (emit st len).buf = st.buf + len ∧ (emit st len).outsize = st.outsize + len := by
  unfold emit
  simp only []
  rw [if_neg (by simpa using h)]
  exact ⟨rfl, rfl, rfl⟩

end outsteps

theorem peek_of_take_eq {m1 m2 : List Nat} {n : Nat} (h : m1.take n = m2.take n) (a k : Nat)
    (hk : a + k ≤ n) : peek m1 a k = peek m2 a k := by
  apply List.ext_getElem?
  intro i
  simp only [peek_getElem?]
  split_ifs with hi
  · have := congrArg (fun l => l[a + i]?) h
    simp only [List.getElem?_take] at this
    rw [if_pos (by omega), if_pos (by omega)] at this
    exact this
  · rfl

theorem take_of_take_eq {m1 m2 : List Nat} {n : Nat} (h : m1.take n = m2.take n) (k : Nat)
    (hk : k ≤ n) : m1.take k = m2.take k := by
  have := congrArg (fun l => l.take k) h
  simp only [List.take_take] at this
  rwa [min_eq_left hk] at this

theorem memset_length (mem : List Nat) (off c : Nat) (n : Int) :
    (memset mem off c n).length = mem.length := by
  simp [memset, poke_length]

theorem spdif_frame_length (mem : List Nat) (buf len : Int) (hb : 0 ≤ buf) :
    (spdif_frame mem buf len).length = mem.length := by
  rw [spdif_frame_eq mem buf len hb, memset_length, poke_length]

theorem spdif_frame_take (mem : List Nat) (buf len : Int) (hb : 0 ≤ buf) (hl : 0 ≤ len) :
    (spdif_frame mem buf len).take buf.toNat = mem.take buf.toNat := by
  rw [spdif_frame_eq mem buf len hb, memset, poke_take_le _ _ _ _ (by omega),
    poke_take_le _ _ _ _ (le_refl _)]

/-- The eight header bytes are in place after the framing, whatever `len`. -/
theorem spdif_frame_header (mem : List Nat) (buf len : Int) (hb : 0 ≤ buf) (hl : 0 ≤ len)
    (hcap : buf.toNat + 8 ≤ mem.length) :
    peek (spdif_frame mem buf len) buf.toNat 8
      = spdif_header (mem.getD (buf.toNat + 13) 0 % 8) len := by
  rw [spdif_frame_eq mem buf len hb, memset, peek_poke_lt _ _ _ _ _ (by omega)]
  exact peek_poke_same mem buf.toNat _ (by simpa [spdif_header] using hcap)

/-- The burst of a payload of `len` bytes stored at `buf + 8`. -/
theorem spdif_frame_poke (mem P : List Nat) (buf len : Int) (hb : 0 ≤ buf)
    (hlen : len = P.length) (hL : P.length ≤ 6136) :
    spdif_frame (poke mem (buf + 8).toNat P) buf len
      = poke mem buf.toNat
          (spdif_burst ((poke mem (buf + 8).toNat P).getD (buf.toNat + 13) 0 % 8) P) := by
  subst hlen
  rw [spdif_frame_eq _ buf _ hb, memset]
  generalize (poke mem (buf + 8).toNat P).getD (buf.toNat + 13) 0 % 8 = bs
  have hH : (spdif_header bs (P.length : Int)).length = 8 := by simp [spdif_header]
  have e8 : (buf + 8).toNat = buf.toNat + (spdif_header bs (P.length : Int)).length := by omega
  have e9 : (buf + 8 + (P.length : Int)).toNat
      = buf.toNat + (spdif_header bs (P.length : Int) ++ P).length := by
    rw [List.length_append, hH]; omega
  have hcnt : ∀ m : List Nat,
      size_t_count m (AC3_FRAME_SIZE * 2 * 2 - 8 - (P.length : Int)) = 6136 - P.length := by
    intro m
    unfold size_t_count AC3_FRAME_SIZE
    rw [if_neg (by omega)]
    omega
  rw [hcnt, e8, poke_poke_before, e9, poke_poke_adjacent]
  rfl

theorem bsmod_of_poke (mem P : List Nat) (b : Nat) (h6 : 6 ≤ P.length)
    (hcap : b + 14 ≤ mem.length) :
    (poke mem (b + 8) P).getD (b + 13) 0 = P.getD 5 0 := by
  rw [List.getD_eq_getElem?_getD, List.getD_eq_getElem?_getD, poke_getElem?,
    if_pos ⟨by omega, by omega, by omega⟩]
  congr 2
  omega

theorem BurstAt.of_take {m1 m2 : List Nat} {off : Nat} {c : EncCall}
    (h : m1.take (off + 6144) = m2.take (off + 6144)) (hb : BurstAt m2 off c) :
    BurstAt m1 off c := by
  obtain ⟨⟨bs, h1⟩, h2⟩ := hb
  refine ⟨⟨bs, by rw [peek_of_take_eq h off 8 (by omega)]; exact h1⟩, ?_⟩
  intro e1 e2
  obtain ⟨bs', g1, g2⟩ := h2 e1 e2
  exact ⟨bs', by rw [peek_of_take_eq h off 6144 (by omega)]; exact g1, g2⟩

theorem hdr_step {σ : Type} (L : Lavc σ) (l_len : Int) (st : PlayLoop σ) (ok : HdrOK st)
    (hs : ¬ st.left + st.s.pending_len < st.s.expect_len)
    (hlen : ¬ (enc_step L l_len st).2 ≤ 0) :
    ∃ c, (enc_step L l_len st).1.calls = st.calls ++ [c] ∧
      c.ret = (enc_step L l_len st).2 ∧ c.dest = st.buf + 8 ∧
      st.buf + 6144 ≤ st.out_mem.length ∧
      HdrOK (emit (enc_step L l_len st).1 (enc_step L l_len st).2) ∧
      (emit (enc_step L l_len st).1 (enc_step L l_len st).2).buf = st.buf + 6144 ∧
      (emit (enc_step L l_len st).1 (enc_step L l_len st).2).outsize = st.outsize + 6144 ∧
      (emit (enc_step L l_len st).1 (enc_step L l_len st).2).out_mem.length
        = st.out_mem.length ∧
      (emit (enc_step L l_len st).1 (enc_step L l_len st).2).out_mem.take st.buf.toNat
        = st.out_mem.take st.buf.toNat ∧
      BurstAt (emit (enc_step L l_len st).1 (enc_step L l_len st).2).out_mem st.buf.toNat c ∧
      peek (emit (enc_step L l_len st).1 (enc_step L l_len st).2).out_mem st.buf.toNat 8
        = spdif_header ((poke st.out_mem (st.buf + 8).toNat c.pkt).getD
            (st.buf.toNat + 13) 0 % 8) c.ret := by
  obtain ⟨hdr, hE, hp0, hp, hleft, hbuf, f, hf1, hf2⟩ := ok
  obtain ⟨c, c1, c2, c3, c4, c5, c6, c7⟩ := enc_step_out L l_len st
  have hcfg := enc_step_cfg L l_len st
  have hdr' : (enc_step L l_len st).1.s.add_iec61937_header ≠ 0 := by
    rw [hcfg.2.2.1]; exact hdr
  obtain ⟨e1, e2, e3⟩ := emit_hdr (enc_step L l_len st).1 (enc_step L l_len st).2 hdr'
  have hdest : dest_of st = st.buf + 8 := by simp [dest_of, hdr]
  rw [hdest] at c3 c5
  rw [c6] at e1 e2
  rw [c7] at e3
  rw [c5] at e1
  have hf : 1 ≤ f := by
    rcases f with _ | g
    · simp only [Nat.cast_zero, zero_add, one_mul] at hf1
      omega
    · omega
  have hroom : st.buf + 6144 ≤ st.out_mem.length := by omega
  have hpos : 0 < (enc_step L l_len st).2 := by omega
  have hE' := hcfg.2.2.2.2.2.1
  have hP' := enc_step_pending_len L l_len st
  have hL' := enc_step_left L l_len st hp
  have hcast : ((f - 1 : Nat) : Int) = (f : Int) - 1 := by omega
  have hlen' : (emit (enc_step L l_len st).1 (enc_step L l_len st).2).out_mem.length
      = st.out_mem.length := by
    rw [e1, spdif_frame_length _ _ _ hbuf, poke_length]
  have hok : HdrOK (emit (enc_step L l_len st).1 (enc_step L l_len st).2) := by
    refine ⟨?_, ?_, ?_, ?_, ?_, ?_, f - 1, ?_, ?_⟩
    · rw [emit_s]; exact hdr'
    · rw [emit_s, hE']; exact hE
    · rw [emit_s, hP']
    · rw [emit_s, hP', hE']; exact hE
    · rw [emit_left, hL']; omega
    · rw [e2]; omega
    · rw [emit_left, emit_s, hL', hP', hE', hcast]
      have : ((f : Int) + 1) * st.s.expect_len
          = ((f : Int) - 1 + 1) * st.s.expect_len + st.s.expect_len := by ring
      linarith
    · rw [e2, hlen', hcast]
      omega
  refine ⟨c, c1, c2, c3, hroom, hok, e2, e3, hlen', ?_, ?_, ?_⟩
  · rw [e1, spdif_frame_take _ _ _ hbuf hpos.le, poke_take_le _ _ _ _ (by omega)]
  · unfold BurstAt
    rw [c2, e1]
    refine ⟨⟨(poke st.out_mem (st.buf + 8).toNat c.pkt).getD (st.buf.toNat + 13) 0 % 8, ?_⟩,
      ?_⟩
    · exact spdif_frame_header _ _ _ hbuf hpos.le (by rw [poke_length]; omega)
    · intro g1 g2
      rw [spdif_frame_poke _ _ _ _ hbuf g1 g2]
      refine ⟨(poke st.out_mem (st.buf + 8).toNat c.pkt).getD (st.buf.toNat + 13) 0 % 8,
        ?_, ?_⟩
      · have := peek_poke_same st.out_mem st.buf.toNat
          (spdif_burst ((poke st.out_mem (st.buf + 8).toNat c.pkt).getD
            (st.buf.toNat + 13) 0 % 8) c.pkt)
          (by rw [spdif_burst_length _ _ g2]; omega)
        rw [spdif_burst_length _ _ g2] at this
        exact this
      · intro g6
        have e8 : (st.buf + 8).toNat = st.buf.toNat + 8 := by omega
        rw [e8, bsmod_of_poke _ _ _ g6 (by omega)]
  · rw [c2, e1]
    exact spdif_frame_header _ _ _ hbuf hpos.le (by rw [poke_length]; omega)

theorem play_loop_bursts {σ : Type} (L : Lavc σ) (l_len : Int) :
    ∀ (fuel : Nat) (st : PlayLoop σ) (b : Bool) (st' : PlayLoop σ), HdrOK st →
      play_loop L l_len fuel st = some (b, st') →
      st'.out_mem.length = st.out_mem.length ∧ st.buf ≤ st'.buf ∧
      st'.out_mem.take st.buf.toNat = st.out_mem.take st.buf.toNat ∧
      ∃ new, st'.calls = st.calls ++ new ∧
        (b = true → st'.outsize = st.outsize + 6144 * new.length) ∧
        ∀ (k : Nat) (c : EncCall), new[k]? = some c → 0 < c.ret →
          c.dest = st.buf + 6144 * k + 8 ∧
          st.buf + 6144 * k + 6144 ≤ st.out_mem.length ∧
          BurstAt st'.out_mem (st.buf + 6144 * k).toNat c := by
  intro fuel
  induction fuel with
  | zero =>
    intro st b st' ok h
    by_cases hpos : st.left > 0
    · simp [play_loop, hpos] at h
    · simp only [play_loop, hpos, if_false, Option.some.injEq, Prod.mk.injEq] at h
      obtain ⟨rfl, rfl⟩ := h
      exact ⟨rfl, le_refl _, rfl, [], by simp, by simp, by simp⟩
  | succ n ih =>
    intro st b st' ok h
    by_cases hpos : st.left > 0
    · by_cases hs : st.left + st.s.pending_len < st.s.expect_len
      · simp only [play_loop, hpos, if_true, play_body, hs, Option.some.injEq,
          Prod.mk.injEq] at h
        obtain ⟨rfl, rfl⟩ := h
        exact ⟨rfl, le_refl _, rfl, [], by simp [stash], by simp [stash], by simp⟩
      · by_cases hlen : (enc_step L l_len st).2 ≤ 0
        · simp only [play_loop, hpos, if_true, play_body, hs, if_false, hlen, Option.some.injEq,
            Prod.mk.injEq] at h
          obtain ⟨rfl, rfl⟩ := h
          obtain ⟨c, c1, c2, c3, c4, c5, c6, c7⟩ := enc_step_out L l_len st
          refine ⟨by rw [c5, poke_length], by rw [c6], ?_, [c], c1, by simp, ?_⟩
          · rw [c5]
            apply poke_take_le
            have := ok.hbuf
            unfold dest_of
            split_ifs <;> omega
          · intro k x hk hx
            rcases k with _ | k
            · simp only [List.getElem?_cons_zero, Option.some.injEq] at hk
              subst hk
              omega
            · simp at hk
        · obtain ⟨c, c1, c2, c3, hroom, hok, e2, e3, hl, ht, hb, -⟩ :=
            hdr_step L l_len st ok hs hlen
          simp only [play_loop, hpos, if_true, play_body, hs, if_false, hlen] at h
          obtain ⟨i1, i2, i3, new, i4, i5, i6⟩ := ih _ b st' hok h
          rw [hl] at i1
          rw [e2] at i2 i3 i6
          rw [e3] at i5
          rw [emit_calls, c1] at i4
          have hbuf := ok.hbuf
          have e6144 : (st.buf + 6144).toNat = st.buf.toNat + 6144 := by omega
          rw [e6144] at i3
          refine ⟨i1, by omega, ?_, c :: new, by rw [i4]; simp, ?_, ?_⟩
          · rw [take_of_take_eq i3 st.buf.toNat (by omega), ht]
          · intro hb'
            rw [i5 hb', List.length_cons]
            push_cast
            ring
          · intro k x hk hx
            rcases k with _ | k
            · simp only [List.getElem?_cons_zero, Option.some.injEq] at hk
              subst hk
              refine ⟨by rw [c3]; simp, by simpa using hroom, ?_⟩
              simp only [Nat.cast_zero, mul_zero, add_zero]
              exact hb.of_take i3
            · simp only [List.getElem?_cons_succ] at hk
              obtain ⟨j1, j2, j3⟩ := i6 k x hk hx
              rw [hl] at j2
              refine ⟨by rw [j1]; push_cast; ring, by push_cast; linarith, ?_⟩
              have : st.buf + 6144 * ((k + 1 : Nat) : Int) = st.buf + 6144 + 6144 * (k : Int) := by
                push_cast; ring
              rw [this]
              exact j3
    · simp only [play_loop, hpos, if_false, Option.some.injEq, Prod.mk.injEq] at h
      obtain ⟨rfl, rfl⟩ := h
      exact ⟨rfl, le_refl _, rfl, [], by simp, by simp, by simp⟩

theorem play_cases {σ : Type} {L : Lavc σ} {m : Malloc} {af : af_instance_s} {cs : σ}
    {data : af_data_t} {in_mem : List Nat} {r : PlayResult σ}
    (h : play L m af cs data in_mem = some r) :
    (r = play_nomem af cs data in_mem ∧
      af.data.len < max_output_len af.setup data.len ∧ m.addr = 0) ∨
    ∃ b st', play_loop L (resize m af data.len).data.len (data.len.toNat + 1)
        (loop_init (resize m af data.len) cs data in_mem) = some (b, st') ∧
      r = play_done (resize m af data.len) data b st' := by
  unfold play at h
  split_ifs at h with h1 h2
  · simp only [Option.some.injEq] at h
    exact Or.inl ⟨h.symm, h2⟩
  · simp only [Option.map_eq_some'] at h
    obtain ⟨⟨b, st'⟩, g1, g2⟩ := h
    exact Or.inr ⟨b, st', g1, g2.symm⟩

/-- The number of frames of a call is `(len + p) / E`, and `max_output_len`
is that number of bursts, or of coded frames of the maximum size. -/
theorem max_output_len_eq (s : af_ac3enc_t) (len : Int) (hE : 0 < s.expect_len)
    (hp0 : 0 ≤ s.pending_len) (hlen : 0 ≤ len) :
    max_output_len s len
      = (if s.add_iec61937_header ≠ 0 then 6144 else 3840)
          * ((len + s.pending_len) / s.expect_len) := by
  unfold max_output_len AC3_FRAME_SIZE AC3_MAX_CODED_FRAME_SIZE
  simp only []
  rw [Int.tdiv_eq_ediv (by omega) hE.le]
  split_ifs <;> ring

theorem resize_room (m : Malloc) (af : af_instance_s) (len : Int)
    (hmem : af.data.len ≤ af.audio_mem.length) (h0 : 0 ≤ max_output_len af.setup len) :
    max_output_len af.setup len ≤ (resize m af len).audio_mem.length ∧
      (resize m af len).data.len ≤ (resize m af len).audio_mem.length := by
  unfold resize
  split_ifs with h
  · simp only [List.length_map, List.length_range]
    omega
  · omega

theorem hdr_init {σ : Type} (m : Malloc) (af : af_instance_s) (cs : σ) (data : af_data_t)
    (in_mem : List Nat) (hdr : af.setup.add_iec61937_header ≠ 0)
    (hE : 0 < af.setup.expect_len) (hp0 : 0 ≤ af.setup.pending_len)
    (hp : af.setup.pending_len < af.setup.expect_len) (hlen : 0 ≤ data.len)
    (hmem : af.data.len ≤ af.audio_mem.length) :
    HdrOK (loop_init (resize m af data.len) cs data in_mem) := by
  have hs := resize_setup m af data.len
  have hq : 0 ≤ (data.len + af.setup.pending_len) / af.setup.expect_len :=
    Int.ediv_nonneg (by omega) hE.le
  have hmax := max_output_len_eq af.setup data.len hE hp0 hlen
  rw [if_pos hdr] at hmax
  have hroom := (resize_room m af data.len hmem (by rw [hmax]; omega)).1
  refine ⟨by simp only [loop_init, hs]; exact hdr, by simp only [loop_init, hs]; exact hE,
    by simp only [loop_init, hs]; exact hp0, by simp only [loop_init, hs]; exact hp,
    by simp only [loop_init]; exact hlen, by simp [loop_init],
    ((data.len + af.setup.pending_len) / af.setup.expect_len).toNat, ?_, ?_⟩
  · simp only [loop_init, hs]
    rw [Int.toNat_of_nonneg hq]
    exact Int.lt_ediv_add_one_mul_self _ hE
  · simp only [loop_init]
    rw [Int.toNat_of_nonneg hq]
    omega

theorem peek_sub {mem X : List Nat} {off n : Nat} (h : peek mem off n = X) (a k : Nat)
    (hk : a + k ≤ n) : peek mem (off + a) k = (X.drop a).take k := by
  subst h
  apply List.ext_getElem?
  intro i
  simp only [peek_getElem?, List.getElem?_take, List.getElem?_drop]
  split_ifs with h1 h2
  · congr 1
    omega
  · omega
  · rfl

/-- The bursts of a call of `play` in a session with S/PDIF framing. -/
theorem play_bursts {σ : Type} (L : Lavc σ) (m : Malloc) (af : af_instance_s) (cs : σ)
    (data : af_data_t) (in_mem : List Nat) (hdr : af.setup.add_iec61937_header ≠ 0)
    (hE : 0 < af.setup.expect_len) (hp0 : 0 ≤ af.setup.pending_len)
    (hp : af.setup.pending_len < af.setup.expect_len) (hlen : 0 ≤ data.len)
    (hmem : af.data.len ≤ af.audio_mem.length) :
    ∃ r, play L m af cs data in_mem = some r ∧
      (r.ret = true → r.data.len = 6144 * r.calls.length) ∧
      ∀ (k : Nat) (c : EncCall), r.calls[k]? = some c → 0 < c.ret →
        c.dest = 6144 * k + 8 ∧ 6144 * k + 6144 ≤ r.af.audio_mem.length ∧
        BurstAt r.af.audio_mem (6144 * k) c := by
  obtain ⟨r, h1, -⟩ := play_basic L m af cs data in_mem hE hp0 hp hlen
  refine ⟨r, h1, ?_⟩
  rcases play_cases h1 with ⟨rfl, -, -⟩ | ⟨b, st', g1, rfl⟩
  · simp [play_nomem]
  · obtain ⟨i1, -, -, new, i4, i5, i6⟩ := play_loop_bursts L _ _ _ b st'
      (hdr_init m af cs data in_mem hdr hE hp0 hp hlen hmem) g1
    simp only [loop_init, List.nil_append, zero_add] at i1 i4 i5 i6
    refine ⟨?_, ?_⟩
    · intro hb
      simp only [play_done] at hb ⊢
      rw [if_pos hb, i5 hb, i4]
    · intro k c hk hc
      simp only [play_done, i4] at hk ⊢
      obtain ⟨j1, j2, j3⟩ := i6 k c hk hc
      have e : (6144 * (k : Int)).toNat = 6144 * k := by omega
      rw [e] at j3
      refine ⟨j1, ?_, j3⟩
      rw [i1]
      omega

/-- Claim C7.  S/PDIF burst header layout.  In a session with
`add_iec61937_header` set, `0 < expect_len`, `0 ≤ pending_len < expect_len`
and an output block at least as large as its recorded size, a data call with
`len ≥ 0` returns, and for the `k`-th frame it encoded, if the payload `P`
stored by the encoder is the `L` bytes that `encode_data` returned and
`6 ≤ L ≤ 3840`, the burst at offset `6144 * k` of the output block starts
with `F8 72 4E 1F`, then `P[5] & 7`, then `01`, then `L * 8` as two bytes,
high byte first, and its bytes `8 .. 8 + L - 1` are `P`. -/
theorem spdif_header_layout {σ : Type} (L : Lavc σ) (m : Malloc) (af : af_instance_s) (cs : σ)
    (data : af_data_t) (in_mem : List Nat) (hdr : af.setup.add_iec61937_header ≠ 0)
    (hE : 0 < af.setup.expect_len) (hp0 : 0 ≤ af.setup.pending_len)
    (hp : af.setup.pending_len < af.setup.expect_len) (hlen : 0 ≤ data.len)
    (hmem : af.data.len ≤ af.audio_mem.length) :
    ∃ r, play L m af cs data in_mem = some r ∧
      ∀ (k : Nat) (c : EncCall), r.calls[k]? = some c → c.ret = c.pkt.length →
        6 ≤ c.pkt.length → c.pkt.length ≤ 3840 →
        peek r.af.audio_mem (6144 * k) 8
          = [0xF8, 0x72, 0x4E, 0x1F, c.pkt.getD 5 0 % 8, 0x01,
             c.pkt.length * 8 / 256, c.pkt.length * 8 % 256] ∧
        peek r.af.audio_mem (6144 * k + 8) c.pkt.length = c.pkt := by
  obtain ⟨r, h1, -, h3⟩ := play_bursts L m af cs data in_mem hdr hE hp0 hp hlen hmem
  refine ⟨r, h1, ?_⟩
  intro k c hk e1 e2 e3
  obtain ⟨-, -, -, hb⟩ := h3 k c hk (by omega)
  obtain ⟨bs, g1, g2⟩ := hb e1 (by omega)
  rw [g2 e2] at g1
  have hH : (spdif_header (c.pkt.getD 5 0 % 8) (c.pkt.length : Int)).length = 8 := by
    simp [spdif_header]
  constructor
  · have := peek_sub g1 0 8 (by omega)
    rw [Nat.add_zero, List.drop_zero, spdif_burst, List.append_assoc,
      List.take_left' hH] at this
    rw [this]
    simp only [spdif_header, List.cons.injEq, and_true, true_and]
    omega
  · have := peek_sub g1 8 c.pkt.length (by omega)
    rw [spdif_burst, List.append_assoc, List.drop_left' hH, List.take_left' rfl] at this
    exact this

theorem spdif_header_layout_witness :
    ∃ r, play (exLavc (List.replicate 1792 0x0B) 1) exMalloc (exAf 1) () (exData 36864)
        (List.replicate 36864 7) = some r ∧
      ∀ (k : Nat) (c : EncCall), r.calls[k]? = some c → c.ret = c.pkt.length →
        6 ≤ c.pkt.length → c.pkt.length ≤ 3840 →
        peek r.af.audio_mem (6144 * k) 8
          = [0xF8, 0x72, 0x4E, 0x1F, c.pkt.getD 5 0 % 8, 0x01,
             c.pkt.length * 8 / 256, c.pkt.length * 8 % 256] ∧
        peek r.af.audio_mem (6144 * k + 8) c.pkt.length = c.pkt :=
  spdif_header_layout (exLavc (List.replicate 1792 0x0B) 1) exMalloc (exAf 1) ()
    (exData 36864) (List.replicate 36864 7) (by decide) (by decide) (by decide) (by decide)
    (by decide) (by decide)

/-- Claim C8.  S/PDIF burst size and padding.  In a session with
`add_iec61937_header` set, `0 < expect_len`, `0 ≤ pending_len < expect_len`
and an output block at least as large as its recorded size, a data call with
`len ≥ 0` returns; when it returns `c`, the length handed back is 6144 times
the number of frames encoded; and for the `k`-th frame it encoded, if the
payload is the `L` bytes that `encode_data` returned and `1 ≤ L ≤ 3840`, its
burst occupies the 6144 bytes at offset `6144 * k` of the output block
(`dest` was `6144 * k + 8`, and the block reaches to `6144 * k + 6144`), and
the bytes of the burst from `8 + L` to 6143 are zero. -/
theorem spdif_burst_size_and_padding {σ : Type} (L : Lavc σ) (m : Malloc)
    (af : af_instance_s) (cs : σ) (data : af_data_t) (in_mem : List Nat)
    (hdr : af.setup.add_iec61937_header ≠ 0)
    (hE : 0 < af.setup.expect_len) (hp0 : 0 ≤ af.setup.pending_len)
    (hp : af.setup.pending_len < af.setup.expect_len) (hlen : 0 ≤ data.len)
    (hmem : af.data.len ≤ af.audio_mem.length) :
    ∃ r, play L m af cs data in_mem = some r ∧
      (r.ret = true → r.data.len = 6144 * r.calls.length) ∧
      ∀ (k : Nat) (c : EncCall), r.calls[k]? = some c → c.ret = c.pkt.length →
        1 ≤ c.pkt.length → c.pkt.length ≤ 3840 →
        c.dest = 6144 * k + 8 ∧ 6144 * k + 6144 ≤ r.af.audio_mem.length ∧
        (peek r.af.audio_mem (6144 * k) 6144).length = 6144 ∧
        peek r.af.audio_mem (6144 * k + 8 + c.pkt.length) (6144 - 8 - c.pkt.length)
          = List.replicate (6144 - 8 - c.pkt.length) 0 := by
  obtain ⟨r, h1, h2, h3⟩ := play_bursts L m af cs data in_mem hdr hE hp0 hp hlen hmem
  refine ⟨r, h1, h2, ?_⟩
  intro k c hk e1 e2 e3
  obtain ⟨j1, j2, -, hb⟩ := h3 k c hk (by omega)
  obtain ⟨bs, g1, -⟩ := hb e1 (by omega)
  refine ⟨j1, by exact_mod_cast j2, ?_, ?_⟩
  · rw [g1, spdif_burst_length _ _ (by omega)]
  · have hH : (spdif_header bs (c.pkt.length : Int) ++ c.pkt).length = 8 + c.pkt.length := by
      simp only [spdif_header, List.length_append, List.length_cons, List.length_nil]
    have := peek_sub g1 (8 + c.pkt.length) (6144 - 8 - c.pkt.length) (by omega)
    rw [spdif_burst, List.drop_left' hH] at this
    rw [← Nat.add_assoc] at this
    exact this.trans (List.take_of_length_le (le_of_eq (List.length_replicate _ _)))

theorem spdif_burst_size_and_padding_witness :
    ∃ r, play (exLavc (List.replicate 1792 0x0B) 1) exMalloc (exAf 1) () (exData 36864)
        (List.replicate 36864 7) = some r ∧
      (r.ret = true → r.data.len = 6144 * r.calls.length) ∧
      ∀ (k : Nat) (c : EncCall), r.calls[k]? = some c → c.ret = c.pkt.length →
        1 ≤ c.pkt.length → c.pkt.length ≤ 3840 →
        c.dest = 6144 * k + 8 ∧ 6144 * k + 6144 ≤ r.af.audio_mem.length ∧
        (peek r.af.audio_mem (6144 * k) 6144).length = 6144 ∧
        peek r.af.audio_mem (6144 * k + 8 + c.pkt.length) (6144 - 8 - c.pkt.length)
          = List.replicate (6144 - 8 - c.pkt.length) 0 :=
  spdif_burst_size_and_padding (exLavc (List.replicate 1792 0x0B) 1) exMalloc (exAf 1) ()
    (exData 36864) (List.replicate 36864 7) (by decide) (by decide) (by decide) (by decide)
    (by decide) (by decide)

/-- The eight bytes at `buf` once the header statements have run. -/
theorem spdif_head_peek (mem : List Nat) (buf len : Int) (hb : 0 ≤ buf)
    (hcap : buf.toNat + 8 ≤ mem.length) :
    peek (spdif_head mem buf len) buf.toNat 8
      = spdif_header (mem.getD (buf.toNat + 13) 0 % 8) len := by
  rw [spdif_head_eq mem buf len hb]
  exact peek_poke_same mem buf.toNat _ (by simpa [spdif_header] using hcap)

/-- The `memset` of the S/PDIF framing is defined for a payload of at most 6136
bytes when the block has room for the burst, and for no payload longer than
that. -/
theorem pad_defined_iff (mem : List Nat) (buf len : Int) (hb : 0 ≤ buf) (hl : 0 ≤ len)
    (hroom : buf + 6144 ≤ mem.length) :
    memset_defined (spdif_head mem buf len) (buf + 8 + len).toNat (pad_count len)
      ↔ len ≤ 6136 := by
  have hlen : (spdif_head mem buf len).length = mem.length := by
    rw [spdif_head_eq mem buf len hb, poke_length]
  unfold memset_defined pad_count AC3_FRAME_SIZE
  rw [hlen]
  constructor
  · intro h
    omega
  · intro h
    constructor
    · omega
    · omega

/-- The length field of a header, as two bytes that make up `(len * 8) mod
65536`. -/
theorem spdif_header_length_field (bs : Nat) (len : Int) :
    ∃ b6 b7 : Nat, spdif_header bs len = [0xF8, 0x72, 0x4E, 0x1F, bs, 0x01, b6, b7] ∧
      b6 < 256 ∧ b7 < 256 ∧ (b6 : Int) * 256 + b7 = (len * 8) % 65536 := by
  refine ⟨((len * 8 / 256) % 256).toNat, ((len * 8) % 256).toNat, rfl, ?_, ?_, ?_⟩
  · omega
  · omega
  · omega

/-- A data call with a block for its output and at least one byte of input
runs the loop body on the variables set up at the head of `play`: when that
first pass returns NULL so does the call, and when it reaches the bottom of
the body the call goes on from the variables it leaves. -/
theorem play_first_pass {σ : Type} (L : Lavc σ) (m : Malloc) (af : af_instance_s) (cs : σ)
    (data : af_data_t) (in_mem : List Nat) (hE : af.setup.expect_len ≠ 0)
    (hm : m.addr ≠ 0) (hlen : 0 < data.len) (st1 : PlayLoop σ) :
    (play_body L (resize m af data.len).data.len
        (loop_init (resize m af data.len) cs data in_mem) = Step.null st1 →
      play L m af cs data in_mem = some (play_done (resize m af data.len) data false st1)) ∧
    (play_body L (resize m af data.len).data.len
        (loop_init (resize m af data.len) cs data in_mem) = Step.next st1 →
      play L m af cs data in_mem
        = (play_loop L (resize m af data.len).data.len data.len.toNat st1).map
            fun x : Bool × PlayLoop σ => play_done (resize m af data.len) data x.1 x.2) := by
  have hl : (loop_init (resize m af data.len) cs data in_mem).left > 0 := hlen
  constructor
  · intro h
    unfold play
    rw [if_neg hE, if_neg (fun h => hm h.2)]
    simp only [play_loop, hl, if_true, h, Option.map_some']
  · intro h
    unfold play
    rw [if_neg hE, if_neg (fun h => hm h.2)]
    simp only [play_loop, hl, if_true, h]

/-- A pass of the loop that encodes a frame in a session with S/PDIF framing:
when `encode_data` returns a positive length the pass does not return NULL, and
the output block it leaves is that of the header statements followed by the
`memset`. -/
theorem play_body_framed {σ : Type} (L : Lavc σ) (l_len : Int) (st : PlayLoop σ)
    (hdr : st.s.add_iec61937_header ≠ 0)
    (hfr : ¬ st.left + st.s.pending_len < st.s.expect_len)
    (hpos : 0 < (enc_step L l_len st).2) :
    play_body L l_len st
        = Step.next (emit (enc_step L l_len st).1 (enc_step L l_len st).2) ∧
      (emit (enc_step L l_len st).1 (enc_step L l_len st).2).out_mem
        = memset (spdif_head (enc_step L l_len st).1.out_mem st.buf (enc_step L l_len st).2)
            (st.buf + 8 + (enc_step L l_len st).2).toNat 0
            (pad_count (enc_step L l_len st).2) := by
  obtain ⟨c, -, -, -, -, -, hb, -⟩ := enc_step_out L l_len st
  have hcfg : (enc_step L l_len st).1.s.add_iec61937_header ≠ 0 := by
    rw [(enc_step_cfg L l_len st).2.2.1]; exact hdr
  constructor
  · unfold play_body
    simp only []
    rw [if_neg hfr, if_neg (by omega)]
  · rw [(emit_hdr (enc_step L l_len st).1 _ hcfg).1, hb]
    rfl

/-- The block that the sizing step of `play` allocates. -/
theorem resize_block (m : Malloc) (af : af_instance_s) (len : Int)
    (h : af.data.len < max_output_len af.setup len) :
    (resize m af len).audio_mem.length = (max_output_len af.setup len).toNat ∧
      (resize m af len).data.len = max_output_len af.setup len := by
  unfold resize
  rw [if_pos h]
  exact ⟨by simp only [List.length_map, List.length_range], rfl⟩

theorem loop_init_fields {σ : Type} (af : af_instance_s) (cs : σ) (data : af_data_t)
    (in_mem : List Nat) :
    (loop_init af cs data in_mem).s = af.setup ∧
      (loop_init af cs data in_mem).left = data.len ∧
      (loop_init af cs data in_mem).buf = 0 ∧
      (loop_init af cs data in_mem).out_mem = af.audio_mem :=
  ⟨rfl, rfl, rfl, rfl⟩

theorem exLoop2_facts :
    exLoop2.s = exSession 1 ∧ exLoop2.left = 36864 ∧ exLoop2.buf = 0 ∧
      exLoop2.out_mem.length = 12288 ∧
      (resize exMalloc (exAf 1) (exData 36864).len).data.len = 12288 := by
  have hmax : max_output_len (exAf 1).setup (exData 36864).len = 12288 := rfl
  have hc : (exAf 1).data.len < max_output_len (exAf 1).setup (exData 36864).len := by
    rw [hmax]; decide
  obtain ⟨h1, h2⟩ := resize_block exMalloc (exAf 1) (exData 36864).len hc
  obtain ⟨e1, e2, e3, e4⟩ := loop_init_fields (resize exMalloc (exAf 1) (exData 36864).len) ()
    (exData 36864) (List.replicate 36864 7)
  unfold exLoop2
  refine ⟨by rw [e1]; exact resize_setup _ _ _, e2, e3, ?_, ?_⟩
  · rw [e4, h1, hmax]
    rfl
  · rw [h2, hmax]

theorem exLoop2_enc (pkt : List Nat) (l_len : Int) :
    (enc_step (exLavc pkt 1) l_len exLoop2).2 = pkt.length ∧
      (enc_step (exLavc pkt 1) l_len exLoop2).1.out_mem = poke exLoop2.out_mem 8 pkt := by
  obtain ⟨hs, -, hb, -, -⟩ := exLoop2_facts
  have hp : exLoop2.s.pending_len = 0 := by rw [hs]; rfl
  have hd : dest_of exLoop2 = 8 := by
    unfold dest_of
    rw [hs, hb]
    rfl
  obtain ⟨c, -, hc, -, -, hout, -, -⟩ := enc_step_out (exLavc pkt 1) l_len exLoop2
  have hr := exLavc_ret pkt 1 exLoop2.s exLoop2.in_mem exLoop2.src.toNat
    (l_len - exLoop2.buf) (by rw [hs]; rfl)
  have he := enc_step_of_direct (exLavc pkt 1) l_len exLoop2 hp
  have h2 : (enc_step (exLavc pkt 1) l_len exLoop2).2 = pkt.length := by
    rw [he]
    unfold encode_direct
    simp only []
    rw [hr.1, if_pos (by decide)]
  have h3 : (enc_step (exLavc pkt 1) l_len exLoop2).1.out_mem = poke exLoop2.out_mem 8 pkt := by
    rw [he]
    unfold encode_direct
    simp only []
    rw [hr.2, hs, hb]
    rfl
  exact ⟨h2, h3⟩

/-- Claim C9, counterexample.  A fresh session with S/PDIF framing is fed two
frames, and the encoder stores a packet of 8193 bytes for the first one (the
size passed is that of the block, 12288).  In the first pass of the loop (see
`play_first_pass`), on the variables `exLoop2` with `buf` at offset 0,
`encode_data` returns 8193; the pass does not return NULL; the header
statements store the two sync words, `bsmod`, the data type and the length
field `00 08`, that is `8193 * 8 mod 65536`.  The `memset` that comes next
has the count -2057: it is not a defined call. -/
theorem bit_length_check_counterexample :
    (resize exMalloc (exAf 1) (exData 36864).len).data.len = 12288 ∧
    exLoop2.s.add_iec61937_header ≠ 0 ∧ exLoop2.buf = 0 ∧
    (enc_step (exLavc (List.replicate 8193 0x0B) 1) 12288 exLoop2).2 = 8193 ∧
    (∀ st1, play_body (exLavc (List.replicate 8193 0x0B) 1) 12288 exLoop2 ≠ Step.null st1) ∧
    peek (spdif_head (enc_step (exLavc (List.replicate 8193 0x0B) 1) 12288 exLoop2).1.out_mem
        exLoop2.buf 8193) 0 8 = [0xF8, 0x72, 0x4E, 0x1F, 3, 0x01, 0x00, 0x08] ∧
    (8193 * 8 : Int) % 65536 = 0x00 * 256 + 0x08 ∧
    pad_count 8193 = -2057 ∧
    ¬ memset_defined
        (spdif_head (enc_step (exLavc (List.replicate 8193 0x0B) 1) 12288 exLoop2).1.out_mem
          exLoop2.buf 8193)
        (exLoop2.buf + 8 + 8193).toNat (pad_count 8193) := by
  obtain ⟨hs, hl, hb, hm, hlen⟩ := exLoop2_facts
  obtain ⟨h2, h3⟩ := exLoop2_enc (List.replicate 8193 0x0B) 12288
  rw [List.length_replicate] at h2
  have hdr : exLoop2.s.add_iec61937_header ≠ 0 := by rw [hs]; decide
  have hfr : ¬ exLoop2.left + exLoop2.s.pending_len < exLoop2.s.expect_len := by
    rw [hs, hl]; decide
  have hbody := (play_body_framed (exLavc (List.replicate 8193 0x0B) 1) 12288 exLoop2 hdr hfr
    (by rw [h2]; decide)).1
  refine ⟨hlen, hdr, hb, h2, ?_, ?_, by decide, by decide, fun h => absurd h.1 (by decide)⟩
  · intro st1 h
    rw [hbody] at h
    exact Step.noConfusion h
  · rw [h3, hb]
    have hpk := spdif_head_peek (poke exLoop2.out_mem 8 (List.replicate 8193 0x0B)) 0 8193
      (le_refl _) (by rw [poke_length, hm]; decide)
    have hbs := bsmod_of_poke exLoop2.out_mem (List.replicate 8193 0x0B) 0
      (by rw [List.length_replicate]; decide) (by rw [hm]; decide)
    simp only [Nat.zero_add] at hbs
    have e0 : (0 : Int).toNat = 0 := rfl
    rw [e0, Nat.zero_add, hbs] at hpk
    rw [hpk]
    have hg : (List.replicate 8193 0x0B).getD 5 0 = 0x0B := by
      rw [List.getD_eq_getElem?_getD, List.getElem?_replicate]
      rfl
    rw [hg]
    decide

/-- Claim C9, amended.  `play` has no bit-length check.  Take a pass of the loop
that encodes a frame (`left + pending_len ≥ expect_len`) in a session with
`add_iec61937_header` set, with `buf` at least 8 bytes before the end of the
output block, in which `encode_data` returns `L ≥ 8192`.  The pass does not
return NULL for that frame, and the header statements, run on the block as
`encode_data` left it, store the two sync words, `bsmod`, the data type and a
length field of two bytes that holds `(L * 8) mod 65536`, high byte first.
The count of the `memset` that follows the header is negative, so that the
call is not defined; nothing is stated about the program from that call
on. -/
theorem no_bit_length_check {σ : Type} (L : Lavc σ) (l_len : Int) (st : PlayLoop σ)
    (hdr : st.s.add_iec61937_header ≠ 0)
    (hfr : ¬ st.left + st.s.pending_len < st.s.expect_len)
    (hbuf : 0 ≤ st.buf) (hcap : st.buf + 8 ≤ st.out_mem.length)
    (hL : 8192 ≤ (enc_step L l_len st).2) :
    (∀ st1, play_body L l_len st ≠ Step.null st1) ∧
    (∃ b4 b6 b7 : Nat,
      peek (spdif_head (enc_step L l_len st).1.out_mem st.buf (enc_step L l_len st).2)
          st.buf.toNat 8 = [0xF8, 0x72, 0x4E, 0x1F, b4, 0x01, b6, b7] ∧
      b6 < 256 ∧ b7 < 256 ∧
      (b6 : Int) * 256 + b7 = ((enc_step L l_len st).2 * 8) % 65536) ∧
    pad_count (enc_step L l_len st).2 < 0 ∧
    ¬ memset_defined
        (spdif_head (enc_step L l_len st).1.out_mem st.buf (enc_step L l_len st).2)
        (st.buf + 8 + (enc_step L l_len st).2).toNat (pad_count (enc_step L l_len st).2) := by
  obtain ⟨c, -, -, -, -, hout, -, -⟩ := enc_step_out L l_len st
  have hbody := (play_body_framed L l_len st hdr hfr (by omega)).1
  have hlen : (enc_step L l_len st).1.out_mem.length = st.out_mem.length := by
    rw [hout, poke_length]
  have hneg : pad_count (enc_step L l_len st).2 < 0 := by
    unfold pad_count AC3_FRAME_SIZE
    omega
  refine ⟨?_, ?_, hneg, fun h => absurd h.1 (by omega)⟩
  · intro st1 h
    rw [hbody] at h
    exact Step.noConfusion h
  · have hpk := spdif_head_peek (enc_step L l_len st).1.out_mem st.buf (enc_step L l_len st).2
      hbuf (by rw [hlen]; omega)
    obtain ⟨b6, b7, e, h6, h7, hv⟩ := spdif_header_length_field
      ((enc_step L l_len st).1.out_mem.getD (st.buf.toNat + 13) 0 % 8) (enc_step L l_len st).2
    exact ⟨_, b6, b7, by rw [hpk, e], h6, h7, hv⟩

theorem no_bit_length_check_witness :
    (∀ st1, play_body (exLavc (List.replicate 8193 0x0B) 1) 12288 exLoop2 ≠ Step.null st1) ∧
    (∃ b4 b6 b7 : Nat,
      peek (spdif_head (enc_step (exLavc (List.replicate 8193 0x0B) 1) 12288 exLoop2).1.out_mem
            exLoop2.buf (enc_step (exLavc (List.replicate 8193 0x0B) 1) 12288 exLoop2).2)
          exLoop2.buf.toNat 8 = [0xF8, 0x72, 0x4E, 0x1F, b4, 0x01, b6, b7] ∧
      b6 < 256 ∧ b7 < 256 ∧
      (b6 : Int) * 256 + b7
        = ((enc_step (exLavc (List.replicate 8193 0x0B) 1) 12288 exLoop2).2 * 8) % 65536) ∧
    pad_count (enc_step (exLavc (List.replicate 8193 0x0B) 1) 12288 exLoop2).2 < 0 ∧
    ¬ memset_defined
        (spdif_head (enc_step (exLavc (List.replicate 8193 0x0B) 1) 12288 exLoop2).1.out_mem
          exLoop2.buf (enc_step (exLavc (List.replicate 8193 0x0B) 1) 12288 exLoop2).2)
        (exLoop2.buf + 8 + (enc_step (exLavc (List.replicate 8193 0x0B) 1) 12288 exLoop2).2).toNat
        (pad_count (enc_step (exLavc (List.replicate 8193 0x0B) 1) 12288 exLoop2).2) :=
  no_bit_length_check (exLavc (List.replicate 8193 0x0B) 1) 12288 exLoop2
    (by rw [exLoop2_facts.1]; decide)
    (by rw [exLoop2_facts.1, exLoop2_facts.2.1]; decide)
    (by rw [exLoop2_facts.2.2.1])
    (by rw [exLoop2_facts.2.2.1, exLoop2_facts.2.2.2.1]; decide)
    (by rw [(exLoop2_enc (List.replicate 8193 0x0B) 12288).1, List.length_replicate]; decide)

/-- Claim C10.  Detach below the channel threshold.  A REINIT whose channel count
is below `min_channel_num` returns AF_DETACH and leaves everything as it was:
the filter instance (`pending_len`, `expect_len`, `af->mul`, `af->data`, the
codec context), the descriptor `*data` and the library state, and it makes no
library call.  And after a COMMAND_LINE whose third field is missing or zero,
`min_channel_num` is 5, so that every REINIT with fewer than five channels
detaches in this way. -/
theorem detach_below_threshold {σ : Type} (L : Lavc σ) (H : Host σ) (af : af_instance_s)
    (lib : σ) (data : af_data_t) (h : data.nch < af.setup.min_channel_num) :
    control L H af lib (Cmd.AF_CONTROL_REINIT data)
        = some { af := af, lib := lib, data := some data, ret := H.AF_DETACH, log := [] } ∧
      ∀ fields : List Int, fields.getD 2 0 = 0 →
        ∃ r, control L H af lib (Cmd.AF_CONTROL_COMMAND_LINE fields) = some r ∧
          r.af.setup.min_channel_num = 5 ∧
          ∀ d : af_data_t, d.nch < 5 →
            control L H r.af r.lib (Cmd.AF_CONTROL_REINIT d)
              = some { af := r.af, lib := r.lib, data := some d, ret := H.AF_DETACH,
                       log := [] } := by
  constructor
  · simp only [control, h, or_true, if_true]
  · intro fields hf
    refine ⟨_, rfl, ?_, ?_⟩
    · simp only [command_line, hf, if_true]
    · intro d hd
      have : d.nch < (command_line af.setup fields).min_channel_num := by
        simp only [command_line, hf, if_true]
        exact hd
      simp only [control, this, or_true, if_true]

theorem detach_below_threshold_witness :
    control (exLavc [] 0) exHost (exAf 0) () (Cmd.AF_CONTROL_REINIT exStereo)
        = some { af := exAf 0, lib := (), data := some exStereo,
                 ret := exHost.AF_DETACH, log := [] } ∧
      ∀ fields : List Int, fields.getD 2 0 = 0 →
        ∃ r, control (exLavc [] 0) exHost (exAf 0) () (Cmd.AF_CONTROL_COMMAND_LINE fields)
            = some r ∧
          r.af.setup.min_channel_num = 5 ∧
          ∀ d : af_data_t, d.nch < 5 →
            control (exLavc [] 0) exHost r.af r.lib (Cmd.AF_CONTROL_REINIT d)
              = some { af := r.af, lib := r.lib, data := some d, ret := exHost.AF_DETACH,
                       log := [] } :=
  detach_below_threshold (exLavc [] 0) exHost (exAf 0) () exStereo (by decide)

theorem peek_poke_frame (mem X : List Nat) (off n : Nat)
    (hX : X.length ≤ (peek mem off n).length) :
    peek (poke mem off X) off n = poke (peek mem off n) 0 X := by
  rw [peek_length] at hX
  apply List.ext_getElem?
  intro i
  simp only [peek_getElem?, poke_getElem?, peek_length]
  by_cases h1 : i < n
  · by_cases h2 : i < X.length
    · rw [if_pos h1, if_pos ⟨by omega, by omega, by omega⟩,
        if_pos ⟨by omega, by omega, by omega⟩]
      congr 1
      omega
    · rw [if_pos h1, if_neg (by omega), if_neg (by omega), if_pos h1]
  · rw [if_neg h1, if_neg (by omega), if_neg h1]

section enc

variable {σ : Type} (L : Lavc σ) (s : af_ac3enc_t) (cs : σ) (mem : List Nat) (off : Nat)
  (d : Int)

/-- The function `encode_data` hands the reordered frame to `encode_src`. -/
theorem encode_data_src :
    (encode_data L s cs mem off d).codec
        = (encode_src L s cs (reordered L s (encode_data L s cs mem off d).frame) d).1 ∧
      (encode_data L s cs mem off d).dst
        = (encode_src L s cs (reordered L s (encode_data L s cs mem off d).frame) d).2.1 ∧
      (encode_data L s cs mem off d).ret
        = (encode_src L s cs (reordered L s (encode_data L s cs mem off d).frame) d).2.2 := by
  have key : peek (encode_data L s cs mem off d).mem off (frame_bytes L s).toNat
      = reordered L s (encode_data L s cs mem off d).frame := by
    rw [encode_data_mem, encode_data_frame, reordered]
    split_ifs
    · apply peek_poke_frame
      simp only [List.length_take]
      omega
    · rfl
  rw [← key]
  exact ⟨rfl, rfl, rfl⟩

end enc

theorem encode_src_cfg {σ : Type} (L : Lavc σ) (s s' : af_ac3enc_t) (cs : σ) (src : List Nat)
    (d d' : Int) (h1 : s'.avr = s.avr) (h2 : s'.lavc_actx = s.lavc_actx)
    (hd : ∀ cs ctx f d d',
      L.avcodec_encode_audio2 cs ctx f d = L.avcodec_encode_audio2 cs ctx f d') :
    encode_src L s' cs src d = encode_src L s cs src d' := by
  unfold encode_src
  rw [h1, h2]
  simp only []
  rw [hd cs s.lavc_actx src d d',
    hd (L.avresample_convert cs src).1 s.lavc_actx (L.avresample_convert cs src).2.2 d d']

theorem reordered_cfg {σ : Type} (L : Lavc σ) (s s' : af_ac3enc_t) (frame : List Nat)
    (h2 : s'.lavc_actx = s.lavc_actx) : reordered L s' frame = reordered L s frame := by
  unfold reordered
  rw [h2]

theorem frame_bytes_cfg {σ : Type} (L : Lavc σ) (s s' : af_ac3enc_t)
    (h2 : s'.lavc_actx = s.lavc_actx) : frame_bytes L s' = frame_bytes L s := by
  unfold frame_bytes
  rw [h2]

theorem spec_run_short {σ : Type} (L : Lavc σ) (s : af_ac3enc_t) (E : Nat) (cs : σ)
    (S : List Nat) (h : S.length < E) : spec_run L s E cs S = (cs, [], S) := by
  rw [spec_run, dif_neg (by omega)]

theorem spec_run_frame {σ : Type} (L : Lavc σ) (s : af_ac3enc_t) (E : Nat) (cs : σ)
    (S : List Nat) (h0 : 0 < E) (h : E ≤ S.length) :
    spec_run L s E cs S
      = ((spec_run L s E (encode_src L s cs (reordered L s (S.take E)) 0).1 (S.drop E)).1,
         contrib s.add_iec61937_header (encode_src L s cs (reordered L s (S.take E)) 0).2.1
           ++ (spec_run L s E (encode_src L s cs (reordered L s (S.take E)) 0).1
                (S.drop E)).2.1,
         (spec_run L s E (encode_src L s cs (reordered L s (S.take E)) 0).1 (S.drop E)).2.2) := by
  rw [spec_run, dif_pos ⟨h0, h⟩]

/-- Framing a stream in two stages gives the same as framing it at once. -/
theorem spec_run_append {σ : Type} (L : Lavc σ) (s : af_ac3enc_t) (E : Nat) (h0 : 0 < E) :
    ∀ (n : Nat) (cs : σ) (S X : List Nat), S.length ≤ n →
      spec_run L s E cs (S ++ X)
        = ((spec_run L s E (spec_run L s E cs S).1 ((spec_run L s E cs S).2.2 ++ X)).1,
           (spec_run L s E cs S).2.1
             ++ (spec_run L s E (spec_run L s E cs S).1 ((spec_run L s E cs S).2.2 ++ X)).2.1,
           (spec_run L s E (spec_run L s E cs S).1 ((spec_run L s E cs S).2.2 ++ X)).2.2) := by
  intro n
  induction n with
  | zero =>
    intro cs S X hn
    have : S = [] := List.length_eq_zero.1 (by omega)
    subst this
    rw [spec_run_short L s E cs [] (by simpa using h0)]
    simp
  | succ n ih =>
    intro cs S X hn
    by_cases h : E ≤ S.length
    · have hSX : E ≤ (S ++ X).length := by rw [List.length_append]; omega
      have ht : (S ++ X).take E = S.take E := by
        rw [List.take_append_eq_append_take, Nat.sub_eq_zero_of_le h, List.take_zero,
          List.append_nil]
      have hd : (S ++ X).drop E = S.drop E ++ X := by
        rw [List.drop_append_eq_append_drop, Nat.sub_eq_zero_of_le h, List.drop_zero]
      rw [spec_run_frame L s E cs (S ++ X) h0 hSX, spec_run_frame L s E cs S h0 h, ht, hd,
        ih _ (S.drop E) X (by rw [List.length_drop]; omega)]
      simp only [List.append_assoc]
    · rw [spec_run_short L s E cs S (by omega)]
      simp

theorem enc_step_enc {σ : Type} (L : Lavc σ) (l_len : Int) (st : PlayLoop σ) :
    ∃ (s' : af_ac3enc_t) (mem : List Nat) (off : Nat) (fp : Bool),
      s'.avr = st.s.avr ∧ s'.lavc_actx = st.s.lavc_actx ∧
      (enc_step L l_len st).1.codec
        = (encode_data L s' st.codec mem off (l_len - st.buf)).codec ∧
      (enc_step L l_len st).2 = (encode_data L s' st.codec mem off (l_len - st.buf)).ret ∧
      (enc_step L l_len st).1.calls
        = st.calls ++ [⟨(encode_data L s' st.codec mem off (l_len - st.buf)).frame, fp,
            dest_of st, l_len - st.buf,
            (encode_data L s' st.codec mem off (l_len - st.buf)).dst,
            (encode_data L s' st.codec mem off (l_len - st.buf)).ret⟩] ∧
      (enc_step L l_len st).1.out_mem
        = poke st.out_mem (dest_of st).toNat
            (encode_data L s' st.codec mem off (l_len - st.buf)).dst ∧
      (enc_step L l_len st).1.buf = st.buf ∧
      (enc_step L l_len st).1.outsize = st.outsize := by
  by_cases hpz : st.s.pending_len ≠ 0
  · rw [enc_step_of_pending L l_len st hpz]
    unfold encode_pending top_off dest_of
    simp only []
    split_ifs <;> exact ⟨_, _, _, _, rfl, rfl, rfl, rfl, rfl, rfl, rfl, rfl⟩
  · rw [enc_step_of_direct L l_len st (by simpa using hpz)]
    unfold encode_direct dest_of
    exact ⟨_, _, _, _, rfl, rfl, rfl, rfl, rfl, rfl, rfl, rfl⟩

theorem enc_step_spec {σ : Type} (L : Lavc σ) (l_len : Int) (st : PlayLoop σ)
    (s0 : af_ac3enc_t) (ok : LoopOK L st)
    (hs : ¬ st.left + st.s.pending_len < st.s.expect_len)
    (h1 : st.s.avr = s0.avr) (h2 : st.s.lavc_actx = s0.lavc_actx)
    (hd : ∀ cs ctx f d d',
      L.avcodec_encode_audio2 cs ctx f d = L.avcodec_encode_audio2 cs ctx f d') :
    (enc_step L l_len st).1.codec
        = (encode_src L s0 st.codec
            (reordered L s0 ((stream st).take st.s.expect_len.toNat)) 0).1 ∧
      (enc_step L l_len st).2
        = (encode_src L s0 st.codec
            (reordered L s0 ((stream st).take st.s.expect_len.toNat)) 0).2.2 ∧
      (enc_step L l_len st).1.out_mem
        = poke st.out_mem (dest_of st).toNat
            (encode_src L s0 st.codec
              (reordered L s0 ((stream st).take st.s.expect_len.toNat)) 0).2.1 ∧
      (enc_step L l_len st).1.buf = st.buf ∧
      (enc_step L l_len st).1.outsize = st.outsize ∧
      LoopOK L (enc_step L l_len st).1 ∧
      stream (enc_step L l_len st).1 = (stream st).drop st.s.expect_len.toNat := by
  obtain ⟨c, c1, c2, -, c4, c5⟩ := enc_step_frames L l_len st ok hs
  obtain ⟨s', mem, off, fp, e1, e2, e3, e4, e5, e6, e7, e8⟩ := enc_step_enc L l_len st
  have hc := List.append_cancel_left (c1.symm.trans e5)
  simp only [List.cons.injEq, and_true] at hc
  have hfr : (encode_data L s' st.codec mem off (l_len - st.buf)).frame
      = (stream st).take st.s.expect_len.toNat := by
    rw [← c2, hc]
  obtain ⟨g1, g2, g3⟩ := encode_data_src L s' st.codec mem off (l_len - st.buf)
  rw [hfr, reordered_cfg L s0 s' _ (e2.trans h2),
    encode_src_cfg L s0 s' st.codec _ (l_len - st.buf) 0 (e1.trans h1) (e2.trans h2) hd]
    at g1 g2 g3
  exact ⟨e3.trans g1, e4.trans g3, by rw [e6, g2], e7, e8, c4, c5⟩

theorem contrib_length_le (hdr : Int) (P : List Nat) (h : P.length ≤ 3840) :
    ((contrib hdr P).length : Int) ≤ unit_size hdr := by
  unfold contrib unit_size
  split_ifs
  · rw [spdif_burst_length _ _ (by omega)]; rfl
  · omega

/-- The output side of one pass that encodes a frame with payload `P`. -/
theorem emit_spec {σ : Type} (st st2 : PlayLoop σ) (P : List Nat) (len : Int)
    (hlen : len = P.length) (h1 : 1 ≤ P.length) (h2 : P.length ≤ 3840)
    (h6 : st.s.add_iec61937_header ≠ 0 → 6 ≤ P.length) (hb : 0 ≤ st.buf)
    (hroom : st.buf + unit_size st.s.add_iec61937_header ≤ st.out_mem.length)
    (hs : st2.s.add_iec61937_header = st.s.add_iec61937_header)
    (hout : st2.out_mem = poke st.out_mem (dest_of st).toNat P) (hbuf : st2.buf = st.buf)
    (hsz : st2.outsize = st.outsize) :
    (emit st2 len).out_mem.take (emit st2 len).buf.toNat
        = st.out_mem.take st.buf.toNat ++ contrib st.s.add_iec61937_header P ∧
      (emit st2 len).buf = st.buf + (contrib st.s.add_iec61937_header P).length ∧
      (emit st2 len).outsize = st.outsize + (contrib st.s.add_iec61937_header P).length ∧
      (emit st2 len).out_mem.length = st.out_mem.length := by
  by_cases hdr : st.s.add_iec61937_header ≠ 0
  · obtain ⟨e1, e2, e3⟩ := emit_hdr st2 len (by rw [hs]; exact hdr)
    have hd : dest_of st = st.buf + 8 := by simp [dest_of, hdr]
    have hu : unit_size st.s.add_iec61937_header = 6144 := by simp [unit_size, hdr]
    rw [hu] at hroom
    rw [hout, hbuf, hd, spdif_frame_poke _ _ _ _ hb hlen (by omega)] at e1
    have e8 : (st.buf + 8).toNat = st.buf.toNat + 8 := by omega
    rw [e8, bsmod_of_poke _ _ _ (h6 hdr) (by omega)] at e1
    have hc : contrib st.s.add_iec61937_header P = spdif_burst (P.getD 5 0 % 8) P := by
      simp [contrib, hdr]
    have hcl : (contrib st.s.add_iec61937_header P).length = 6144 := by
      rw [hc, spdif_burst_length _ _ (by omega)]
    rw [hc] at hcl ⊢
    have e6144 : (st.buf + 6144).toNat = st.buf.toNat + (spdif_burst (P.getD 5 0 % 8) P).length := by
      rw [hcl]; omega
    refine ⟨?_, ?_, ?_, ?_⟩
    · rw [e2, hbuf, e1, e6144]
      exact take_poke_eq _ _ _ (by rw [hcl]; omega)
    · rw [e2, hbuf, hcl]; rfl
    · rw [e3, hsz, hcl]; rfl
    · rw [e1, poke_length]
  · have hdr0 : st.s.add_iec61937_header = 0 := by simpa using hdr
    obtain ⟨e1, e2, e3⟩ := emit_nohdr st2 len (by rw [hs]; exact hdr0)
    have hd : dest_of st = st.buf := by simp [dest_of, hdr0]
    have hu : unit_size st.s.add_iec61937_header = 3840 := by simp [unit_size, hdr0]
    rw [hu] at hroom
    have hc : contrib st.s.add_iec61937_header P = P := by simp [contrib, hdr0]
    rw [hc]
    rw [hout, hd] at e1
    have eb : (st.buf + len).toNat = st.buf.toNat + P.length := by omega
    refine ⟨?_, ?_, ?_, ?_⟩
    · rw [e2, hbuf, e1, eb]
      exact take_poke_eq _ _ _ (by omega)
    · rw [e2, hbuf, hlen]
    · rw [e3, hsz, hlen]
    · rw [e1, poke_length]

theorem stream_length {σ : Type} (L : Lavc σ) (st : PlayLoop σ) (ok : LoopOK L st) :
    ((stream st).length : Int) = st.s.pending_len + st.left := by
  obtain ⟨hE, hp0, hp, hcap, hfb, hsrc, hleft, hin⟩ := ok
  simp only [stream, List.length_append, List.length_take, List.length_drop]
  omega

theorem play_loop_spec {σ : Type} (L : Lavc σ) (l_len : Int) (s0 : af_ac3enc_t)
    (hg : GoodEngine L s0) :
    ∀ (fuel : Nat) (st : PlayLoop σ) (b : Bool) (st' : PlayLoop σ), LoopOK L st → Room st →
      SameCfg s0 st.s → play_loop L l_len fuel st = some (b, st') →
      b = true ∧
      st'.codec = (spec_run L s0 st.s.expect_len.toNat st.codec (stream st)).1 ∧
      st'.out_mem.take st'.buf.toNat
        = st.out_mem.take st.buf.toNat
            ++ (spec_run L s0 st.s.expect_len.toNat st.codec (stream st)).2.1 ∧
      st'.buf
        = st.buf + (spec_run L s0 st.s.expect_len.toNat st.codec (stream st)).2.1.length ∧
      st'.outsize
        = st.outsize
            + (spec_run L s0 st.s.expect_len.toNat st.codec (stream st)).2.1.length ∧
      st'.s.pending_data.take st'.s.pending_len.toNat
        = (spec_run L s0 st.s.expect_len.toNat st.codec (stream st)).2.2 ∧
      st'.s.pending_len
        = (spec_run L s0 st.s.expect_len.toNat st.codec (stream st)).2.2.length ∧
      st'.out_mem.length = st.out_mem.length := by
  intro fuel
  induction fuel with
  | zero =>
    intro st b st' ok room cfg h
    by_cases hpos : st.left > 0
    · simp [play_loop, hpos] at h
    · have h0 : st.left = 0 := by have := ok.hleft; omega
      simp only [play_loop, hpos, if_false, Option.some.injEq, Prod.mk.injEq] at h
      obtain ⟨rfl, rfl⟩ := h
      have hl := stream_length L st ok
      have hp := ok.hp
      have hp0 := ok.hp0
      rw [spec_run_short L s0 _ _ _ (by omega)]
      refine ⟨rfl, rfl, by simp, by simp, by simp, stream_of_left_zero L st ok h0, ?_, rfl⟩
      show st.s.pending_len = ((stream st).length : Int)
      omega
  | succ n ih =>
    intro st b st' ok room cfg h
    have hl := stream_length L st ok
    have hE := ok.hE
    have hp := ok.hp
    have hp0 := ok.hp0
    by_cases hpos : st.left > 0
    · by_cases hs : st.left + st.s.pending_len < st.s.expect_len
      · simp only [play_loop, hpos, if_true, play_body, hs, Option.some.injEq,
          Prod.mk.injEq] at h
        obtain ⟨rfl, rfl⟩ := h
        rw [spec_run_short L s0 _ _ _ (by omega)]
        refine ⟨rfl, rfl, by simp [stash], by simp [stash], by simp [stash],
          stash_stream L st ok hs, ?_, rfl⟩
        show st.s.pending_len + st.left = ((stream st).length : Int)
        omega
      · obtain ⟨g1, g2, g3, g4, g5, g6, g7⟩ := enc_step_spec L l_len st s0 ok hs
          cfg.1 cfg.2.1 hg.hd
        obtain ⟨q1, q2, q3, q4⟩ := hg.hgood st.codec
          (reordered L s0 ((stream st).take st.s.expect_len.toNat))
        have hlen : ¬ (enc_step L l_len st).2 ≤ 0 := by rw [g2, q1]; omega
        simp only [play_loop, hpos, if_true, play_body, hs, if_false, hlen] at h
        have hcfg := enc_step_cfg L l_len st
        obtain ⟨hbuf, f, hf1, hf2⟩ := room
        have hf : 1 ≤ f := by
          rcases f with _ | g
          · simp only [Nat.cast_zero, zero_add, one_mul] at hf1
            omega
          · omega
        have hu0 : 0 ≤ unit_size st.s.add_iec61937_header := by
          unfold unit_size; split_ifs <;> omega
        have hcast : ((f - 1 : Nat) : Int) = (f : Int) - 1 := by omega
        have hroom1 : st.buf + unit_size st.s.add_iec61937_header ≤ st.out_mem.length := by
          have : unit_size st.s.add_iec61937_header * (f : Int)
              = unit_size st.s.add_iec61937_header
                + unit_size st.s.add_iec61937_header * ((f : Int) - 1) := by ring
          have : 0 ≤ unit_size st.s.add_iec61937_header * ((f : Int) - 1) :=
            mul_nonneg hu0 (by omega)
          omega
        obtain ⟨o1, o2, o3, o4⟩ := emit_spec st (enc_step L l_len st).1 _
          (enc_step L l_len st).2 (g2.trans q1) q2 q3
          (by rw [cfg.2.2.1]; exact q4) hbuf hroom1 hcfg.2.2.1 g3 g4 g5
        have hcl := contrib_length_le st.s.add_iec61937_header _ q3
        have hE' := hcfg.2.2.2.2.2.1
        have hP' := enc_step_pending_len L l_len st
        have hL' := enc_step_left L l_len st hp
        have room1 : Room (emit (enc_step L l_len st).1 (enc_step L l_len st).2) := by
          refine ⟨by rw [o2]; omega, f - 1, ?_, ?_⟩
          · rw [emit_left, emit_s, hL', hP', hE', hcast]
            have : ((f : Int) + 1) * st.s.expect_len
                = ((f : Int) - 1 + 1) * st.s.expect_len + st.s.expect_len := by ring
            linarith
          · rw [o2, o4, emit_s, hcfg.2.2.1, hcast]
            have : unit_size st.s.add_iec61937_header * (f : Int)
                = unit_size st.s.add_iec61937_header
                  + unit_size st.s.add_iec61937_header * ((f : Int) - 1) := by ring
            linarith
        have cfg1 : SameCfg s0 (emit (enc_step L l_len st).1 (enc_step L l_len st).2).s := by
          rw [emit_s]; exact cfg.trans hcfg
        obtain ⟨i1, i2, i3, i4, i5, i6, i7, i8⟩ := ih _ b st' (emit_ok _ _ L g6) room1 cfg1 h
        rw [emit_s, emit_codec, emit_stream, hE', g1, g7] at i2 i3 i4 i5 i6 i7
        rw [o1] at i3
        rw [o2] at i4
        rw [o3] at i5
        rw [o4] at i8
        have hsE : st.s.expect_len.toNat ≤ (stream st).length := by omega
        rw [spec_run_frame L s0 _ st.codec (stream st) (by omega) hsE, ← cfg.2.2.1]
        refine ⟨i1, i2, ?_, ?_, ?_, i6, i7, i8⟩
        · rw [i3, List.append_assoc]
        · rw [i4, List.length_append]; push_cast; ring
        · rw [i5, List.length_append]; push_cast; ring
    · have h0 : st.left = 0 := by have := ok.hleft; omega
      simp only [play_loop, hpos, if_false, Option.some.injEq, Prod.mk.injEq] at h
      obtain ⟨rfl, rfl⟩ := h
      rw [spec_run_short L s0 _ _ _ (by omega)]
      refine ⟨rfl, rfl, by simp, by simp, by simp, stream_of_left_zero L st ok h0, ?_, rfl⟩
      show st.s.pending_len = ((stream st).length : Int)
      omega

theorem encode_src_cfg0 {σ : Type} (L : Lavc σ) (s s' : af_ac3enc_t) (cs : σ) (src : List Nat)
    (d : Int) (h1 : s'.avr = s.avr) (h2 : s'.lavc_actx = s.lavc_actx) :
    encode_src L s' cs src d = encode_src L s cs src d := by
  unfold encode_src
  rw [h1, h2]

theorem goodEngine_of_cfg {σ : Type} {L : Lavc σ} {s s' : af_ac3enc_t} (h : SameCfg s s')
    (hg : GoodEngine L s) : GoodEngine L s' := by
  refine ⟨hg.hd, ?_⟩
  intro cs src
  rw [encode_src_cfg0 L s s' cs src 0 h.1 h.2.1, h.2.2.1]
  exact hg.hgood cs src

theorem spec_run_cfg {σ : Type} (L : Lavc σ) (s s' : af_ac3enc_t) (E : Nat)
    (h : SameCfg s s') :
    ∀ (n : Nat) (cs : σ) (S : List Nat), S.length ≤ n →
      spec_run L s' E cs S = spec_run L s E cs S := by
  intro n
  induction n with
  | zero =>
    intro cs S hn
    have : S = [] := List.length_eq_zero.1 (by omega)
    subst this
    by_cases h0 : 0 < E
    · rw [spec_run_short L s' E cs [] (by simpa using h0),
        spec_run_short L s E cs [] (by simpa using h0)]
    · rw [spec_run, dif_neg (by omega), spec_run, dif_neg (by omega)]
  | succ n ih =>
    intro cs S hn
    by_cases h0 : 0 < E ∧ E ≤ S.length
    · rw [spec_run_frame L s' E cs S h0.1 h0.2, spec_run_frame L s E cs S h0.1 h0.2,
        reordered_cfg L s s' _ h.2.1, encode_src_cfg0 L s s' cs _ 0 h.1 h.2.1, h.2.2.1,
        ih _ (S.drop E) (by rw [List.length_drop]; omega)]
    · rw [spec_run, dif_neg h0, spec_run, dif_neg h0]

theorem room_init {σ : Type} (m : Malloc) (af : af_instance_s) (cs : σ) (data : af_data_t)
    (in_mem : List Nat) (hE : 0 < af.setup.expect_len) (hp0 : 0 ≤ af.setup.pending_len)
    (hlen : 0 ≤ data.len) (hmem : af.data.len ≤ af.audio_mem.length) :
    Room (loop_init (resize m af data.len) cs data in_mem) := by
  have hs := resize_setup m af data.len
  have hq : 0 ≤ (data.len + af.setup.pending_len) / af.setup.expect_len :=
    Int.ediv_nonneg (by omega) hE.le
  have hmax := max_output_len_eq af.setup data.len hE hp0 hlen
  have hu : unit_size af.setup.add_iec61937_header
      = if af.setup.add_iec61937_header ≠ 0 then 6144 else 3840 := rfl
  rw [← hu] at hmax
  have hu0 : 0 ≤ unit_size af.setup.add_iec61937_header := by
    rw [hu]; split_ifs <;> omega
  have hroom := (resize_room m af data.len hmem (by rw [hmax]; exact mul_nonneg hu0 hq)).1
  refine ⟨by simp [loop_init],
    ((data.len + af.setup.pending_len) / af.setup.expect_len).toNat, ?_, ?_⟩
  · simp only [loop_init, hs]
    rw [Int.toNat_of_nonneg hq]
    exact Int.lt_ediv_add_one_mul_self _ hE
  · simp only [loop_init, hs]
    rw [Int.toNat_of_nonneg hq, zero_add, ← hmax]
    exact hroom

/-- A data call on a well-formed instance with a well-behaved encoder returns
`c` and does what `spec_run` says. -/
theorem play_spec {σ : Type} (L : Lavc σ) (m : Malloc) (af : af_instance_s) (cs : σ)
    (data : af_data_t) (in_mem : List Nat) (ok : PlayOK L af) (hg : GoodEngine L af.setup)
    (hm : m.addr ≠ 0) (hlen : data.len = in_mem.length) :
    ∃ r, play L m af cs data in_mem = some r ∧ r.ret = true ∧
      r.codec = (spec_run L af.setup af.setup.expect_len.toNat cs
        (call_stream af.setup in_mem)).1 ∧
      r.output = (spec_run L af.setup af.setup.expect_len.toNat cs
        (call_stream af.setup in_mem)).2.1 ∧
      r.af.setup.pending_data.take r.af.setup.pending_len.toNat
        = (spec_run L af.setup af.setup.expect_len.toNat cs
            (call_stream af.setup in_mem)).2.2 ∧
      PlayOK L r.af ∧ SameCfg af.setup r.af.setup := by
  obtain ⟨hE, hp0, hp, hcap, hfb, hmem⟩ := ok
  obtain ⟨r, h1, h2, h3, h4, -⟩ := play_basic L m af cs data in_mem hE hp0 hp (by omega)
  obtain ⟨b, st', g1, g2⟩ := play_inv h1 hm
  have hs := resize_setup m af data.len
  have lok : LoopOK L (loop_init (resize m af data.len) cs data in_mem) :=
    ⟨by simp only [loop_init, hs]; exact hE, by simp only [loop_init, hs]; exact hp0,
      by simp only [loop_init, hs]; exact hp, by simp only [loop_init, hs]; exact hcap,
      by simp only [loop_init, hs]; exact hfb, by simp [loop_init],
      by simp only [loop_init]; omega, by simp only [loop_init]; omega⟩
  have room := room_init m af cs data in_mem hE hp0 (by omega) hmem
  have cfg : SameCfg af.setup (loop_init (resize m af data.len) cs data in_mem).s := by
    simp only [loop_init, hs]; exact SameCfg.refl _
  obtain ⟨i1, i2, i3, i4, i5, i6, i7, i8⟩ :=
    play_loop_spec L _ af.setup hg _ _ b st' lok room cfg g1
  have hstream : stream (loop_init (resize m af data.len) cs data in_mem)
      = call_stream af.setup in_mem := by
    simp [stream, loop_init, hs, call_stream]
  simp only [hstream] at i2 i3 i4 i5 i6 i7
  simp only [loop_init, hs, List.take_zero, List.nil_append, zero_add, Int.toNat_zero]
    at i2 i3 i4 i5 i6 i7 i8
  subst i1
  have hroom2 := (resize_room m af data.len hmem (by
    rw [max_output_len_eq af.setup data.len hE hp0 (by omega)]
    exact mul_nonneg (by split_ifs <;> omega) (Int.ediv_nonneg (by omega) hE.le))).2
  refine ⟨r, h1, by rw [g2]; rfl, by rw [g2]; exact i2, ?_, by rw [g2]; exact i6, ?_, h2⟩
  · rw [g2]
    simp only [PlayResult.output, play_done, if_true]
    rw [i5, ← i4, i3]
  · refine ⟨by rw [h2.2.2.2.2.2.1]; exact hE, h3, by rw [h2.2.2.2.2.2.1]; exact h4,
      by rw [h2.2.2.2.2.2.1, h2.2.2.2.2.2.2.2.2]; exact hcap,
      by rw [frame_bytes_cfg L af.setup r.af.setup h2.2.1, h2.2.2.2.2.2.1]; exact hfb, ?_⟩
    rw [g2]
    simp only [play_done]
    rw [i8]
    exact hroom2

theorem play_seq_spec {σ : Type} (L : Lavc σ) :
    ∀ (calls : List (Malloc × af_data_t × List Nat)) (af : af_instance_s) (cs : σ),
      PlayOK L af → GoodEngine L af.setup →
      (∀ c ∈ calls, c.1.addr ≠ 0 ∧ c.2.1.len = c.2.2.length) →
      ∃ x, play_seq L calls af cs = some x ∧
        x.2.1 = (spec_run L af.setup af.setup.expect_len.toNat cs
          (call_stream af.setup (inputs calls))).1 ∧
        x.2.2 = (spec_run L af.setup af.setup.expect_len.toNat cs
          (call_stream af.setup (inputs calls))).2.1 ∧
        x.1.setup.pending_data.take x.1.setup.pending_len.toNat
          = (spec_run L af.setup af.setup.expect_len.toNat cs
              (call_stream af.setup (inputs calls))).2.2 ∧
        PlayOK L x.1 := by
  intro calls
  induction calls with
  | nil =>
    intro af cs ok hg _
    have hl : (call_stream af.setup (inputs [])).length < af.setup.expect_len.toNat := by
      have := ok.hp; have := ok.hp0; have := ok.hcap
      simp only [call_stream, inputs, List.map_nil, List.flatten_nil, List.append_nil,
        List.length_take]
      omega
    rw [spec_run_short L _ _ _ _ hl]
    exact ⟨(af, cs, []), rfl, rfl, rfl, by simp [call_stream, inputs], ok⟩
  | cons c rest ih =>
    intro af cs ok hg hc
    obtain ⟨hm, hlen⟩ := hc c (by simp)
    obtain ⟨r, h1, h2, h3, h4, h5, h6, h7⟩ := play_spec L c.1 af cs c.2.1 c.2.2 ok hg hm hlen
    obtain ⟨x, g1, g2, g3, g4, g5⟩ := ih r.af r.codec h6 (goodEngine_of_cfg h7 hg)
      (fun c' hc' => hc c' (by simp [hc']))
    have hE' : r.af.setup.expect_len = af.setup.expect_len := h7.2.2.2.2.2.1
    have hcs : call_stream r.af.setup (inputs rest)
        = (spec_run L af.setup af.setup.expect_len.toNat cs
            (call_stream af.setup c.2.2)).2.2 ++ inputs rest := by
      rw [call_stream, h5]
    have hall : call_stream af.setup (inputs (c :: rest))
        = call_stream af.setup c.2.2 ++ inputs rest := by
      simp [call_stream, inputs]
    rw [hcs, hE', spec_run_cfg L af.setup r.af.setup _ h7 _ _ _ (le_refl _), h3] at g2 g3 g4
    have happ := spec_run_append L af.setup af.setup.expect_len.toNat
      (by have := ok.hE; omega) _ cs (call_stream af.setup c.2.2) (inputs rest) (le_refl _)
    rw [hall, happ]
    refine ⟨(x.1, x.2.1, r.output ++ x.2.2), ?_, g2, ?_, g4, g5⟩
    · simp only [play_seq, h1, g1]
    · simp only []
      rw [h4, g3]

/-- Claim C1, amended.  Split invariance of `play`.  On a well-formed filter
instance (`0 ≤ pending_len < expect_len`, in particular `pending_len = 0`)
whose encoder is a function of the frames it is given and returns for every
frame the length `L` of the payload it stored, with `1 ≤ L ≤ 3840` and
`L ≥ 6` when S/PDIF framing is on: for every list of input blocks fed in
successive calls (no `malloc` failing), the calls return, and the
concatenation of what they hand back is what a single call on the
concatenated input hands back; the pending length, the pending bytes and the
library state are the same after both runs. -/
theorem split_invariance {σ : Type} (L : Lavc σ) (af : af_instance_s) (cs : σ)
    (calls : List (Malloc × af_data_t × List Nat)) (m : Malloc) (data : af_data_t)
    (ok : PlayOK L af) (hg : GoodEngine L af.setup)
    (hc : ∀ c ∈ calls, c.1.addr ≠ 0 ∧ c.2.1.len = c.2.2.length)
    (hm : m.addr ≠ 0) (hlen : data.len = (inputs calls).length) :
    ∃ x r, play_seq L calls af cs = some x ∧
      play L m af cs data (inputs calls) = some r ∧ r.ret = true ∧
      x.2.2 = r.output ∧
      x.1.setup.pending_len = r.af.setup.pending_len ∧
      x.1.setup.pending_data.take x.1.setup.pending_len.toNat
        = r.af.setup.pending_data.take r.af.setup.pending_len.toNat ∧
      x.2.1 = r.codec := by
  obtain ⟨x, g1, g2, g3, g4, g5⟩ := play_seq_spec L calls af cs ok hg hc
  obtain ⟨r, h1, h2, h3, h4, h5, h6, -⟩ :=
    play_spec L m af cs data (inputs calls) ok hg hm hlen
  have hpl : ∀ (a : af_instance_s), PlayOK L a →
      (a.setup.pending_len : Int)
        = ((a.setup.pending_data.take a.setup.pending_len.toNat).length : Int) := by
    intro a oka
    have := oka.hp; have := oka.hp0; have := oka.hcap
    rw [List.length_take]
    omega
  refine ⟨x, r, g1, h1, h2, by rw [g3, h4], ?_, by rw [g4, h5], by rw [g2, h3]⟩
  rw [hpl x.1 g5, hpl r.af h6, g4, h5]

theorem poke_getD_tail {m1 m : List Nat} {D : Nat} (hl : m1.length = m.length)
    (hd : m1.drop D = m.drop D) (off : Nat) (P : List Nat) (j : Nat) (hj : D ≤ j) :
    (poke m1 off P).getD j 0 = (poke m off P).getD j 0 := by
  have hget : m1[j]? = m[j]? := by
    have := congrArg (fun l => l[j - D]?) hd
    simp only [List.getElem?_drop] at this
    rwa [Nat.add_sub_cancel' hj] at this
  rw [List.getD_eq_getElem?_getD, List.getD_eq_getElem?_getD, poke_getElem?, poke_getElem?,
    hl, hget]

/-- One pass of the loop that frames a payload of at most 6136 bytes leaves the
output block behind the burst as it was. -/
theorem hdr_step_tail {σ : Type} (L : Lavc σ) (l_len : Int) (st : PlayLoop σ) (ok : HdrOK st)
    (c : EncCall) (hc : (enc_step L l_len st).1.calls = st.calls ++ [c])
    (hret : c.ret = c.pkt.length) (h6 : c.pkt.length ≤ 6136) :
    (emit (enc_step L l_len st).1 (enc_step L l_len st).2).out_mem.drop (st.buf.toNat + 6144)
      = st.out_mem.drop (st.buf.toNat + 6144) := by
  obtain ⟨c', c1, c2, -, -, c5, c6, -⟩ := enc_step_out L l_len st
  have hcc : c' = c := by
    rw [c1] at hc
    simpa using hc
  subst hcc
  have hcfg := enc_step_cfg L l_len st
  have hdr' : (enc_step L l_len st).1.s.add_iec61937_header ≠ 0 := by
    rw [hcfg.2.2.1]; exact ok.hdr
  obtain ⟨e1, -, -⟩ := emit_hdr (enc_step L l_len st).1 (enc_step L l_len st).2 hdr'
  have hdest : dest_of st = st.buf + 8 := by simp [dest_of, ok.hdr]
  rw [c6, c5, hdest, ← c2, spdif_frame_poke _ _ _ _ ok.hbuf hret h6] at e1
  rw [← c2, e1]
  exact poke_drop_ge _ _ _ _ (by rw [spdif_burst_length _ _ h6])

/-- The `bsmod` byte of every burst of a loop whose payloads are at most 6136
bytes long: it is read at offset 13 of the burst from the output block as it
was when the loop was entered, with the payload of that burst stored in it. -/
theorem play_loop_bsmod {σ : Type} (L : Lavc σ) (l_len : Int) :
    ∀ (fuel : Nat) (st : PlayLoop σ) (b : Bool) (st' : PlayLoop σ), HdrOK st →
      play_loop L l_len fuel st = some (b, st') →
      ∃ new, st'.calls = st.calls ++ new ∧
        ((∀ c ∈ new, c.ret = c.pkt.length ∧ c.pkt.length ≤ 6136) →
          ∀ (k : Nat) (c : EncCall), new[k]? = some c → 0 < c.ret →
            peek st'.out_mem (st.buf.toNat + 6144 * k) 8
              = spdif_header
                  ((poke st.out_mem (st.buf.toNat + 6144 * k + 8) c.pkt).getD
                    (st.buf.toNat + 6144 * k + 13) 0 % 8) c.ret) := by
  intro fuel
  induction fuel with
  | zero =>
    intro st b st' ok h
    by_cases hpos : st.left > 0
    · simp [play_loop, hpos] at h
    · simp only [play_loop, hpos, if_false, Option.some.injEq, Prod.mk.injEq] at h
      obtain ⟨rfl, rfl⟩ := h
      exact ⟨[], by simp, by simp⟩
  | succ n ih =>
    intro st b st' ok h
    by_cases hpos : st.left > 0
    · by_cases hs : st.left + st.s.pending_len < st.s.expect_len
      · simp only [play_loop, hpos, if_true, play_body, hs, Option.some.injEq,
          Prod.mk.injEq] at h
        obtain ⟨rfl, rfl⟩ := h
        exact ⟨[], by simp [stash], by simp⟩
      · by_cases hlen : (enc_step L l_len st).2 ≤ 0
        · simp only [play_loop, hpos, if_true, play_body, hs, if_false, hlen, Option.some.injEq,
            Prod.mk.injEq] at h
          obtain ⟨rfl, rfl⟩ := h
          obtain ⟨c, c1, c2, -⟩ := enc_step_out L l_len st
          refine ⟨[c], c1, ?_⟩
          intro _ k x hk hx
          rcases k with _ | k
          · simp only [List.getElem?_cons_zero, Option.some.injEq] at hk
            subst hk
            omega
          · simp at hk
        · obtain ⟨c, c1, c2, c3, hroom, hok, e2, e3, hl, ht, hb, hh⟩ :=
            hdr_step L l_len st ok hs hlen
          simp only [play_loop, hpos, if_true, play_body, hs, if_false, hlen] at h
          obtain ⟨new, i4, i6⟩ := ih _ b st' hok h
          obtain ⟨-, -, i3, -⟩ := play_loop_bursts L l_len n _ b st' hok h
          rw [emit_calls, c1] at i4
          have hbuf := ok.hbuf
          have e6144 : (st.buf + 6144).toNat = st.buf.toNat + 6144 := by omega
          rw [e2, e6144] at i3 i6
          refine ⟨c :: new, by rw [i4]; simp, ?_⟩
          intro hgood k x hk hx
          have hc0 := hgood c (by simp)
          rcases k with _ | k
          · simp only [List.getElem?_cons_zero, Option.some.injEq] at hk
            subst hk
            rw [Nat.mul_zero, Nat.add_zero, peek_of_take_eq i3 st.buf.toNat 8 (by omega), hh]
            have e8 : (st.buf + 8).toNat = st.buf.toNat + 8 := by omega
            rw [e8]
          · simp only [List.getElem?_cons_succ] at hk
            have := i6 (fun y hy => hgood y (by simp [hy])) k x hk hx
            have ea : st.buf.toNat + 6144 * (k + 1) = st.buf.toNat + 6144 + 6144 * k := by ring
            rw [ea, this]
            have htail := hdr_step_tail L l_len st ok c c1 hc0.1 hc0.2
            rw [poke_getD_tail hl htail _ _ _ (by omega)]
    · simp only [play_loop, hpos, if_false, Option.some.injEq, Prod.mk.injEq] at h
      obtain ⟨rfl, rfl⟩ := h
      exact ⟨[], by simp, by simp⟩

/-- The `bsmod` byte of every burst of a call of `play` whose payloads are at
most 6136 bytes long. -/
theorem play_bsmod {σ : Type} (L : Lavc σ) (m : Malloc) (af : af_instance_s) (cs : σ)
    (data : af_data_t) (in_mem : List Nat) (hdr : af.setup.add_iec61937_header ≠ 0)
    (hE : 0 < af.setup.expect_len) (hp0 : 0 ≤ af.setup.pending_len)
    (hp : af.setup.pending_len < af.setup.expect_len) (hlen : 0 ≤ data.len)
    (hmem : af.data.len ≤ af.audio_mem.length)
    (r : PlayResult σ) (hr : play L m af cs data in_mem = some r)
    (hgood : ∀ c ∈ r.calls, c.ret = c.pkt.length ∧ c.pkt.length ≤ 6136)
    (k : Nat) (c : EncCall) (hk : r.calls[k]? = some c) (hpos : 0 < c.ret) :
    peek r.af.audio_mem (6144 * k) 8
      = spdif_header
          ((poke (resize m af data.len).audio_mem (6144 * k + 8) c.pkt).getD
            (6144 * k + 13) 0 % 8) c.ret := by
  rcases play_cases hr with ⟨rfl, -, -⟩ | ⟨b, st', g1, rfl⟩
  · simp [play_nomem] at hk
  · obtain ⟨new, i4, i6⟩ := play_loop_bsmod L _ _ _ b st'
      (hdr_init m af cs data in_mem hdr hE hp0 hp hlen hmem) g1
    simp only [loop_init, List.nil_append, Int.toNat_zero, zero_add] at i4 i6
    simp only [play_done] at hk hgood ⊢
    rw [i4] at hk hgood
    exact i6 hgood k c hk hpos

theorem spdif_burst_pad (bs : Nat) (pkt : List Nat) (i : Nat) (h1 : 8 + pkt.length ≤ i) :
    ((spdif_burst bs pkt)[i]?).getD 0 = 0 := by
  have hl : (spdif_header bs (pkt.length : Int) ++ pkt).length = 8 + pkt.length := by
    simp only [spdif_header, List.length_append, List.length_cons, List.length_nil]
  unfold spdif_burst
  rw [List.getElem?_append_right (by rw [hl]; omega), List.getElem?_replicate]
  split_ifs <;> rfl

/-- A call of `play` in a session with S/PDIF framing whose encoder stores the
one-byte packet `[1]` for every frame and whose output block is large enough
for the call, so that it is not allocated anew: the call returns `c`; byte 4
of the `k`-th burst is byte 13 of that burst as the output block held it on
entry, taken `& 7`; and byte 13 of every burst written is 0 afterwards. -/
theorem tiny_payload_play (m : Malloc) (af : af_instance_s) (data : af_data_t)
    (in_mem : List Nat) (hdr : af.setup.add_iec61937_header ≠ 0)
    (hE : 0 < af.setup.expect_len) (hp0 : 0 ≤ af.setup.pending_len)
    (hp : af.setup.pending_len < af.setup.expect_len) (hlen : 0 ≤ data.len)
    (hmem : af.data.len ≤ af.audio_mem.length) (hm : m.addr ≠ 0)
    (havr : af.setup.avr = false)
    (hres : ¬ af.data.len < max_output_len af.setup data.len) :
    ∃ r, play (exLavc [1] 1) m af () data in_mem = some r ∧ r.ret = true ∧
      r.af.data = af.data ∧ SameCfg af.setup r.af.setup ∧
      0 ≤ r.af.setup.pending_len ∧ r.af.setup.pending_len < af.setup.expect_len ∧
      data.len + af.setup.pending_len
        = r.calls.length * af.setup.expect_len + r.af.setup.pending_len ∧
      (∀ c ∈ r.calls, c.ret = 1) ∧
      r.af.audio_mem.length = af.audio_mem.length ∧
      r.output = r.af.audio_mem.take (6144 * r.calls.length) ∧
      ∀ k, k < r.calls.length →
        6144 * k + 6144 ≤ r.af.audio_mem.length ∧
        r.af.audio_mem[6144 * k + 4]? = some (af.audio_mem.getD (6144 * k + 13) 0 % 8) ∧
        r.af.audio_mem.getD (6144 * k + 13) 0 = 0 := by
  obtain ⟨r, h1, h2, h3, h4, h5, h6, h7⟩ :=
    play_basic (exLavc [1] 1) m af () data in_mem hE hp0 hp hlen
  obtain ⟨r', h1', hsz, hbu⟩ :=
    play_bursts (exLavc [1] 1) m af () data in_mem hdr hE hp0 hp hlen hmem
  have hr : r' = r := Option.some.inj (h1'.symm.trans h1)
  subst hr
  have hcall : ∀ c ∈ r'.calls, c.ret = 1 ∧ c.pkt = [1] := by
    intro c hc
    obtain ⟨s', cs, mem, off, e1, -, e3, e4, -⟩ := h5 c hc
    obtain ⟨x1, x2⟩ := exLavc_ret [1] 1 s' mem off c.dst_len (by rw [e1]; exact havr)
    rw [e3, e4, x1, x2]
    exact ⟨by simp, rfl⟩
  have hb : r'.ret = true := ret_true_of_pos hm
    (fun c hc => by rw [(hcall c hc).1]; decide) (fun h => (h7 h).2)
  obtain ⟨-, hd, -, heq⟩ := h6 hb
  have hres' : resize m af data.len = af := by
    unfold resize
    rw [if_neg hres]
  rw [hres'] at hd
  have hlenm : r'.af.audio_mem.length = af.audio_mem.length := by
    rcases play_cases h1 with ⟨rfl, -, -⟩ | ⟨b, st', g1, rfl⟩
    · simp [play_nomem] at hb
    · obtain ⟨i1, -⟩ := play_loop_bursts (exLavc [1] 1) _ _ _ b st'
        (hdr_init m af () data in_mem hdr hE hp0 hp hlen hmem) g1
      simp only [loop_init, hres'] at i1
      simp only [play_done, hres']
      exact i1
  have hout : r'.output = r'.af.audio_mem.take (6144 * r'.calls.length) := by
    have := hsz hb
    simp only [PlayResult.output, hb, if_true, this]
    congr 1
  refine ⟨r', h1, hb, hd, h2, h3, h4, heq, fun c hc => (hcall c hc).1, hlenm, hout, ?_⟩
  intro k hk
  obtain ⟨c, hc⟩ : ∃ c, r'.calls[k]? = some c :=
    ⟨r'.calls[k], List.getElem?_eq_getElem hk⟩
  obtain ⟨hc1, hc2⟩ := hcall c (List.mem_iff_getElem?.2 ⟨k, hc⟩)
  obtain ⟨-, j2, -, j4⟩ := hbu k c hc (by rw [hc1]; decide)
  obtain ⟨bs, j5, -⟩ := j4 (by rw [hc1, hc2]; rfl) (by rw [hc2]; decide)
  have hbm := play_bsmod (exLavc [1] 1) m af () data in_mem hdr hE hp0 hp hlen hmem r' h1
    (fun y hy => by
      obtain ⟨y1, y2⟩ := hcall y hy
      rw [y1, y2]
      exact ⟨rfl, by decide⟩)
    k c hc (by rw [hc1]; decide)
  rw [hres', hc2] at hbm
  have hbs : (poke af.audio_mem (6144 * k + 8) [1]).getD (6144 * k + 13) 0
      = af.audio_mem.getD (6144 * k + 13) 0 := by
    rw [List.getD_eq_getElem?_getD, List.getD_eq_getElem?_getD, poke_getElem?,
      if_neg (by simp)]
  rw [hbs] at hbm
  refine ⟨by exact_mod_cast j2, ?_, ?_⟩
  · have h4 := congrArg (fun l => l[4]?) hbm
    simp only [peek_getElem?] at h4
    rw [if_pos (by decide)] at h4
    rw [h4]
    rfl
  · have h13 := congrArg (fun l => l[13]?) j5
    simp only [peek_getElem?] at h13
    rw [if_pos (by decide), hc2] at h13
    rw [List.getD_eq_getElem?_getD, h13]
    exact spdif_burst_pad bs [1] 13 (by decide)

theorem exAfUsed_length : exAfUsed.audio_mem.length = 12288 := by
  show (spdif_burst 3 (List.replicate 1792 0x0B)
    ++ spdif_burst 3 (List.replicate 1792 0x0B)).length = 12288
  rw [List.length_append, spdif_burst_length _ _ (by rw [List.length_replicate]; decide)]

theorem exAfUsed_byte : exAfUsed.audio_mem.getD 6157 0 = 0x0B := by
  have hl : (spdif_burst 3 (List.replicate 1792 0x0B)).length = 6144 :=
    spdif_burst_length _ _ (by rw [List.length_replicate]; decide)
  have hh : (spdif_header 3 ((List.replicate 1792 0x0B).length : Int)).length = 8 := rfl
  show (spdif_burst 3 (List.replicate 1792 0x0B)
    ++ spdif_burst 3 (List.replicate 1792 0x0B)).getD 6157 0 = 0x0B
  rw [List.getD_eq_getElem?_getD, List.getElem?_append_right (by rw [hl]; decide), hl]
  unfold spdif_burst
  rw [List.getElem?_append_left (by
      rw [List.length_append, hh, List.length_replicate]; decide),
    List.getElem?_append_right (by rw [hh]; decide), hh, List.getElem?_replicate]
  rfl

/-- Claim C1, counterexample.  A session with S/PDIF framing, `expect_len = 18432`
and `pending_len = 0`, whose output block holds the two bursts of an earlier
call and whose encoder stores the one-byte packet `[1]` for every frame (a
positive length for every frame), is fed two frames of input: once in a
single call, once split into two calls of one frame.  No block is allocated
in either run.  Byte 4 of a burst is `dest[5] & 7`, read from the output
block behind the one payload byte, where the encoder stored nothing.  For the
second frame the single call reads it in the second burst of the block, where
the earlier call left `0B`, and hands back 3; the second call of the split
run reads it in the first burst, where the first call left the zero padding,
and hands back 0. -/
theorem split_invariance_counterexample :
    ∃ x r,
      play_seq (exLavc [1] 1)
        [(exMalloc, exData 18432, List.replicate 18432 7),
         (exMalloc, exData 18432, List.replicate 18432 7)] exAfUsed () = some x ∧
      play (exLavc [1] 1) exMalloc exAfUsed () (exData 36864) (List.replicate 36864 7)
        = some r ∧
      r.ret = true ∧ (∀ c ∈ r.calls, c.ret = 1) ∧
      r.output[6148]? = some 3 ∧ x.2.2[6148]? = some 0 ∧ x.2.2 ≠ r.output := by
  have hE : exAfUsed.setup.expect_len = 18432 := rfl
  have hP : exAfUsed.setup.pending_len = 0 := rfl
  have hH : exAfUsed.setup.add_iec61937_header = 1 := rfl
  have hL : exAfUsed.data.len = 12288 := rfl
  have hmem : exAfUsed.data.len ≤ (exAfUsed.audio_mem.length : Int) := by
    rw [exAfUsed_length, hL]; decide
  have hmax2 : max_output_len exAfUsed.setup (exData 36864).len = 12288 := by
    show max_output_len (exSession 1) 36864 = 12288
    decide
  have hmax1 : max_output_len exAfUsed.setup (exData 18432).len = 6144 := by
    show max_output_len (exSession 1) 18432 = 6144
    decide
  -- the single call
  obtain ⟨r, hr, hrb, -, -, r3, r4, req, rcall, -, rout, rk⟩ :=
    tiny_payload_play exMalloc exAfUsed (exData 36864) (List.replicate 36864 7)
      (by rw [hH]; decide) (by rw [hE]; decide) (by rw [hP]) (by rw [hE, hP]; decide)
      (by decide) hmem (by decide) rfl (by rw [hL, hmax2]; decide)
  have hD : (exData 36864).len = 36864 := rfl
  rw [hE] at r4
  rw [hE, hP, hD] at req
  have hn : r.calls.length = 2 := by omega
  obtain ⟨-, rk4, -⟩ := rk 1 (by omega)
  have e4 : 6144 * 1 + 4 = 6148 := rfl
  have e13 : 6144 * 1 + 13 = 6157 := rfl
  rw [e4, e13, exAfUsed_byte] at rk4
  have h3 : r.output[6148]? = some 3 := by
    rw [rout, hn, List.getElem?_take, if_pos (by decide)]
    exact rk4
  -- the first call of the split run
  obtain ⟨r1, h1, -, d1, cfg1, p3, p4, peq, -, len1, out1, k1⟩ :=
    tiny_payload_play exMalloc exAfUsed (exData 18432) (List.replicate 18432 7)
      (by rw [hH]; decide) (by rw [hE]; decide) (by rw [hP]) (by rw [hE, hP]; decide)
      (by decide) hmem (by decide) rfl (by rw [hL, hmax1]; decide)
  have hD1 : (exData 18432).len = 18432 := rfl
  rw [hE] at p4
  rw [hE, hP, hD1] at peq
  have hn1 : r1.calls.length = 1 := by omega
  have hp1 : r1.af.setup.pending_len = 0 := by omega
  have hE1 : r1.af.setup.expect_len = 18432 := cfg1.2.2.2.2.2.1
  have hH1 : r1.af.setup.add_iec61937_header = 1 := cfg1.2.2.1
  have hA1 : r1.af.setup.avr = false := cfg1.1
  have hdl : r1.af.data.len = 12288 := by rw [d1]; rfl
  obtain ⟨-, -, z13⟩ := k1 0 (by omega)
  rw [Nat.mul_zero, Nat.zero_add] at z13
  have hout1 : r1.output.length = 6144 := by
    rw [out1, hn1, List.length_take, len1, exAfUsed_length]
    decide
  have hmax : max_output_len r1.af.setup (exData 18432).len = 6144 := by
    rw [max_output_len_eq _ _ (by rw [hE1]; decide) p3 (by decide), hE1, hp1, hD1,
      if_pos (by rw [hH1]; decide)]
    decide
  -- the second call of the split run
  obtain ⟨r2, h2, -, -, -, q3, q4, qeq, -, -, out2, k2⟩ :=
    tiny_payload_play exMalloc r1.af (exData 18432) (List.replicate 18432 7)
      (by rw [hH1]; decide) (by rw [hE1]; decide) p3 (by rw [hE1, hp1]; decide) (by decide)
      (by rw [hdl, len1, exAfUsed_length]; decide) (by decide) hA1
      (by rw [hdl, hmax]; decide)
  rw [hE1] at q4
  rw [hE1, hp1, hD1] at qeq
  have hn2 : r2.calls.length = 1 := by omega
  obtain ⟨-, q0, -⟩ := k2 0 (by omega)
  rw [Nat.mul_zero, Nat.zero_add, Nat.zero_add, z13] at q0
  have h0 : r2.output[4]? = some 0 := by
    rw [out2, hn2, List.getElem?_take, if_pos (by decide)]
    exact q0
  have hx : play_seq (exLavc [1] 1)
      [(exMalloc, exData 18432, List.replicate 18432 7),
       (exMalloc, exData 18432, List.replicate 18432 7)] exAfUsed ()
      = some (r2.af, r2.codec, r1.output ++ (r2.output ++ [])) := by
    simp only [play_seq, h1, h2]
  have hx0 : (r1.output ++ (r2.output ++ []))[6148]? = some 0 := by
    rw [List.append_nil, List.getElem?_append_right (by rw [hout1]; decide), hout1]
    exact h0
  refine ⟨_, r, hx, hr, hrb, rcall, h3, hx0, ?_⟩
  intro hcontra
  simp only [] at hcontra
  rw [hcontra, h3] at hx0
  exact absurd hx0 (by decide)

theorem exLavc_src (pkt : List Nat) (s : af_ac3enc_t) (src : List Nat) (d : Int)
    (h : s.avr = false) :
    encode_src (exLavc pkt 1) s () src d = ((), pkt, (pkt.length : Int)) := by
  unfold encode_src
  simp [exLavc, h]

theorem exAf_ok (pkt : List Nat) (hdr : Int) : PlayOK (exLavc pkt 1) (exAf hdr) where
  hE := by show (0 : Int) < 18432; decide
  hp0 := by show (0 : Int) ≤ 0; decide
  hp := by show (0 : Int) < 18432; decide
  hcap := by
    show (18432 : Int) ≤ ((List.replicate 24576 0).length : Int)
    rw [List.length_replicate]; decide
  hfb := by show AC3_FRAME_SIZE * 6 * 2 = 18432; decide
  hmem := by show (0 : Int) ≤ (([] : List Nat).length : Int); decide

theorem exLavc_good (n : Nat) (hdr : Int) (h1 : 6 ≤ n) (h2 : n ≤ 3840) :
    GoodEngine (exLavc (List.replicate n 0x0B) 1) (exAf hdr).setup := by
  refine ⟨fun _ _ _ _ _ => rfl, ?_⟩
  intro cs src
  rw [exLavc_src _ _ _ _ rfl]
  simp only [List.length_replicate]
  exact ⟨trivial, by omega, h2, fun _ => h1⟩

theorem split_invariance_witness :
    ∃ x r,
      play_seq (exLavc (List.replicate 1792 0x0B) 1)
        [(exMalloc, exData 10000, List.replicate 10000 7),
         (exMallocB, exData 26864, List.replicate 26864 7)] (exAf 1) () = some x ∧
      play (exLavc (List.replicate 1792 0x0B) 1) exMalloc (exAf 1) () (exData 36864)
        (inputs [(exMalloc, exData 10000, List.replicate 10000 7),
                 (exMallocB, exData 26864, List.replicate 26864 7)]) = some r ∧
      r.ret = true ∧ x.2.2 = r.output ∧
      x.1.setup.pending_len = r.af.setup.pending_len ∧
      x.1.setup.pending_data.take x.1.setup.pending_len.toNat
        = r.af.setup.pending_data.take r.af.setup.pending_len.toNat ∧
      x.2.1 = r.codec :=
  split_invariance (exLavc (List.replicate 1792 0x0B) 1) (exAf 1) ()
    [(exMalloc, exData 10000, List.replicate 10000 7),
     (exMallocB, exData 26864, List.replicate 26864 7)] exMalloc (exData 36864)
    (exAf_ok _ 1) (exLavc_good 1792 1 (by decide) (by decide))
    (by
      intro c hc
      simp only [List.mem_cons, List.mem_singleton, List.not_mem_nil, or_false] at hc
      rcases hc with rfl | rfl
      · exact ⟨by decide, by
          show (10000 : Int) = ((List.replicate 10000 7).length : Int)
          rw [List.length_replicate]; rfl⟩
      · exact ⟨by decide, by
          show (26864 : Int) = ((List.replicate 26864 7).length : Int)
          rw [List.length_replicate]; rfl⟩)
    (by decide)
    (by
      have hin : inputs [(exMalloc, exData 10000, List.replicate 10000 7),
          (exMallocB, exData 26864, List.replicate 26864 7)]
          = List.replicate 10000 7 ++ (List.replicate 26864 7 ++ []) := rfl
      rw [hin, List.length_append, List.length_append, List.length_replicate,
        List.length_replicate]
      rfl)

theorem negative_result_is_fatal_witness :
    ∃ r, play (exLavcErr (-22)) exMalloc (exAf 0) () (exData 18432) (List.replicate 18432 7)
        = some r ∧
      ((∃ c ∈ r.calls, c.ret < 0) →
        r.ret = false ∧ r.data = exData 18432 ∧ r.output = [] ∧
        ∃ init last, r.calls = init ++ [last] ∧ last.ret < 0 ∧ ∀ c ∈ init, 0 < c.ret) :=
  negative_result_is_fatal (exLavcErr (-22)) exMalloc (exAf 0) () (exData 18432)
    (List.replicate 18432 7) (by decide) (by decide) (by decide) (by decide)

/-- REINIT when it does not detach and the `assert` holds: the two ways it
returns, in terms of what the reopening part leaves behind. -/
theorem control_reinit {σ : Type} (L : Lavc σ) (H : Host σ) (af : af_instance_s) (lib : σ)
    (data : af_data_t) (hnd : ¬ detaches H af data)
    (hassert : reinit_expect_len H af data ≤ af.setup.pending_data_size) :
    control L H af lib (Cmd.AF_CONTROL_REINIT data)
      = some
          (if (reopen H af.setup (reinit_data H af data).nch (reinit_data H af data).rate
                (reinit_bit_rate af.setup (reinit_data H af data).nch) lib).ok = false ∨
              (reopen H af.setup (reinit_data H af data).nch (reinit_data H af data).rate
                (reinit_bit_rate af.setup (reinit_data H af data).nch) lib).ctx.frame_size
                ≠ AC3_FRAME_SIZE then
            { af := { af with
                      setup := { af.setup with
                        pending_len := 0
                        expect_len := reinit_expect_len H af data
                        lavc_actx := (reopen H af.setup (reinit_data H af data).nch
                          (reinit_data H af data).rate
                          (reinit_bit_rate af.setup (reinit_data H af data).nch) lib).ctx }
                      data := reinit_data H af data
                      mul := reinit_mul af.setup (reinit_expect_len H af data) }
              lib := (reopen H af.setup (reinit_data H af data).nch (reinit_data H af data).rate
                (reinit_bit_rate af.setup (reinit_data H af data).nch) lib).lib
              data := some (H.af_test_output (reinit_data H af data) data).2
              ret := L.AF_ERROR
              log := (reopen H af.setup (reinit_data H af data).nch (reinit_data H af data).rate
                (reinit_bit_rate af.setup (reinit_data H af data).nch) lib).log }
          else
            { af := { af with
                      setup := { af.setup with
                        pending_len := 0
                        expect_len := reinit_expect_len H af data
                        lavc_actx := (reopen H af.setup (reinit_data H af data).nch
                          (reinit_data H af data).rate
                          (reinit_bit_rate af.setup (reinit_data H af data).nch) lib).ctx }
                      data := { reinit_data H af data with
                        format := H.AF_FORMAT_AC3_BE, bps := 2, nch := 2 }
                      mul := reinit_mul af.setup (reinit_expect_len H af data) }
              lib := (reopen H af.setup (reinit_data H af data).nch (reinit_data H af data).rate
                (reinit_bit_rate af.setup (reinit_data H af data).nch) lib).lib
              data := some (H.af_test_output (reinit_data H af data) data).2
              ret := (H.af_test_output (reinit_data H af data) data).1
              log := (reopen H af.setup (reinit_data H af data).nch (reinit_data H af data).rate
                (reinit_bit_rate af.setup (reinit_data H af data).nch) lib).log }) := by
  have hnd' : ¬ (H.AF_FORMAT_IS_AC3 data.format = true ∨ data.nch < af.setup.min_channel_num) :=
    hnd
  have ha : ¬ ¬ AC3_FRAME_SIZE * (H.af_test_output (reinit_data H af data) data).2.nch
      * (reinit_data H af data).bps ≤ af.setup.pending_data_size := not_not.2 hassert
  unfold control
  simp only []
  rw [if_neg hnd']
  change (if ¬ AC3_FRAME_SIZE * (H.af_test_output (reinit_data H af data) data).2.nch
      * (reinit_data H af data).bps ≤ af.setup.pending_data_size then none else _) = _
  rw [if_neg ha]
  exact (apply_ite some _ _ _).symm

theorem reinit_data_nch {σ : Type} (H : Host σ) (af : af_instance_s) (data : af_data_t) :
    (reinit_data H af data).nch = min data.nch 6 := by
  unfold reinit_data AC3_MAX_CHANNELS
  simp only []
  split_ifs with h
  · exact (min_eq_right (by omega)).symm
  · exact (min_eq_left (by omega)).symm

theorem reinit_data_rate {σ : Type} (H : Host σ) (af : af_instance_s) (data : af_data_t) :
    (reinit_data H af data).rate
      = if data.rate = 32000 ∨ data.rate = 44100 ∨ data.rate = 48000 then data.rate
        else 48000 := by
  unfold reinit_data
  simp only []
  split_ifs with h1 h2 h2
  · rfl
  · exact absurd (by tauto) h2
  · exact absurd (by tauto) h1
  · rfl

/-- The three ways the reopening part of REINIT ends: nothing to do because
the context already has the three parameters; `avcodec_open2` called on the
closed context with the three parameters assigned; or an error of
libavresample before the context is touched. -/
theorem reopen_cases {σ : Type} (H : Host σ) (s : af_ac3enc_t) (nch rate br : Int) (lib : σ) :
    ((s.lavc_actx.channels = nch ∧ s.lavc_actx.sample_rate = rate ∧ s.lavc_actx.bit_rate = br) ∧
      (reopen H s nch rate br lib).ok = true ∧ (reopen H s nch rate br lib).ctx = s.lavc_actx ∧
      (reopen H s nch rate br lib).lib = lib ∧ (reopen H s nch rate br lib).log = []) ∨
    (¬ (s.lavc_actx.channels = nch ∧ s.lavc_actx.sample_rate = rate ∧
        s.lavc_actx.bit_rate = br) ∧
      ∃ lib' log', reopen H s nch rate br lib
          = open_codec H (open_request H s nch rate br lib) lib' log' ∧
        LibCall.avcodec_open2 ∉ log' ∧ LibCall.avcodec_close ∈ log') ∨
    (¬ (s.lavc_actx.channels = nch ∧ s.lavc_actx.sample_rate = rate ∧
        s.lavc_actx.bit_rate = br) ∧
      s.avr = true ∧ (reopen H s nch rate br lib).ok = false ∧
      (reopen H s nch rate br lib).ctx = (H.avcodec_close lib s.lavc_actx).2 ∧
      LibCall.avcodec_open2 ∉ (reopen H s nch rate br lib).log ∧
      LibCall.avcodec_close ∈ (reopen H s nch rate br lib).log) := by
  by_cases hc : s.lavc_actx.channels ≠ nch ∨ s.lavc_actx.sample_rate ≠ rate ∨
      s.lavc_actx.bit_rate ≠ br
  · have hne : ¬ (s.lavc_actx.channels = nch ∧ s.lavc_actx.sample_rate = rate ∧
        s.lavc_actx.bit_rate = br) := by tauto
    right
    unfold reopen
    rw [if_pos hc]
    simp only []
    by_cases havr : s.avr = true
    · rw [if_pos havr]
      by_cases hal : (if nch ≠ (H.avcodec_close lib s.lavc_actx).2.channels then
            ((H.av_samples_alloc (H.avresample_close (H.avcodec_close lib s.lavc_actx).1) nch
                (H.avcodec_close lib s.lavc_actx).2.sample_fmt).1,
              (H.av_samples_alloc (H.avresample_close (H.avcodec_close lib s.lavc_actx).1) nch
                (H.avcodec_close lib s.lavc_actx).2.sample_fmt).2,
              [LibCall.avcodec_close, LibCall.avresample_close] ++ [LibCall.av_samples_alloc])
          else (H.avresample_close (H.avcodec_close lib s.lavc_actx).1, 0,
              [LibCall.avcodec_close, LibCall.avresample_close])).2.1 < 0
      · right
        rw [if_pos hal]
        refine ⟨hne, havr, rfl, rfl, ?_, ?_⟩
        · split_ifs <;> simp
        · split_ifs <;> simp
      · rw [if_neg hal]
        split_ifs with h1 h2 h2
        · right
          exact ⟨hne, havr, rfl, rfl, by simp, by simp⟩
        · left
          exact ⟨hne, _, _, rfl, by simp, by simp⟩
        · right
          exact ⟨hne, havr, rfl, rfl, by simp, by simp⟩
        · left
          exact ⟨hne, _, _, rfl, by simp, by simp⟩
    · rw [if_neg havr]
      left
      exact ⟨hne, _, _, rfl, by simp, by simp⟩
  · left
    have heq : s.lavc_actx.channels = nch ∧ s.lavc_actx.sample_rate = rate ∧
        s.lavc_actx.bit_rate = br := by
      refine ⟨?_, ?_, ?_⟩ <;> by_contra h <;> exact hc (by tauto)
    unfold reopen
    rw [if_neg hc]
    exact ⟨heq, rfl, rfl, rfl, rfl⟩

/-- What a REINIT that does not detach leaves behind, when the `assert`
holds. -/
theorem reinit_result {σ : Type} (L : Lavc σ) (H : Host σ) (af : af_instance_s) (lib : σ)
    (data : af_data_t) (hnd : ¬ detaches H af data)
    (hassert : reinit_expect_len H af data ≤ af.setup.pending_data_size) :
    ∃ r, control L H af lib (Cmd.AF_CONTROL_REINIT data) = some r ∧
      r.af.setup = { af.setup with
        pending_len := 0
        expect_len := reinit_expect_len H af data
        lavc_actx := (reopen H af.setup (reinit_data H af data).nch (reinit_data H af data).rate
          (reinit_bit_rate af.setup (reinit_data H af data).nch) lib).ctx } ∧
      r.af.mul = reinit_mul af.setup (reinit_expect_len H af data) ∧
      r.af.audio_mem = af.audio_mem ∧
      r.lib = (reopen H af.setup (reinit_data H af data).nch (reinit_data H af data).rate
          (reinit_bit_rate af.setup (reinit_data H af data).nch) lib).lib ∧
      r.log = (reopen H af.setup (reinit_data H af data).nch (reinit_data H af data).rate
          (reinit_bit_rate af.setup (reinit_data H af data).nch) lib).log ∧
      r.data = some (H.af_test_output (reinit_data H af data) data).2 ∧
      (((reopen H af.setup (reinit_data H af data).nch (reinit_data H af data).rate
            (reinit_bit_rate af.setup (reinit_data H af data).nch) lib).ok = false ∨
          (reopen H af.setup (reinit_data H af data).nch (reinit_data H af data).rate
            (reinit_bit_rate af.setup (reinit_data H af data).nch) lib).ctx.frame_size
            ≠ AC3_FRAME_SIZE) ∧
        r.ret = L.AF_ERROR ∧ r.af.data = reinit_data H af data ∨
       ((reopen H af.setup (reinit_data H af data).nch (reinit_data H af data).rate
            (reinit_bit_rate af.setup (reinit_data H af data).nch) lib).ok = true ∧
          (reopen H af.setup (reinit_data H af data).nch (reinit_data H af data).rate
            (reinit_bit_rate af.setup (reinit_data H af data).nch) lib).ctx.frame_size
            = AC3_FRAME_SIZE) ∧
        r.ret = (H.af_test_output (reinit_data H af data) data).1 ∧
        r.af.data = { reinit_data H af data with
          format := H.AF_FORMAT_AC3_BE, bps := 2, nch := 2 }) := by
  refine ⟨_, control_reinit L H af lib data hnd hassert, ?_⟩
  split_ifs with h
  · exact ⟨rfl, rfl, rfl, rfl, rfl, rfl, Or.inl ⟨h, rfl, rfl⟩⟩
  · refine ⟨rfl, rfl, rfl, rfl, rfl, rfl, Or.inr ⟨?_, rfl, rfl⟩⟩
    constructor
    · by_contra hk
      exact h (Or.inl (by simpa using hk))
    · by_contra hk
      exact h (Or.inr hk)

/-- What a REINIT that returns without error has done to the codec context:
either nothing, the context having the three parameters already, or the
context is what a successful `avcodec_open2` made of the request. -/
theorem reinit_success {σ : Type} (L : Lavc σ) (H : Host σ) (af : af_instance_s) (lib : σ)
    (data : af_data_t) (hnd : ¬ detaches H af data)
    (hassert : reinit_expect_len H af data ≤ af.setup.pending_data_size)
    (r : CtlResult σ) (hr : control L H af lib (Cmd.AF_CONTROL_REINIT data) = some r)
    (hret : r.ret ≠ L.AF_ERROR) :
    r.af.setup.lavc_actx.frame_size = AC3_FRAME_SIZE ∧
    ((r.log = [] ∧ r.lib = lib ∧ r.af.setup.lavc_actx = af.setup.lavc_actx ∧
        af.setup.lavc_actx.channels = (reinit_data H af data).nch ∧
        af.setup.lavc_actx.sample_rate = (reinit_data H af data).rate ∧
        af.setup.lavc_actx.bit_rate = reinit_bit_rate af.setup (reinit_data H af data).nch) ∨
      ∃ (lib' : σ) (log' : List LibCall),
        ¬ (H.avcodec_open2 lib'
            (open_request H af.setup (reinit_data H af data).nch (reinit_data H af data).rate
              (reinit_bit_rate af.setup (reinit_data H af data).nch) lib)).2.1 < 0 ∧
        r.af.setup.lavc_actx = (H.avcodec_open2 lib'
            (open_request H af.setup (reinit_data H af data).nch (reinit_data H af data).rate
              (reinit_bit_rate af.setup (reinit_data H af data).nch) lib)).2.2 ∧
        r.lib = (H.avcodec_open2 lib'
            (open_request H af.setup (reinit_data H af data).nch (reinit_data H af data).rate
              (reinit_bit_rate af.setup (reinit_data H af data).nch) lib)).1 ∧
        r.log = log' ++ [LibCall.avcodec_open2] ∧ LibCall.avcodec_close ∈ log') := by
  obtain ⟨r', h1, h2, -, -, h5, h6, -, h8⟩ := reinit_result L H af lib data hnd hassert
  have e : r' = r := Option.some.inj (h1.symm.trans hr)
  subst e
  rcases h8 with ⟨-, g, -⟩ | ⟨⟨gok, gfs⟩, -, -⟩
  · exact absurd g hret
  · refine ⟨by rw [h2]; exact gfs, ?_⟩
    rcases reopen_cases H af.setup (reinit_data H af data).nch (reinit_data H af data).rate
        (reinit_bit_rate af.setup (reinit_data H af data).nch) lib with
      ⟨heq, -, c2, c3, c4⟩ | ⟨-, lib', log', c1, -, c3⟩ | ⟨-, -, c1, -⟩
    · left
      exact ⟨by rw [h6, c4], by rw [h5, c3], by rw [h2]; exact c2, heq.1, heq.2.1, heq.2.2⟩
    · right
      rw [c1] at gok
      refine ⟨lib', log', ?_, by rw [h2, c1]; rfl, by rw [h5, c1]; rfl, by rw [h6, c1]; rfl, c3⟩
      simpa [open_codec] using gok
    · rw [c1] at gok
      exact absurd gok (by decide)

/-- Claim C11.  Negotiated channels and rate.  A REINIT with input channel count
`C_in` and rate `R_in` that does not detach returns (the `assert` holding), and
when it returns without error the codec context is configured with
`min(C_in, 6)` channels and the rate `R_in` if that is 32000, 44100 or 48000,
and 48000 otherwise: either the context had these values already and no
library call was made, or the context is what a successful `avcodec_open2`
made of a request with these values; so that the context has them when
`avcodec_open2` leaves `channels` and `sample_rate` as requested. -/
theorem negotiated_channels_and_rate {σ : Type} (L : Lavc σ) (H : Host σ)
    (af : af_instance_s) (lib : σ) (data : af_data_t) (hnd : ¬ detaches H af data)
    (hassert : reinit_expect_len H af data ≤ af.setup.pending_data_size) :
    ∃ r, control L H af lib (Cmd.AF_CONTROL_REINIT data) = some r ∧
      (r.ret ≠ L.AF_ERROR →
        ((r.log = [] ∧ r.af.setup.lavc_actx = af.setup.lavc_actx ∧
            af.setup.lavc_actx.channels = min data.nch 6 ∧
            af.setup.lavc_actx.sample_rate = spec_negotiated_rate data.rate) ∨
          ∃ (lib' : σ) (req : AVCodecContext),
            req.channels = min data.nch 6 ∧ req.sample_rate = spec_negotiated_rate data.rate ∧
            ¬ (H.avcodec_open2 lib' req).2.1 < 0 ∧
            r.af.setup.lavc_actx = (H.avcodec_open2 lib' req).2.2 ∧
            r.lib = (H.avcodec_open2 lib' req).1 ∧
            r.log.getLast? = some LibCall.avcodec_open2) ∧
        ((∀ lib' req, (H.avcodec_open2 lib' req).2.2.channels = req.channels ∧
            (H.avcodec_open2 lib' req).2.2.sample_rate = req.sample_rate) →
          r.af.setup.lavc_actx.channels = min data.nch 6 ∧
          r.af.setup.lavc_actx.sample_rate = spec_negotiated_rate data.rate)) := by
  obtain ⟨r, h1, -⟩ := reinit_result L H af lib data hnd hassert
  refine ⟨r, h1, ?_⟩
  intro hret
  have hn := reinit_data_nch H af data
  have hrt : (reinit_data H af data).rate = spec_negotiated_rate data.rate :=
    reinit_data_rate H af data
  obtain ⟨-, hs⟩ := reinit_success L H af lib data hnd hassert r h1 hret
  rw [hn, hrt] at hs
  rcases hs with ⟨c1, -, c3, c4, c5, -⟩ | ⟨lib', log', c1, c2, c3, c4, -⟩
  · refine ⟨Or.inl ⟨c1, c3, c4, c5⟩, ?_⟩
    intro _
    rw [c3]
    exact ⟨c4, c5⟩
  · refine ⟨Or.inr ⟨lib', _, rfl, rfl, c1, c2, c3, by rw [c4]; simp⟩, ?_⟩
    intro hopen
    rw [c2]
    exact ⟨(hopen _ _).1, (hopen _ _).2⟩

theorem negotiated_channels_and_rate_witness :
    ∃ r, control (exLavc [] 0) exHost (exAf 0) () (Cmd.AF_CONTROL_REINIT exData8) = some r ∧
      (r.ret ≠ (exLavc [] 0).AF_ERROR →
        ((r.log = [] ∧ r.af.setup.lavc_actx = (exAf 0).setup.lavc_actx ∧
            (exAf 0).setup.lavc_actx.channels = min exData8.nch 6 ∧
            (exAf 0).setup.lavc_actx.sample_rate = spec_negotiated_rate exData8.rate) ∨
          ∃ (lib' : Unit) (req : AVCodecContext),
            req.channels = min exData8.nch 6 ∧
            req.sample_rate = spec_negotiated_rate exData8.rate ∧
            ¬ (exHost.avcodec_open2 lib' req).2.1 < 0 ∧
            r.af.setup.lavc_actx = (exHost.avcodec_open2 lib' req).2.2 ∧
            r.lib = (exHost.avcodec_open2 lib' req).1 ∧
            r.log.getLast? = some LibCall.avcodec_open2) ∧
        ((∀ lib' req, (exHost.avcodec_open2 lib' req).2.2.channels = req.channels ∧
            (exHost.avcodec_open2 lib' req).2.2.sample_rate = req.sample_rate) →
          r.af.setup.lavc_actx.channels = min exData8.nch 6 ∧
          r.af.setup.lavc_actx.sample_rate = spec_negotiated_rate exData8.rate)) :=
  negotiated_channels_and_rate (exLavc [] 0) exHost (exAf 0) () exData8
    (by unfold detaches; decide) (by decide)

/-- Where `avcodec_open2` was called in a REINIT, the context it was given is
the request, and the context of the session is what it made of it. -/
theorem reinit_opened {σ : Type} (L : Lavc σ) (H : Host σ) (af : af_instance_s) (lib : σ)
    (data : af_data_t) (hnd : ¬ detaches H af data)
    (hassert : reinit_expect_len H af data ≤ af.setup.pending_data_size)
    (r : CtlResult σ) (hr : control L H af lib (Cmd.AF_CONTROL_REINIT data) = some r)
    (hlog : LibCall.avcodec_open2 ∈ r.log) :
    ∃ lib' : σ,
      r.af.setup.lavc_actx = (H.avcodec_open2 lib'
        (open_request H af.setup (reinit_data H af data).nch (reinit_data H af data).rate
          (reinit_bit_rate af.setup (reinit_data H af data).nch) lib)).2.2 ∧
      r.lib = (H.avcodec_open2 lib'
        (open_request H af.setup (reinit_data H af data).nch (reinit_data H af data).rate
          (reinit_bit_rate af.setup (reinit_data H af data).nch) lib)).1 := by
  obtain ⟨r', h1, h2, -, -, h5, h6, -⟩ := reinit_result L H af lib data hnd hassert
  have e : r' = r := Option.some.inj (h1.symm.trans hr)
  subst e
  rcases reopen_cases H af.setup (reinit_data H af data).nch (reinit_data H af data).rate
      (reinit_bit_rate af.setup (reinit_data H af data).nch) lib with
    ⟨-, -, -, -, c4⟩ | ⟨-, lib', log', c1, -, -⟩ | ⟨-, -, -, -, c4, -⟩
  · rw [h6, c4] at hlog
    simp at hlog
  · exact ⟨lib', by rw [h2, c1]; rfl, by rw [h5, c1]; rfl⟩
  · rw [h6] at hlog
    exact absurd hlog c4

/-- Claim C13.  Default bit rate by channel count.  In a session without a
bit-rate override (`bit_rate = 0`), a REINIT with channel count `c` in 1..6
that does not detach returns (the `assert` holding), and the bit rate it
requests is the entry for `c` of 96000, 192000, 256000, 384000, 448000,
448000: this is the value of its variable `bit_rate`; wherever it calls
`avcodec_open2`, the context it hands over has this `bit_rate`; when it
returns without error and without that call, the open context has this
`bit_rate` already; and so the context has it after every REINIT that returns
without error, when `avcodec_open2` leaves `bit_rate` as requested. -/
theorem default_bit_rate_by_channels {σ : Type} (L : Lavc σ) (H : Host σ)
    (af : af_instance_s) (lib : σ) (data : af_data_t) (hnd : ¬ detaches H af data)
    (hassert : reinit_expect_len H af data ≤ af.setup.pending_data_size)
    (hbr : af.setup.bit_rate = 0) (h1 : 1 ≤ data.nch) (h6 : data.nch ≤ 6) :
    ∃ r, control L H af lib (Cmd.AF_CONTROL_REINIT data) = some r ∧
      reinit_bit_rate af.setup (reinit_data H af data).nch
        = [96000, 192000, 256000, 384000, 448000, 448000].getD (data.nch - 1).toNat 0 ∧
      (LibCall.avcodec_open2 ∈ r.log →
        ∃ (lib' : σ) (req : AVCodecContext),
          req.bit_rate
            = [96000, 192000, 256000, 384000, 448000, 448000].getD (data.nch - 1).toNat 0 ∧
          r.af.setup.lavc_actx = (H.avcodec_open2 lib' req).2.2 ∧
          r.lib = (H.avcodec_open2 lib' req).1) ∧
      (r.ret ≠ L.AF_ERROR → LibCall.avcodec_open2 ∉ r.log →
        r.log = [] ∧ r.af.setup.lavc_actx = af.setup.lavc_actx ∧
        af.setup.lavc_actx.bit_rate
          = [96000, 192000, 256000, 384000, 448000, 448000].getD (data.nch - 1).toNat 0) ∧
      (r.ret ≠ L.AF_ERROR →
        (∀ lib' req, (H.avcodec_open2 lib' req).2.2.bit_rate = req.bit_rate) →
        r.af.setup.lavc_actx.bit_rate
          = [96000, 192000, 256000, 384000, 448000, 448000].getD (data.nch - 1).toNat 0) := by
  obtain ⟨r, hr, -⟩ := reinit_result L H af lib data hnd hassert
  have hn : (reinit_data H af data).nch = data.nch := by
    rw [reinit_data_nch]; exact min_eq_left h6
  have hb : reinit_bit_rate af.setup (reinit_data H af data).nch
      = [96000, 192000, 256000, 384000, 448000, 448000].getD (data.nch - 1).toNat 0 := by
    rw [hn]
    unfold reinit_bit_rate
    rw [if_neg (by simpa using hbr)]
    have hc : data.nch = 1 ∨ data.nch = 2 ∨ data.nch = 3 ∨ data.nch = 4 ∨ data.nch = 5 ∨
        data.nch = 6 := by omega
    rcases hc with h | h | h | h | h | h <;> rw [h] <;> rfl
  refine ⟨r, hr, hb, ?_, ?_, ?_⟩
  · intro hlog
    obtain ⟨lib', g1, g2⟩ := reinit_opened L H af lib data hnd hassert r hr hlog
    exact ⟨lib', _, hb, g1, g2⟩
  · intro hret hlog
    obtain ⟨-, hs⟩ := reinit_success L H af lib data hnd hassert r hr hret
    rcases hs with ⟨c1, -, c3, -, -, c6⟩ | ⟨lib', log', -, -, -, c4, -⟩
    · exact ⟨c1, c3, c6.trans hb⟩
    · rw [c4] at hlog
      exact absurd (by simp) hlog
  · intro hret hopen
    obtain ⟨-, hs⟩ := reinit_success L H af lib data hnd hassert r hr hret
    rcases hs with ⟨-, -, c3, -, -, c6⟩ | ⟨lib', log', -, c2, -⟩
    · rw [c3]; exact c6.trans hb
    · rw [c2, hopen]
      exact hb

theorem default_bit_rate_by_channels_witness :
    ∃ r, control (exLavc [] 0) exHost (exAf 0) () (Cmd.AF_CONTROL_REINIT exData5) = some r ∧
      reinit_bit_rate (exAf 0).setup (reinit_data exHost (exAf 0) exData5).nch
        = [96000, 192000, 256000, 384000, 448000, 448000].getD (exData5.nch - 1).toNat 0 ∧
      (LibCall.avcodec_open2 ∈ r.log →
        ∃ (lib' : Unit) (req : AVCodecContext),
          req.bit_rate
            = [96000, 192000, 256000, 384000, 448000, 448000].getD
                (exData5.nch - 1).toNat 0 ∧
          r.af.setup.lavc_actx = (exHost.avcodec_open2 lib' req).2.2 ∧
          r.lib = (exHost.avcodec_open2 lib' req).1) ∧
      (r.ret ≠ (exLavc [] 0).AF_ERROR → LibCall.avcodec_open2 ∉ r.log →
        r.log = [] ∧ r.af.setup.lavc_actx = (exAf 0).setup.lavc_actx ∧
        (exAf 0).setup.lavc_actx.bit_rate
          = [96000, 192000, 256000, 384000, 448000, 448000].getD
              (exData5.nch - 1).toNat 0) ∧
      (r.ret ≠ (exLavc [] 0).AF_ERROR →
        (∀ lib' req, (exHost.avcodec_open2 lib' req).2.2.bit_rate = req.bit_rate) →
        r.af.setup.lavc_actx.bit_rate
          = [96000, 192000, 256000, 384000, 448000, 448000].getD
              (exData5.nch - 1).toNat 0) :=
  default_bit_rate_by_channels (exLavc [] 0) exHost (exAf 0) () exData5
    (by unfold detaches; decide) (by decide) (by decide) (by decide) (by decide)

theorem bitrate_index_ge (b : Int) :
    bitrate_index b ≥ 19 ↔ ∀ t ∈ ac3_bitrate_tab, b ≠ 1000 * t := by
  have hl : ac3_bitrate_tab.length = 19 := rfl
  unfold bitrate_index
  constructor
  · intro h
    have h19 := (@List.findIdx_eq_length Int (fun t => decide (t * 1000 = b))
      ac3_bitrate_tab).1
      (le_antisymm (List.findIdx_le_length _) (by rw [hl]; exact h))
    intro t ht hb
    have := h19 t ht
    simp only [decide_eq_false_iff_not] at this
    exact this (by rw [hb]; ring)
  · intro h
    have := (@List.findIdx_eq_length Int (fun t => decide (t * 1000 = b))
      ac3_bitrate_tab).2 (by
        intro t ht
        simp only [decide_eq_false_iff_not]
        intro hb
        exact h t ht (by rw [← hb]; ring))
    rw [this, hl]

/-- The bit rate stored by COMMAND_LINE. -/
theorem command_line_bit_rate (s : af_ac3enc_t) (fields : List Int) :
    (command_line s fields).bit_rate
      = if ∃ t ∈ ac3_bitrate_tab, scaled_bit_rate (fields.getD 1 0) = 1000 * t then
          scaled_bit_rate (fields.getD 1 0)
        else 0 := by
  have hidx := bitrate_index_ge (scaled_bit_rate (fields.getD 1 0))
  have hz : ∀ t ∈ ac3_bitrate_tab, (0 : Int) ≠ 1000 * t := by decide
  show (if scaled_bit_rate (fields.getD 1 0) ≠ 0 then
      (if bitrate_index (scaled_bit_rate (fields.getD 1 0)) ≥ 19 then 0
        else scaled_bit_rate (fields.getD 1 0))
    else scaled_bit_rate (fields.getD 1 0)) = _
  by_cases hex : ∃ t ∈ ac3_bitrate_tab, scaled_bit_rate (fields.getD 1 0) = 1000 * t
  · rw [if_pos hex]
    obtain ⟨t, ht, hb⟩ := hex
    have hne : scaled_bit_rate (fields.getD 1 0) ≠ 0 := by
      intro h0
      exact hz t ht (by rw [← hb, h0])
    have hlt : ¬ bitrate_index (scaled_bit_rate (fields.getD 1 0)) ≥ 19 := by
      rw [hidx]
      intro hall
      exact hall t ht hb
    rw [if_pos hne, if_neg hlt]
  · rw [if_neg hex]
    have hall : ∀ t ∈ ac3_bitrate_tab, scaled_bit_rate (fields.getD 1 0) ≠ 1000 * t := by
      intro t ht hb
      exact hex ⟨t, ht, hb⟩
    by_cases hne : scaled_bit_rate (fields.getD 1 0) ≠ 0
    · rw [if_pos hne, if_pos (hidx.2 hall)]
    · rw [if_neg hne]
      simpa using hne

/-- Claim C14.  Bit-rate override normalisation at COMMAND_LINE.  For every
configuration string, with `b` its bit-rate field (0 when it has none) and
`b'` equal to `b * 1000` if `b < 1000` and to `b` otherwise, COMMAND_LINE
returns AF_OK and the stored `bit_rate` is `b'` if `b'` is 1000 times an entry
of `ac3_bitrate_tab`, and 0 otherwise; hence it is 0 or 1000 times an entry of
the table. -/
theorem bit_rate_override_normalisation {σ : Type} (L : Lavc σ) (H : Host σ)
    (af : af_instance_s) (lib : σ) (fields : List Int) :
    ∃ r, control L H af lib (Cmd.AF_CONTROL_COMMAND_LINE fields) = some r ∧
      r.ret = H.AF_OK ∧
      r.af.setup.bit_rate
        = (if ∃ t ∈ ac3_bitrate_tab, scaled_bit_rate (fields.getD 1 0) = 1000 * t then
            scaled_bit_rate (fields.getD 1 0)
          else 0) ∧
      (r.af.setup.bit_rate = 0 ∨ ∃ t ∈ ac3_bitrate_tab, r.af.setup.bit_rate = 1000 * t) := by
  refine ⟨_, rfl, rfl, command_line_bit_rate af.setup fields, ?_⟩
  show (command_line af.setup fields).bit_rate = 0 ∨
    ∃ t ∈ ac3_bitrate_tab, (command_line af.setup fields).bit_rate = 1000 * t
  rw [command_line_bit_rate]
  split_ifs with h
  · exact Or.inr h
  · exact Or.inl rfl

theorem foldl_pick_mem (b : Int) (l : List Int) (init : Int) :
    l.foldl (fun best t => if (t - b).natAbs < (best - b).natAbs then t else best) init = init ∨
      l.foldl (fun best t => if (t - b).natAbs < (best - b).natAbs then t else best) init
        ∈ l := by
  induction l generalizing init with
  | nil => exact Or.inl rfl
  | cons x xs ih =>
    rw [List.foldl_cons]
    rcases ih (if (x - b).natAbs < (init - b).natAbs then x else init) with h | h
    · rw [h]
      split_ifs
      · exact Or.inr (List.mem_cons_self _ _)
      · exact Or.inl rfl
    · exact Or.inr (List.mem_cons_of_mem _ h)

theorem nearest_ne_zero (b : Int) : spec_nearest_bit_rate b ≠ 0 := by
  have hall : ∀ t ∈ ac3_bitrate_tab.map fun t => t * 1000, t ≠ 0 := by decide
  unfold spec_nearest_bit_rate
  rcases foldl_pick_mem b (ac3_bitrate_tab.map fun t => t * 1000) 32000 with h | h
  · rw [h]; decide
  · exact hall _ h

theorem nearest_of_entry (b : Int) (h : ∃ t ∈ ac3_bitrate_tab, b = 1000 * t) :
    spec_nearest_bit_rate b = b := by
  obtain ⟨t, ht, rfl⟩ := h
  simp only [ac3_bitrate_tab, List.mem_cons, List.mem_singleton, List.not_mem_nil,
    or_false] at ht
  rcases ht with h | h | h | h | h | h | h | h | h | h | h | h | h | h | h | h | h | h | h <;>
    subst h <;> decide

/-- Claim C15, counterexample.  The configuration string `0:200:0` asks for
200 kbps.  The nearest entry of the table is 192 kbps, but the bit rate stored
is 0: the default for the channel count will be used. -/
theorem bit_rate_snapping_counterexample :
    ∃ r, control (exLavc [] 0) exHost (exAf 0) () (Cmd.AF_CONTROL_COMMAND_LINE [0, 200, 0])
        = some r ∧
      scaled_bit_rate 200 = 200000 ∧ spec_nearest_bit_rate 200000 = 192000 ∧
      r.af.setup.bit_rate = 0 ∧ r.af.setup.bit_rate ≠ spec_nearest_bit_rate (scaled_bit_rate 200) :=
  ⟨_, rfl, by decide, by decide, by decide, by decide⟩

/-- Claim C15, amended.  COMMAND_LINE does not snap the override to the table.
For every configuration string, with `b` its bit-rate field and `b'` equal to
`b * 1000` if `b < 1000` and to `b` otherwise (in particular for every
non-zero `b'`): if `b'` is 1000 times an entry of the table, `b'` itself is
stored, which is then the nearest entry; if it is not, 0 is stored, which is
not an entry of the table. -/
theorem bit_rate_override_exact_or_default {σ : Type} (L : Lavc σ) (H : Host σ)
    (af : af_instance_s) (lib : σ) (fields : List Int) :
    ∃ r, control L H af lib (Cmd.AF_CONTROL_COMMAND_LINE fields) = some r ∧
      ((∃ t ∈ ac3_bitrate_tab, scaled_bit_rate (fields.getD 1 0) = 1000 * t) →
        r.af.setup.bit_rate = scaled_bit_rate (fields.getD 1 0) ∧
        r.af.setup.bit_rate = spec_nearest_bit_rate (scaled_bit_rate (fields.getD 1 0))) ∧
      ((∀ t ∈ ac3_bitrate_tab, scaled_bit_rate (fields.getD 1 0) ≠ 1000 * t) →
        r.af.setup.bit_rate = 0 ∧
        r.af.setup.bit_rate ≠ spec_nearest_bit_rate (scaled_bit_rate (fields.getD 1 0))) := by
  refine ⟨_, rfl, ?_, ?_⟩
  · intro hex
    show (command_line af.setup fields).bit_rate = _ ∧ (command_line af.setup fields).bit_rate = _
    rw [command_line_bit_rate, if_pos hex]
    exact ⟨rfl, (nearest_of_entry _ hex).symm⟩
  · intro hall
    show (command_line af.setup fields).bit_rate = _ ∧ (command_line af.setup fields).bit_rate ≠ _
    rw [command_line_bit_rate, if_neg (by
      rintro ⟨t, ht, h⟩
      exact hall t ht h)]
    exact ⟨rfl, (nearest_ne_zero _).symm⟩

/-- A REINIT on a context that has the three parameters already and the frame
size `AC3_FRAME_SIZE` makes no library call and returns the result of
`af_test_output`. -/
theorem reinit_configured {σ : Type} (L : Lavc σ) (H : Host σ) (af : af_instance_s) (lib : σ)
    (data : af_data_t) (hnd : ¬ detaches H af data)
    (hassert : reinit_expect_len H af data ≤ af.setup.pending_data_size)
    (hc : af.setup.lavc_actx.channels = (reinit_data H af data).nch)
    (hr : af.setup.lavc_actx.sample_rate = (reinit_data H af data).rate)
    (hb : af.setup.lavc_actx.bit_rate = reinit_bit_rate af.setup (reinit_data H af data).nch)
    (hf : af.setup.lavc_actx.frame_size = AC3_FRAME_SIZE) :
    control L H af lib (Cmd.AF_CONTROL_REINIT data)
      = some
          { af := { af with
                    setup := { af.setup with
                      pending_len := 0, expect_len := reinit_expect_len H af data }
                    data := { reinit_data H af data with
                      format := H.AF_FORMAT_AC3_BE, bps := 2, nch := 2 }
                    mul := reinit_mul af.setup (reinit_expect_len H af data) }
            lib := lib
            data := some (H.af_test_output (reinit_data H af data) data).2
            ret := (H.af_test_output (reinit_data H af data) data).1
            log := [] } := by
  have hre : reopen H af.setup (reinit_data H af data).nch (reinit_data H af data).rate
      (reinit_bit_rate af.setup (reinit_data H af data).nch) lib
      = { ok := true, ctx := af.setup.lavc_actx, lib := lib, log := [] } := by
    unfold reopen
    rw [if_neg (by
      intro h
      rcases h with h | h | h
      · exact h hc
      · exact h hr
      · exact h hb)]
  rw [control_reinit L H af lib data hnd hassert, hre]
  simp only []
  rw [if_neg (by
    intro h
    rcases h with h | h
    · exact absurd h (by decide)
    · exact h hf)]

/-- Claim C16.  Idempotent reconfiguration.  Let a REINIT that does not detach
return without error, with an `avcodec_open2` that leaves `channels`,
`sample_rate` and `bit_rate` of the context as requested.  Then the same
REINIT immediately afterwards returns the same value, makes no library call
(no `avcodec_close`, no `avresample_open`, no `avcodec_open2`) and leaves the
filter and the library state as they were; and every REINIT immediately
afterwards with the same channel count and rate that does not detach makes no
library call, leaves the codec context and the library state as they were and
returns the result of `af_test_output`. -/
theorem idempotent_reconfiguration {σ : Type} (L : Lavc σ) (H : Host σ) (af : af_instance_s)
    (lib : σ) (data : af_data_t) (hnd : ¬ detaches H af data)
    (hassert : reinit_expect_len H af data ≤ af.setup.pending_data_size)
    (hopen : ∀ lib' req, (H.avcodec_open2 lib' req).2.2.channels = req.channels ∧
      (H.avcodec_open2 lib' req).2.2.sample_rate = req.sample_rate ∧
      (H.avcodec_open2 lib' req).2.2.bit_rate = req.bit_rate) :
    ∃ r1, control L H af lib (Cmd.AF_CONTROL_REINIT data) = some r1 ∧
      (r1.ret ≠ L.AF_ERROR →
        (∃ r2, control L H r1.af r1.lib (Cmd.AF_CONTROL_REINIT data) = some r2 ∧
          r2.log = [] ∧ r2.ret = r1.ret ∧ r2.af = r1.af ∧ r2.lib = r1.lib ∧
          r2.data = r1.data) ∧
        ∀ data2 : af_data_t, data2.nch = data.nch → data2.rate = data.rate →
          ¬ detaches H r1.af data2 →
          reinit_expect_len H r1.af data2 ≤ r1.af.setup.pending_data_size →
          ∃ r2, control L H r1.af r1.lib (Cmd.AF_CONTROL_REINIT data2) = some r2 ∧
            r2.log = [] ∧ r2.lib = r1.lib ∧
            r2.af.setup.lavc_actx = r1.af.setup.lavc_actx ∧
            r2.ret = (H.af_test_output (reinit_data H r1.af data2) data2).1) := by
  obtain ⟨r1, h1, h2, h3, h4, h5, h6, h7, h8⟩ := reinit_result L H af lib data hnd hassert
  refine ⟨r1, h1, ?_⟩
  intro hret
  obtain ⟨hfs, hs⟩ := reinit_success L H af lib data hnd hassert r1 h1 hret
  have hctx : r1.af.setup.lavc_actx.channels = (reinit_data H af data).nch ∧
      r1.af.setup.lavc_actx.sample_rate = (reinit_data H af data).rate ∧
      r1.af.setup.lavc_actx.bit_rate
        = reinit_bit_rate af.setup (reinit_data H af data).nch := by
    rcases hs with ⟨-, -, c3, c4, c5, c6⟩ | ⟨lib', log', -, c2, -⟩
    · rw [c3]; exact ⟨c4, c5, c6⟩
    · rw [c2, (hopen _ _).1, (hopen _ _).2.1, (hopen _ _).2.2]
      exact ⟨rfl, rfl, rfl⟩
  have hdata : r1.af.data = { reinit_data H af data with
      format := H.AF_FORMAT_AC3_BE, bps := 2, nch := 2 } := by
    rcases h8 with ⟨-, g, -⟩ | ⟨-, -, g⟩
    · exact absurd g hret
    · exact g
  have hret1 : r1.ret = (H.af_test_output (reinit_data H af data) data).1 := by
    rcases h8 with ⟨-, g, -⟩ | ⟨-, g, -⟩
    · exact absurd g hret
    · exact g
  have hmin : r1.af.setup.min_channel_num = af.setup.min_channel_num := by rw [h2]
  have hfmt : r1.af.setup.in_sampleformat = af.setup.in_sampleformat := by rw [h2]
  have hbr : r1.af.setup.bit_rate = af.setup.bit_rate := by rw [h2]
  have hsz : r1.af.setup.pending_data_size = af.setup.pending_data_size := by rw [h2]
  have hrd : ∀ d : af_data_t, reinit_data H r1.af d = reinit_data H af d := by
    intro d
    unfold reinit_data
    rw [hdata, hfmt]
    rfl
  have hbrr : ∀ n, reinit_bit_rate r1.af.setup n = reinit_bit_rate af.setup n := by
    intro n
    unfold reinit_bit_rate
    rw [hbr]
  have hel : ∀ d : af_data_t, reinit_expect_len H r1.af d = reinit_expect_len H af d := by
    intro d
    unfold reinit_expect_len
    rw [hrd]
  constructor
  · have hnd2 : ¬ detaches H r1.af data := by
      unfold detaches at hnd ⊢
      rw [hmin]; exact hnd
    have hcfg := reinit_configured L H r1.af r1.lib data hnd2 (by rw [hel, hsz]; exact hassert)
      (by rw [hrd]; exact hctx.1) (by rw [hrd]; exact hctx.2.1)
      (by rw [hrd, hbrr]; exact hctx.2.2) hfs
    refine ⟨_, hcfg, rfl, ?_, ?_, rfl, ?_⟩
    · simp only [hrd]; exact hret1.symm
    · have hsetup : ({ r1.af.setup with
          pending_len := 0, expect_len := reinit_expect_len H r1.af data } : af_ac3enc_t)
          = r1.af.setup := by
        rw [hel, h2]
      have hmul : reinit_mul r1.af.setup (reinit_expect_len H r1.af data) = r1.af.mul := by
        rw [h3, hel]
        unfold reinit_mul
        rw [h2]
      simp only [hsetup, hmul, hrd]
      rw [← hdata]
    · simp only [hrd]; exact h7.symm
  · intro data2 e1 e2 hnd2 hassert2
    have hn2 : (reinit_data H r1.af data2).nch = (reinit_data H af data).nch := by
      rw [reinit_data_nch, reinit_data_nch, e1]
    have hr2 : (reinit_data H r1.af data2).rate = (reinit_data H af data).rate := by
      rw [reinit_data_rate, reinit_data_rate, e2]
    have hcfg := reinit_configured L H r1.af r1.lib data2 hnd2 hassert2
      (by rw [hn2]; exact hctx.1) (by rw [hr2]; exact hctx.2.1)
      (by rw [hn2, hbrr]; exact hctx.2.2) hfs
    exact ⟨_, hcfg, rfl, rfl, rfl, rfl⟩

theorem idempotent_reconfiguration_witness :
    ∃ r1, control (exLavc [] 0) exHost (exAf 0) () (Cmd.AF_CONTROL_REINIT exData8) = some r1 ∧
      (r1.ret ≠ (exLavc [] 0).AF_ERROR →
        (∃ r2, control (exLavc [] 0) exHost r1.af r1.lib (Cmd.AF_CONTROL_REINIT exData8)
            = some r2 ∧
          r2.log = [] ∧ r2.ret = r1.ret ∧ r2.af = r1.af ∧ r2.lib = r1.lib ∧
          r2.data = r1.data) ∧
        ∀ data2 : af_data_t, data2.nch = exData8.nch → data2.rate = exData8.rate →
          ¬ detaches exHost r1.af data2 →
          reinit_expect_len exHost r1.af data2 ≤ r1.af.setup.pending_data_size →
          ∃ r2, control (exLavc [] 0) exHost r1.af r1.lib (Cmd.AF_CONTROL_REINIT data2)
              = some r2 ∧
            r2.log = [] ∧ r2.lib = r1.lib ∧
            r2.af.setup.lavc_actx = r1.af.setup.lavc_actx ∧
            r2.ret = (exHost.af_test_output (reinit_data exHost r1.af data2) data2).1) :=
  idempotent_reconfiguration (exLavc [] 0) exHost (exAf 0) () exData8
    (by unfold detaches; decide) (by decide) (fun _ _ => ⟨rfl, rfl, rfl⟩)

/-- Claim C17, the failing input.  A fresh session is opened by a REINIT for six
channels, which succeeds.  A REINIT for five channels follows, in which
`avcodec_open2` fails: it returns AF_ERROR, after `avcodec_close` and with the
three parameters of the request left in the context.  The same REINIT once
more finds the context equal to its request and the frame size still 1536:
it makes no library call at all and returns the result of `af_test_output`,
which is neither AF_ERROR nor AF_DETACH, with the codec closed. -/
theorem reinit_after_failed_open :
    ∃ r0 r1 r2,
      control (exLavc [] 0) exHostFail exAfFresh () (Cmd.AF_CONTROL_REINIT (exData 4096))
        = some r0 ∧
      r0.ret ≠ (exLavc [] 0).AF_ERROR ∧
      r0.log = [LibCall.avcodec_close, LibCall.avcodec_open2] ∧
      r0.af.setup.lavc_actx = ⟨6, 48000, 448000, 1536, 1⟩ ∧
      control (exLavc [] 0) exHostFail r0.af r0.lib (Cmd.AF_CONTROL_REINIT exData5) = some r1 ∧
      r1.ret = (exLavc [] 0).AF_ERROR ∧
      r1.log = [LibCall.avcodec_close, LibCall.avcodec_open2] ∧
      r1.af.setup.lavc_actx = ⟨5, 48000, 448000, 1536, 1⟩ ∧
      control (exLavc [] 0) exHostFail r1.af r1.lib (Cmd.AF_CONTROL_REINIT exData5) = some r2 ∧
      r2.log = [] ∧ r2.ret ≠ (exLavc [] 0).AF_ERROR ∧ r2.ret ≠ exHostFail.AF_DETACH ∧
      r2.ret = (exHostFail.af_test_output (reinit_data exHostFail r1.af exData5) exData5).1 :=
  ⟨_, _, _, rfl, by decide, by decide, by decide, rfl, by decide, by decide, by decide, rfl,
    by decide, by decide, by decide, rfl⟩

/-- The sizing step of `play`: the recorded size of the output block becomes
the larger one of its old value and `max_output_len`. -/
theorem resize_len (m : Malloc) (af : af_instance_s) (len : Int) :
    (resize m af len).data.len = max af.data.len (max_output_len af.setup len) ∧
    (¬ af.data.len < max_output_len af.setup len → resize m af len = af) ∧
    (af.data.len < max_output_len af.setup len → (resize m af len).data.audio = m.addr) := by
  unfold resize
  split_ifs with h
  · exact ⟨(max_eq_right h.le).symm, fun h' => absurd h h', fun _ => rfl⟩
  · exact ⟨(max_eq_left (by omega)).symm, fun _ => rfl, fun h' => absurd h' h⟩

/-- The descriptor `*af->data` after a call of `play`: as the sizing step left
it, or with `audio` cleared when `malloc` returned NULL. -/
theorem play_af_data {σ : Type} (L : Lavc σ) (m : Malloc) (af : af_instance_s) (cs : σ)
    (data : af_data_t) (in_mem : List Nat) (r : PlayResult σ)
    (hr : play L m af cs data in_mem = some r) :
    (r.af.data = { af.data with audio := 0 } ∧
      af.data.len < max_output_len af.setup data.len ∧ m.addr = 0) ∨
    (r.af.data = (resize m af data.len).data ∧
      ¬ (af.data.len < max_output_len af.setup data.len ∧ m.addr = 0)) := by
  have hnn : ¬ (af.data.len < max_output_len af.setup data.len ∧ m.addr = 0) ∨
      (af.data.len < max_output_len af.setup data.len ∧ m.addr = 0) := (em _).symm
  unfold play at hr
  split_ifs at hr with h1 h2
  · simp only [Option.some.injEq] at hr
    subst hr
    exact Or.inl ⟨rfl, h2⟩
  · simp only [Option.map_eq_some'] at hr
    obtain ⟨⟨b, st'⟩, -, g2⟩ := hr
    subst g2
    exact Or.inr ⟨rfl, h2⟩

/-- The recorded size of the output block never decreases in a sequence of
data calls, whatever `malloc` and the encoder do. -/
theorem play_seq_capacity {σ : Type} (L : Lavc σ) :
    ∀ (calls : List (Malloc × af_data_t × List Nat)) (af : af_instance_s) (cs : σ),
      0 < af.setup.expect_len → 0 ≤ af.setup.pending_len →
      af.setup.pending_len < af.setup.expect_len → (∀ c ∈ calls, 0 ≤ c.2.1.len) →
      ∃ x, play_seq L calls af cs = some x ∧ af.data.len ≤ x.1.data.len := by
  intro calls
  induction calls with
  | nil =>
    intro af cs _ _ _ _
    exact ⟨_, rfl, le_refl _⟩
  | cons c rest ih =>
    intro af cs hE hp0 hp hlen
    obtain ⟨r, h1, h2, h3, h4, -⟩ :=
      play_basic L c.1 af cs c.2.1 c.2.2 hE hp0 hp (hlen c (List.mem_cons_self _ _))
    have hE' : r.af.setup.expect_len = af.setup.expect_len := h2.2.2.2.2.2.1
    obtain ⟨x, g1, g2⟩ := ih r.af r.codec (by rw [hE']; exact hE) h3 (by rw [hE']; exact h4)
      (fun y hy => hlen y (List.mem_cons_of_mem _ hy))
    have hseq : play_seq L (c :: rest) af cs = some (x.1, x.2.1, r.output ++ x.2.2) := by
      simp only [play_seq, h1, g1]
    refine ⟨_, hseq, ?_⟩
    have hstep : af.data.len ≤ r.af.data.len := by
      rcases play_af_data L c.1 af cs c.2.1 c.2.2 r h1 with ⟨e, -⟩ | ⟨e, -⟩
      · rw [e]
      · rw [e, (resize_len c.1 af c.2.1.len).1]
        exact le_max_left _ _
    exact le_trans hstep g2

/-- Claim C18.  Output buffer sizing is monotonic.  In a session with
`0 < expect_len` and `0 ≤ pending_len < expect_len`, a data call with
`len ≥ 0` that does not fail on allocation returns; with
`F = (len + pending_len) / expect_len` (rounded down) and `U` equal to 6144
with S/PDIF framing and to 3840 without, `max_output_len` is `F * U` and the
recorded size `af->data->len` of the output block is
`max(previous size, F * U)` after the sizing step and when the call returns;
the block is allocated anew only when `F * U` exceeds the previous size,
otherwise `*af->data` is left as it was.  Consequently the recorded size never
decreases in any sequence of data calls. -/
theorem output_sizing_monotonic {σ : Type} (L : Lavc σ) (m : Malloc) (af : af_instance_s)
    (cs : σ) (data : af_data_t) (in_mem : List Nat)
    (hE : 0 < af.setup.expect_len) (hp0 : 0 ≤ af.setup.pending_len)
    (hp : af.setup.pending_len < af.setup.expect_len) (hlen : 0 ≤ data.len)
    (hm : ¬ (af.data.len < max_output_len af.setup data.len ∧ m.addr = 0)) :
    ∃ r, play L m af cs data in_mem = some r ∧
      max_output_len af.setup data.len
        = (data.len + af.setup.pending_len) / af.setup.expect_len
            * (if af.setup.add_iec61937_header ≠ 0 then 6144 else 3840) ∧
      (resize m af data.len).data.len
        = max af.data.len ((data.len + af.setup.pending_len) / af.setup.expect_len
            * (if af.setup.add_iec61937_header ≠ 0 then 6144 else 3840)) ∧
      r.af.data.len
        = max af.data.len ((data.len + af.setup.pending_len) / af.setup.expect_len
            * (if af.setup.add_iec61937_header ≠ 0 then 6144 else 3840)) ∧
      (¬ af.data.len < (data.len + af.setup.pending_len) / af.setup.expect_len
            * (if af.setup.add_iec61937_header ≠ 0 then 6144 else 3840) →
        r.af.data = af.data) ∧
      (af.data.len < (data.len + af.setup.pending_len) / af.setup.expect_len
            * (if af.setup.add_iec61937_header ≠ 0 then 6144 else 3840) →
        r.af.data.audio = m.addr) ∧
      ∀ (calls : List (Malloc × af_data_t × List Nat)), (∀ c ∈ calls, 0 ≤ c.2.1.len) →
        ∃ x, play_seq L calls af cs = some x ∧ af.data.len ≤ x.1.data.len := by
  obtain ⟨r, h1, -⟩ := play_basic L m af cs data in_mem hE hp0 hp hlen
  have hmax : max_output_len af.setup data.len
      = (data.len + af.setup.pending_len) / af.setup.expect_len
          * (if af.setup.add_iec61937_header ≠ 0 then 6144 else 3840) := by
    rw [max_output_len_eq af.setup data.len hE hp0 hlen, mul_comm]
  have hd : r.af.data = (resize m af data.len).data := by
    rcases play_af_data L m af cs data in_mem r h1 with ⟨-, e⟩ | ⟨e, -⟩
    · exact absurd e hm
    · exact e
  obtain ⟨e1, e2, e3⟩ := resize_len m af data.len
  rw [hmax] at e1 e2 e3
  refine ⟨r, h1, hmax, e1, by rw [hd]; exact e1, ?_, ?_, ?_⟩
  · intro h
    rw [hd, e2 h]
  · intro h
    rw [hd]
    exact e3 h
  · intro calls hc
    exact play_seq_capacity L calls af cs hE hp0 hp hc

theorem output_sizing_monotonic_witness :
    ∃ r, play (exLavc [11, 119] 1) exMalloc (exAf 1) () (exData 36864)
        (List.replicate 36864 7) = some r ∧
      max_output_len (exAf 1).setup (exData 36864).len
        = ((exData 36864).len + (exAf 1).setup.pending_len) / (exAf 1).setup.expect_len
            * (if (exAf 1).setup.add_iec61937_header ≠ 0 then 6144 else 3840) ∧
      (resize exMalloc (exAf 1) (exData 36864).len).data.len
        = max (exAf 1).data.len
            (((exData 36864).len + (exAf 1).setup.pending_len) / (exAf 1).setup.expect_len
              * (if (exAf 1).setup.add_iec61937_header ≠ 0 then 6144 else 3840)) ∧
      r.af.data.len
        = max (exAf 1).data.len
            (((exData 36864).len + (exAf 1).setup.pending_len) / (exAf 1).setup.expect_len
              * (if (exAf 1).setup.add_iec61937_header ≠ 0 then 6144 else 3840)) ∧
      (¬ (exAf 1).data.len
            < ((exData 36864).len + (exAf 1).setup.pending_len) / (exAf 1).setup.expect_len
              * (if (exAf 1).setup.add_iec61937_header ≠ 0 then 6144 else 3840) →
        r.af.data = (exAf 1).data) ∧
      ((exAf 1).data.len
            < ((exData 36864).len + (exAf 1).setup.pending_len) / (exAf 1).setup.expect_len
              * (if (exAf 1).setup.add_iec61937_header ≠ 0 then 6144 else 3840) →
        r.af.data.audio = exMalloc.addr) ∧
      ∀ (calls : List (Malloc × af_data_t × List Nat)), (∀ c ∈ calls, 0 ≤ c.2.1.len) →
        ∃ x, play_seq (exLavc [11, 119] 1) calls (exAf 1) () = some x ∧
          (exAf 1).data.len ≤ x.1.data.len :=
  output_sizing_monotonic (exLavc [11, 119] 1) exMalloc (exAf 1) () (exData 36864)
    (List.replicate 36864 7) (by decide) (by decide) (by decide) (by decide) (by decide)

/-- Claim C19.  Growth factor.  A REINIT that does not detach and computes a
non-zero `expect_len` returns (the `assert` holding), and the factor `af->mul`
it leaves, taken as an exact rational, satisfies
`af->mul * expect_len = 6144` when `add_iec61937_header` is set and
`af->mul * expect_len = 3840` otherwise.  The `expect_len` computed is
positive whenever the input has at least one channel, the input sample format
has at least 8 bits, and `af_test_output` leaves in `*data` the channel count
of `*af->data`. -/
theorem growth_factor {σ : Type} (L : Lavc σ) (H : Host σ) (af : af_instance_s) (lib : σ)
    (data : af_data_t) (hnd : ¬ detaches H af data)
    (hassert : reinit_expect_len H af data ≤ af.setup.pending_data_size)
    (hne : reinit_expect_len H af data ≠ 0) :
    ∃ r, control L H af lib (Cmd.AF_CONTROL_REINIT data) = some r ∧
      r.af.setup.expect_len = reinit_expect_len H af data ∧
      (r.af.setup.add_iec61937_header ≠ 0 →
        r.af.mul * (r.af.setup.expect_len : ℚ) = 6144) ∧
      (r.af.setup.add_iec61937_header = 0 →
        r.af.mul * (r.af.setup.expect_len : ℚ) = 3840) ∧
      ((H.af_test_output (reinit_data H af data) data).2.nch = (reinit_data H af data).nch →
        1 ≤ data.nch → 8 ≤ H.af_fmt2bits af.setup.in_sampleformat →
        0 < r.af.setup.expect_len) := by
  obtain ⟨r, h1, h2, h3, -⟩ := reinit_result L H af lib data hnd hassert
  have hexp : r.af.setup.expect_len = reinit_expect_len H af data := by rw [h2]
  have hhdr : r.af.setup.add_iec61937_header = af.setup.add_iec61937_header := by rw [h2]
  have hq : (reinit_expect_len H af data : ℚ) ≠ 0 := by exact_mod_cast hne
  refine ⟨r, h1, hexp, ?_, ?_, ?_⟩
  · intro hh
    rw [hhdr] at hh
    rw [h3, hexp]
    unfold reinit_mul
    rw [if_pos hh, div_mul_cancel₀ _ hq]
    norm_num [AC3_FRAME_SIZE]
  · intro hh
    rw [hhdr] at hh
    rw [h3, hexp]
    unfold reinit_mul
    rw [if_neg (by simpa using hh), div_mul_cancel₀ _ hq]
    norm_num [AC3_MAX_CODED_FRAME_SIZE]
  · intro hto hc hb
    rw [hexp]
    unfold reinit_expect_len
    rw [hto, reinit_data_nch]
    have hmin : 1 ≤ min data.nch 6 := le_min hc (by decide)
    have hbps : 1 ≤ (reinit_data H af data).bps := by
      show 1 ≤ (H.af_fmt2bits af.setup.in_sampleformat).tdiv 8
      rw [Int.tdiv_eq_ediv (by omega) (by decide)]
      omega
    have h1536 : (0 : Int) < AC3_FRAME_SIZE := by decide
    positivity

theorem growth_factor_witness :
    ∃ r, control (exLavc [] 0) exHost (exAf 1) () (Cmd.AF_CONTROL_REINIT exData8) = some r ∧
      r.af.setup.expect_len = reinit_expect_len exHost (exAf 1) exData8 ∧
      (r.af.setup.add_iec61937_header ≠ 0 →
        r.af.mul * (r.af.setup.expect_len : ℚ) = 6144) ∧
      (r.af.setup.add_iec61937_header = 0 →
        r.af.mul * (r.af.setup.expect_len : ℚ) = 3840) ∧
      ((exHost.af_test_output (reinit_data exHost (exAf 1) exData8) exData8).2.nch
          = (reinit_data exHost (exAf 1) exData8).nch →
        1 ≤ exData8.nch → 8 ≤ exHost.af_fmt2bits (exAf 1).setup.in_sampleformat →
        0 < r.af.setup.expect_len) :=
  growth_factor (exLavc [] 0) exHost (exAf 1) () exData8
    (by unfold detaches; decide) (by decide) (by decide)

/-- Claim C20.  Reconfiguration discards the buffered remainder.  A REINIT that
does not detach returns (the `assert` holding) with `pending_len = 0`,
whatever `pending_len` was before, both when it returns AF_ERROR and when it
returns the result of `af_test_output`; these are the only two ways it
returns. -/
theorem reinit_discards_remainder {σ : Type} (L : Lavc σ) (H : Host σ) (af : af_instance_s)
    (lib : σ) (data : af_data_t) (hnd : ¬ detaches H af data)
    (hassert : reinit_expect_len H af data ≤ af.setup.pending_data_size) :
    ∃ r, control L H af lib (Cmd.AF_CONTROL_REINIT data) = some r ∧
      r.af.setup.pending_len = 0 ∧
      (r.ret = L.AF_ERROR ∨ r.ret = (H.af_test_output (reinit_data H af data) data).1) := by
  obtain ⟨r, h1, h2, -, -, -, -, -, h8⟩ := reinit_result L H af lib data hnd hassert
  refine ⟨r, h1, by rw [h2], ?_⟩
  rcases h8 with ⟨-, g, -⟩ | ⟨-, g, -⟩
  · exact Or.inl g
  · exact Or.inr g

theorem reinit_discards_remainder_witness :
    ∃ r, control (exLavc [] 0) exHostFail exAfPending () (Cmd.AF_CONTROL_REINIT exData5)
        = some r ∧
      r.af.setup.pending_len = 0 ∧
      (r.ret = (exLavc [] 0).AF_ERROR ∨
        r.ret = (exHostFail.af_test_output (reinit_data exHostFail exAfPending exData5)
          exData5).1) :=
  reinit_discards_remainder (exLavc [] 0) exHostFail exAfPending () exData5
    (by unfold detaches; decide) (by decide)

/-- COMMAND_LINE leaves the input sample format and the pending block alone. -/
theorem command_line_keeps (s : af_ac3enc_t) (fields : List Int) :
    (command_line s fields).in_sampleformat = s.in_sampleformat ∧
      (command_line s fields).pending_data_size = s.pending_data_size ∧
      (command_line s fields).pending_data = s.pending_data :=
  ⟨rfl, rfl, rfl⟩

/-- The destination and the size that each pass of the loop hands to
`encode_data`: `dest + destsize` is `l->len`, and 8 more with S/PDIF
framing, where `dest` is `buf + 8` while `destsize` is counted from `buf`. -/
theorem play_loop_dest {σ : Type} (L : Lavc σ) (l_len : Int) :
    ∀ (fuel : Nat) (st : PlayLoop σ) (b : Bool) (st' : PlayLoop σ),
      play_loop L l_len fuel st = some (b, st') →
      ∃ new, st'.calls = st.calls ++ new ∧
        (∀ c ∈ new, c.dest + c.dst_len
          = l_len + (if st.s.add_iec61937_header ≠ 0 then 8 else 0)) ∧
        ∀ c, new.head? = some c → c.dest = dest_of st := by
  intro fuel
  induction fuel with
  | zero =>
    intro st b st' h
    by_cases hpos : st.left > 0
    · simp [play_loop, hpos] at h
    · simp only [play_loop, hpos, if_false, Option.some.injEq, Prod.mk.injEq] at h
      obtain ⟨-, rfl⟩ := h
      exact ⟨[], by simp, by simp, by simp⟩
  | succ n ih =>
    intro st b st' h
    by_cases hpos : st.left > 0
    · by_cases hs : st.left + st.s.pending_len < st.s.expect_len
      · simp only [play_loop, hpos, if_true, play_body, hs, Option.some.injEq,
          Prod.mk.injEq] at h
        obtain ⟨-, rfl⟩ := h
        exact ⟨[], by simp [stash], by simp, by simp⟩
      · obtain ⟨c, c1, -, c3, c4, -⟩ := enc_step_out L l_len st
        have hc : c.dest + c.dst_len
            = l_len + (if st.s.add_iec61937_header ≠ 0 then 8 else 0) := by
          rw [c3, c4]
          unfold dest_of
          split_ifs <;> ring
        by_cases hlen : (enc_step L l_len st).2 ≤ 0
        · simp only [play_loop, hpos, if_true, play_body, hs, if_false, hlen, Option.some.injEq,
            Prod.mk.injEq] at h
          obtain ⟨-, rfl⟩ := h
          refine ⟨[c], c1, ?_, ?_⟩
          · intro x hx
            simp only [List.mem_singleton] at hx
            rw [hx]; exact hc
          · intro x hx
            simp only [List.head?_cons, Option.some.injEq] at hx
            rw [← hx]; exact c3
        · simp only [play_loop, hpos, if_true, play_body, hs, if_false, hlen] at h
          obtain ⟨new, i1, i2, -⟩ := ih _ b st' h
          rw [emit_calls, c1] at i1
          rw [emit_s, (enc_step_cfg L l_len st).2.2.1] at i2
          refine ⟨c :: new, by rw [i1]; simp, ?_, ?_⟩
          · intro x hx
            rcases List.mem_cons.1 hx with rfl | hx
            · exact hc
            · exact i2 x hx
          · intro x hx
            simp only [List.head?_cons, Option.some.injEq] at hx
            rw [← hx]; exact c3
    · simp only [play_loop, hpos, if_false, Option.some.injEq, Prod.mk.injEq] at h
      obtain ⟨-, rfl⟩ := h
      exact ⟨[], by simp, by simp, by simp⟩

/-- The destination and the size passed to `encode_data` in a call of `play`:
`dest + dst_len` is the recorded size of the output block without S/PDIF
framing, and 8 bytes more with it. -/
theorem play_dest_size {σ : Type} (L : Lavc σ) (m : Malloc) (af : af_instance_s) (cs : σ)
    (data : af_data_t) (in_mem : List Nat) (r : PlayResult σ)
    (hr : play L m af cs data in_mem = some r) :
    (∀ c ∈ r.calls, c.dest + c.dst_len
      = r.af.data.len + (if af.setup.add_iec61937_header ≠ 0 then 8 else 0)) ∧
    ∀ c, r.calls.head? = some c →
      c.dest = (if af.setup.add_iec61937_header ≠ 0 then 8 else 0) := by
  rcases play_cases hr with ⟨rfl, -, -⟩ | ⟨b, st', g1, rfl⟩
  · simp [play_nomem]
  · obtain ⟨new, i1, i2, i3⟩ := play_loop_dest L _ _ _ b st' g1
    simp only [loop_init, List.nil_append, resize_setup] at i1 i2
    constructor
    · intro c hc
      simp only [play_done] at hc ⊢
      rw [i1] at hc
      exact i2 c hc
    · intro c hc
      simp only [play_done] at hc
      rw [i1] at hc
      rw [i3 c hc]
      unfold dest_of
      simp only [loop_init, resize_setup]
      split_ifs <;> simp

/-- Claim C22, the failing input.  In a session with S/PDIF framing and an empty
output block, one frame of `1536 * 6 * 2` bytes is fed.  The output block is
allocated with 6144 bytes; `encode_data` is called once, with `dest` at
offset 8 and the size 6144: `dest + dst_len` is 6152, 8 bytes past the end of
the block.  Without S/PDIF framing the same call gets `dest` at offset 0 and
the size 3840 of the block. -/
theorem dest_size_past_block :
    (∃ r c, play (exLavc (List.replicate 1792 0x0B) 1) exMalloc (exAf 1) () (exData 18432)
        (List.replicate 18432 7) = some r ∧
      r.calls = [c] ∧ r.af.data.len = 6144 ∧ c.dest = 8 ∧ c.dst_len = 6144 ∧
      ¬ c.dest + c.dst_len ≤ r.af.data.len) ∧
    (∃ r c, play (exLavc (List.replicate 1792 0x0B) 1) exMalloc (exAf 0) () (exData 18432)
        (List.replicate 18432 7) = some r ∧
      r.calls = [c] ∧ r.af.data.len = 3840 ∧ c.dest = 0 ∧ c.dst_len = 3840 ∧
      c.dest + c.dst_len ≤ r.af.data.len) := by
  have key : ∀ hdr : Int, ∃ r c,
      play (exLavc (List.replicate 1792 0x0B) 1) exMalloc (exAf hdr) () (exData 18432)
        (List.replicate 18432 7) = some r ∧
      r.calls = [c] ∧
      r.af.data.len = (if hdr ≠ 0 then 6144 else 3840) ∧
      c.dest + c.dst_len = r.af.data.len + (if hdr ≠ 0 then 8 else 0) ∧
      c.dest = (if hdr ≠ 0 then 8 else 0) := by
    intro hdr
    have hE : (exAf hdr).setup.expect_len = 18432 := rfl
    have hP : (exAf hdr).setup.pending_len = 0 := rfl
    have hD : (exData 18432).len = 18432 := rfl
    obtain ⟨r, h1, -, h3, h4, h5, h6, h7⟩ :=
      play_basic (exLavc (List.replicate 1792 0x0B) 1) exMalloc (exAf hdr) ()
        (exData 18432) (List.replicate 18432 7) (by rw [hE]; decide) (by rw [hP])
        (by rw [hE, hP]; decide) (by decide)
    have hpos : ∀ c ∈ r.calls, 0 < c.ret := by
      intro c hc
      obtain ⟨s', cs, mem, off, e1, -, e3, -⟩ := h5 c hc
      rw [e3, (exLavc_ret _ 1 s' mem off c.dst_len (by rw [e1]; rfl)).1, if_pos (by decide),
        List.length_replicate]
      decide
    have hb : r.ret = true := ret_true_of_pos (by decide) hpos (fun h => (h7 h).2)
    obtain ⟨-, hd, -, heq⟩ := h6 hb
    rw [hE, hP, hD] at heq
    rw [hE] at h4
    have hn : r.calls.length = 1 := by omega
    obtain ⟨c, hc⟩ : ∃ c, r.calls = [c] := by
      rcases hcs : r.calls with _ | ⟨c, t⟩
      · rw [hcs] at hn; simp at hn
      · rcases t with _ | ⟨c2, t2⟩
        · exact ⟨c, rfl⟩
        · rw [hcs] at hn; simp at hn
    have hsum := (play_dest_size _ _ _ _ _ _ r h1).1 c (by rw [hc]; simp)
    have hmaxeq : max_output_len (exAf hdr).setup (exData 18432).len
        = (if hdr ≠ 0 then 6144 else 3840) := by
      rw [max_output_len_eq _ _ (by rw [hE]; decide) (by rw [hP]) (by decide), hE, hP, hD]
      have hh : (exAf hdr).setup.add_iec61937_header = hdr := rfl
      rw [hh]
      have e1 : ((18432 : Int) + 0) / 18432 = 1 := by decide
      rw [e1, mul_one]
    have hlen : r.af.data.len = (if hdr ≠ 0 then 6144 else 3840) := by
      rw [hd]
      have : (exAf hdr).data.len < max_output_len (exAf hdr).setup (exData 18432).len := by
        rw [hmaxeq]
        show (0 : Int) < _
        split_ifs <;> decide
      unfold resize
      rw [if_pos this]
      exact hmaxeq
    have hdest : c.dest = (if hdr ≠ 0 then 8 else 0) :=
      (play_dest_size _ _ _ _ _ _ r h1).2 c (by rw [hc]; rfl)
    exact ⟨r, c, h1, hc, hlen, by rw [hsum]; rfl, hdest⟩
  constructor
  · obtain ⟨r, c, h1, h2, h3, h4, h5⟩ := key 1
    have h3' : r.af.data.len = 6144 := by rw [h3]; rfl
    have h5' : c.dest = 8 := by rw [h5]; rfl
    have h4' : c.dest + c.dst_len = r.af.data.len + 8 := by rw [h4]; rfl
    exact ⟨r, c, h1, h2, h3', h5', by omega, by omega⟩
  · obtain ⟨r, c, h1, h2, h3, h4, h5⟩ := key 0
    have h3' : r.af.data.len = 3840 := by rw [h3]; rfl
    have h5' : c.dest = 0 := by rw [h5]; rfl
    have h4' : c.dest + c.dst_len = r.af.data.len + 0 := by rw [h4]; rfl
    exact ⟨r, c, h1, h2, h3', h5', by omega, by omega⟩

theorem unit_size_pos (hdr : Int) : 0 < unit_size hdr := by
  unfold unit_size; split_ifs <;> decide

theorem frames_left_step (a E : Int) (hE : 0 < E) (h : ¬ a < E) :
    1 ≤ a / E ∧ (a - E) / E = a / E - 1 := by
  constructor
  · exact Int.le_ediv_of_mul_le hE (by omega)
  · have := Int.add_mul_ediv_right a (-1) (ne_of_gt hE)
    have e : a + -1 * E = a - E := by ring
    rw [e] at this
    rw [this]; ring

/-- One pass that encodes a frame whose payload is at most 3840 bytes long
keeps the loop within the output block. -/
theorem within_step {σ : Type} (L : Lavc σ) (l_len : Int) (st : PlayLoop σ)
    (ok : Within l_len st) (hs : ¬ st.left + st.s.pending_len < st.s.expect_len)
    (hlen : (enc_step L l_len st).2 ≤ 3840) (hpos : 0 < (enc_step L l_len st).2) :
    Within l_len (emit (enc_step L l_len st).1 (enc_step L l_len st).2) ∧
    (emit (enc_step L l_len st).1 (enc_step L l_len st).2).outsize
      ≤ st.outsize + unit_size st.s.add_iec61937_header ∧
    ((emit (enc_step L l_len st).1 (enc_step L l_len st).2).left
        + (emit (enc_step L l_len st).1 (enc_step L l_len st).2).s.pending_len)
      / (emit (enc_step L l_len st).1 (enc_step L l_len st).2).s.expect_len
      = (st.left + st.s.pending_len) / st.s.expect_len - 1 ∧
    st.buf ≤ (emit (enc_step L l_len st).1 (enc_step L l_len st).2).buf := by
  obtain ⟨hE, hp0, hp, hleft, hbuf, hroom⟩ := ok
  obtain ⟨c, -, -, -, -, -, c6, c7⟩ := enc_step_out L l_len st
  have hcfg := enc_step_cfg L l_len st
  have hE' := hcfg.2.2.2.2.2.1
  have hH' := hcfg.2.2.1
  have hP' := enc_step_pending_len L l_len st
  have hL' := enc_step_left L l_len st hp
  obtain ⟨g1, g2⟩ := frames_left_step (st.left + st.s.pending_len) st.s.expect_len hE hs
  have hU := unit_size_pos st.s.add_iec61937_header
  have hinc : (emit (enc_step L l_len st).1 (enc_step L l_len st).2).buf
        ≤ st.buf + unit_size st.s.add_iec61937_header ∧
      st.buf ≤ (emit (enc_step L l_len st).1 (enc_step L l_len st).2).buf ∧
      (emit (enc_step L l_len st).1 (enc_step L l_len st).2).outsize
        ≤ st.outsize + unit_size st.s.add_iec61937_header := by
    by_cases hdr : st.s.add_iec61937_header ≠ 0
    · obtain ⟨-, e2, e3⟩ := emit_hdr (enc_step L l_len st).1 (enc_step L l_len st).2
        (by rw [hH']; exact hdr)
      rw [e2, e3, c6, c7]
      have hu : unit_size st.s.add_iec61937_header = 6144 := by simp [unit_size, hdr]
      rw [hu]
      omega
    · have hdr0 : st.s.add_iec61937_header = 0 := by simpa using hdr
      obtain ⟨-, e2, e3⟩ := emit_nohdr (enc_step L l_len st).1 (enc_step L l_len st).2
        (by rw [hH']; exact hdr0)
      rw [e2, e3, c6, c7]
      have hu : unit_size st.s.add_iec61937_header = 3840 := by simp [unit_size, hdr0]
      rw [hu]
      omega
  have hsum : (emit (enc_step L l_len st).1 (enc_step L l_len st).2).left
        + (emit (enc_step L l_len st).1 (enc_step L l_len st).2).s.pending_len
      = st.left + st.s.pending_len - st.s.expect_len := by
    rw [emit_left, emit_s, hL', hP']; ring
  have hg : ((emit (enc_step L l_len st).1 (enc_step L l_len st).2).left
        + (emit (enc_step L l_len st).1 (enc_step L l_len st).2).s.pending_len)
      / (emit (enc_step L l_len st).1 (enc_step L l_len st).2).s.expect_len
      = (st.left + st.s.pending_len) / st.s.expect_len - 1 := by
    rw [hsum, emit_s, hE', g2]
  refine ⟨⟨?_, ?_, ?_, ?_, ?_, ?_⟩, hinc.2.2, hg, hinc.2.1⟩
  · rw [emit_s, hE']; exact hE
  · rw [emit_s, hP']
  · rw [emit_s, hP', hE']; exact hE
  · rw [emit_left, hL']; omega
  · omega
  · rw [hg, emit_s, hH']
    have : unit_size st.s.add_iec61937_header
          * ((st.left + st.s.pending_len) / st.s.expect_len - 1)
        = unit_size st.s.add_iec61937_header * ((st.left + st.s.pending_len) / st.s.expect_len)
          - unit_size st.s.add_iec61937_header := by ring
    rw [this]
    omega

/-- A loop of `play` in which every payload is the number of bytes returned and
at most 3840 bytes long stays within the output block: at the head of the
pass that makes the `k`-th call of `encode_data`, the offset `buf` (which is
`dest`, or `dest - 8` with S/PDIF framing) plus the room for the frames still
to encode is at most `l->len`. -/
theorem play_loop_within {σ : Type} (L : Lavc σ) (l_len : Int) :
    ∀ (fuel : Nat) (st : PlayLoop σ) (b : Bool) (st' : PlayLoop σ), Within l_len st →
      play_loop L l_len fuel st = some (b, st') →
      ∀ new, st'.calls = st.calls ++ new →
        (∀ c ∈ new, c.ret = c.pkt.length ∧ 1 ≤ c.pkt.length ∧ c.pkt.length ≤ 3840) →
        st'.outsize ≤ st.outsize + unit_size st.s.add_iec61937_header * new.length ∧
        (new.length : Int) ≤ (st.left + st.s.pending_len) / st.s.expect_len ∧
        ∀ (k : Nat) (c : EncCall), new[k]? = some c →
          st.buf ≤ c.dest - (if st.s.add_iec61937_header ≠ 0 then 8 else 0) ∧
          (k : Int) < (st.left + st.s.pending_len) / st.s.expect_len ∧
          c.dest - (if st.s.add_iec61937_header ≠ 0 then 8 else 0)
            + unit_size st.s.add_iec61937_header
              * ((st.left + st.s.pending_len) / st.s.expect_len - k) ≤ l_len := by
  intro fuel
  induction fuel with
  | zero =>
    intro st b st' ok h new hnew _
    have hg0 : 0 ≤ (st.left + st.s.pending_len) / st.s.expect_len :=
      Int.ediv_nonneg (by have := ok.hleft; have := ok.hp0; omega) ok.hE.le
    by_cases hpos : st.left > 0
    · simp [play_loop, hpos] at h
    · simp only [play_loop, hpos, if_false, Option.some.injEq, Prod.mk.injEq] at h
      obtain ⟨-, rfl⟩ := h
      have : new = [] := by simpa using hnew
      subst this
      exact ⟨by simp, by simpa using hg0, by simp⟩
  | succ n ih =>
    intro st b st' ok h new hnew hgood
    have hg0 : 0 ≤ (st.left + st.s.pending_len) / st.s.expect_len :=
      Int.ediv_nonneg (by have := ok.hleft; have := ok.hp0; omega) ok.hE.le
    by_cases hpos : st.left > 0
    · by_cases hs : st.left + st.s.pending_len < st.s.expect_len
      · simp only [play_loop, hpos, if_true, play_body, hs, Option.some.injEq,
          Prod.mk.injEq] at h
        obtain ⟨-, rfl⟩ := h
        have : new = [] := by simpa [stash] using hnew
        subst this
        exact ⟨by simp [stash], by simpa using hg0, by simp⟩
      · obtain ⟨c, c1, c2, c3, -, -, c6, -⟩ := enc_step_out L l_len st
        by_cases hlen : (enc_step L l_len st).2 ≤ 0
        · simp only [play_loop, hpos, if_true, play_body, hs, if_false, hlen, Option.some.injEq,
            Prod.mk.injEq] at h
          obtain ⟨-, rfl⟩ := h
          have : new = [c] := by
            rw [c1] at hnew
            exact (List.append_cancel_left hnew).symm
          subst this
          have := hgood c (by simp)
          omega
        · simp only [play_loop, hpos, if_true, play_body, hs, if_false, hlen] at h
          obtain ⟨new', i1, -, -⟩ := play_loop_dest L l_len n _ b st' h
          rw [emit_calls, c1, List.append_assoc] at i1
          have hn : new = c :: new' := by
            rw [i1] at hnew
            exact (List.append_cancel_left hnew).symm
          subst hn
          have hc := hgood c (by simp)
          obtain ⟨ok1, o1, g1, b1⟩ := within_step L l_len st ok hs (by omega) (by omega)
          have hi1 : st'.calls
              = (emit (enc_step L l_len st).1 (enc_step L l_len st).2).calls ++ new' := by
            rw [emit_calls, c1, List.append_assoc]; exact i1
          obtain ⟨j1, j2, j3⟩ := ih _ b st' ok1 h new' hi1
            (fun y hy => hgood y (List.mem_cons_of_mem _ hy))
          have hH' : (emit (enc_step L l_len st).1 (enc_step L l_len st).2).s.add_iec61937_header
              = st.s.add_iec61937_header := by
            rw [emit_s]; exact (enc_step_cfg L l_len st).2.2.1
          rw [hH'] at j1 j3
          rw [g1] at j2 j3
          have hU := unit_size_pos st.s.add_iec61937_header
          refine ⟨?_, ?_, ?_⟩
          · rw [List.length_cons]
            push_cast
            have : unit_size st.s.add_iec61937_header * ((new'.length : Int) + 1)
                = unit_size st.s.add_iec61937_header * (new'.length : Int)
                  + unit_size st.s.add_iec61937_header := by ring
            rw [this]
            omega
          · rw [List.length_cons]
            push_cast
            omega
          · intro k x hk
            rcases k with _ | k
            · simp only [List.getElem?_cons_zero, Option.some.injEq] at hk
              subst hk
              have hd : c.dest - (if st.s.add_iec61937_header ≠ 0 then 8 else 0) = st.buf := by
                rw [c3]
                unfold dest_of
                split_ifs <;> ring
              rw [hd]
              have hg1 := (frames_left_step (st.left + st.s.pending_len) st.s.expect_len
                ok.hE hs).1
              refine ⟨le_refl _, by push_cast; omega, ?_⟩
              simp only [Nat.cast_zero, sub_zero]
              exact ok.hroom
            · simp only [List.getElem?_cons_succ] at hk
              obtain ⟨q1, q2, q3⟩ := j3 k x hk
              refine ⟨by omega, by push_cast; omega, ?_⟩
              have : (st.left + st.s.pending_len) / st.s.expect_len - ((k + 1 : Nat) : Int)
                  = (st.left + st.s.pending_len) / st.s.expect_len - 1 - (k : Int) := by
                push_cast; ring
              rw [this]
              exact q3
    · simp only [play_loop, hpos, if_false, Option.some.injEq, Prod.mk.injEq] at h
      obtain ⟨-, rfl⟩ := h
      have : new = [] := by simpa using hnew
      subst this
      exact ⟨by simp, by simpa using hg0, by simp⟩

/-- Claim C23.  Output writes stay inside the sized buffer.  In a session with
`0 < expect_len` and `0 ≤ pending_len < expect_len`, a data call with
`len ≥ 0` returns; let `F = (len + pending_len) / expect_len` and `U` be
6144 with S/PDIF framing and 3840 without.  If every call of `encode_data`
returned the length `L` of the payload it stored, with `1 ≤ L ≤ 3840`, then
at the head of the pass that makes the `k`-th call the bytes emitted so far
(the offset `e` of `buf`, which is `dest` or `dest - 8`) satisfy
`0 ≤ e`, `k < F` and `e + U * (F - k) ≤ af->data->len`; with S/PDIF framing
the `memset` length `6144 - 8 - L` is not negative and header, payload and
padding, which fill `[e, e + 6144)`, lie within the block; without it the
payload `[dest, dest + L)` lies within the block; and the length returned is
at most `F * U`. -/
theorem writes_within_buffer {σ : Type} (L : Lavc σ) (m : Malloc) (af : af_instance_s)
    (cs : σ) (data : af_data_t) (in_mem : List Nat)
    (hE : 0 < af.setup.expect_len) (hp0 : 0 ≤ af.setup.pending_len)
    (hp : af.setup.pending_len < af.setup.expect_len) (hlen : 0 ≤ data.len) :
    ∃ r, play L m af cs data in_mem = some r ∧
      ((∀ c ∈ r.calls, c.ret = c.pkt.length ∧ 1 ≤ c.pkt.length ∧ c.pkt.length ≤ 3840) →
        (r.ret = true →
          r.data.len ≤ (data.len + af.setup.pending_len) / af.setup.expect_len
            * unit_size af.setup.add_iec61937_header) ∧
        ∀ (k : Nat) (c : EncCall), r.calls[k]? = some c →
          0 ≤ c.dest - (if af.setup.add_iec61937_header ≠ 0 then 8 else 0) ∧
          (k : Int) < (data.len + af.setup.pending_len) / af.setup.expect_len ∧
          c.dest - (if af.setup.add_iec61937_header ≠ 0 then 8 else 0)
            + unit_size af.setup.add_iec61937_header
              * ((data.len + af.setup.pending_len) / af.setup.expect_len - k)
            ≤ r.af.data.len ∧
          (af.setup.add_iec61937_header ≠ 0 →
            0 ≤ AC3_FRAME_SIZE * 2 * 2 - 8 - c.ret ∧
            0 ≤ c.dest - 8 ∧ c.dest + c.pkt.length ≤ c.dest - 8 + 6144 ∧
            c.dest - 8 + 6144 ≤ r.af.data.len) ∧
          (af.setup.add_iec61937_header = 0 →
            0 ≤ c.dest ∧ c.dest + c.pkt.length ≤ r.af.data.len)) := by
  obtain ⟨r, h1, -⟩ := play_basic L m af cs data in_mem hE hp0 hp hlen
  refine ⟨r, h1, ?_⟩
  intro hgood
  rcases play_cases h1 with ⟨rfl, -, -⟩ | ⟨b, st', g1, rfl⟩
  · simp [play_nomem]
  · have hs := resize_setup m af data.len
    have hU := unit_size_pos af.setup.add_iec61937_header
    have hmax : max_output_len af.setup data.len
        = unit_size af.setup.add_iec61937_header
          * ((data.len + af.setup.pending_len) / af.setup.expect_len) := by
      rw [max_output_len_eq af.setup data.len hE hp0 hlen]
      rfl
    have hcap : unit_size af.setup.add_iec61937_header
          * ((data.len + af.setup.pending_len) / af.setup.expect_len)
        ≤ (resize m af data.len).data.len := by
      rw [(resize_len m af data.len).1, hmax]
      exact le_max_right _ _
    have ok : Within (resize m af data.len).data.len
        (loop_init (resize m af data.len) cs data in_mem) :=
      ⟨by simp only [loop_init, hs]; exact hE, by simp only [loop_init, hs]; exact hp0,
        by simp only [loop_init, hs]; exact hp, by simp only [loop_init]; exact hlen,
        by simp [loop_init], by simp only [loop_init, hs, zero_add]; exact hcap⟩
    simp only [play_done] at hgood ⊢
    obtain ⟨j1, j2, j3⟩ := play_loop_within L _ _ _ b st' ok g1 st'.calls
      (by simp [loop_init]) hgood
    simp only [loop_init, hs, zero_add] at j1 j2 j3
    constructor
    · intro hb
      rw [if_pos hb]
      have : unit_size af.setup.add_iec61937_header * (st'.calls.length : Int)
          ≤ unit_size af.setup.add_iec61937_header
            * ((data.len + af.setup.pending_len) / af.setup.expect_len) :=
        mul_le_mul_of_nonneg_left j2 hU.le
      rw [mul_comm ((data.len + af.setup.pending_len) / af.setup.expect_len)]
      exact le_trans j1 this
    · intro k c hk
      obtain ⟨q1, q2, q3⟩ := j3 k c hk
      obtain ⟨e1, e2, e3⟩ := hgood c (List.mem_iff_getElem?.2 ⟨k, hk⟩)
      have hrest : unit_size af.setup.add_iec61937_header
          ≤ unit_size af.setup.add_iec61937_header
            * ((data.len + af.setup.pending_len) / af.setup.expect_len - k) := by
        have : (1 : Int) ≤ (data.len + af.setup.pending_len) / af.setup.expect_len - k := by
          omega
        calc unit_size af.setup.add_iec61937_header
            = unit_size af.setup.add_iec61937_header * 1 := (mul_one _).symm
          _ ≤ _ := mul_le_mul_of_nonneg_left this hU.le
      refine ⟨q1, q2, q3, ?_, ?_⟩
      · intro hdr
        have hu : unit_size af.setup.add_iec61937_header = 6144 := by simp [unit_size, hdr]
        rw [if_pos hdr] at q1 q3
        rw [hu] at hrest q3
        have hfs : AC3_FRAME_SIZE = 1536 := rfl
        rw [hfs, e1]
        refine ⟨by omega, q1, by omega, by omega⟩
      · intro hdr0
        have hu : unit_size af.setup.add_iec61937_header = 3840 := by simp [unit_size, hdr0]
        rw [if_neg (by simpa using hdr0)] at q1 q3
        rw [hu] at hrest q3
        simp only [sub_zero] at q1 q3
        exact ⟨q1, by omega⟩

theorem writes_within_buffer_witness :
    ∃ r, play (exLavc (List.replicate 1792 0x0B) 1) exMalloc (exAf 1) () (exData 36864)
        (List.replicate 36864 7) = some r ∧
      ((∀ c ∈ r.calls, c.ret = c.pkt.length ∧ 1 ≤ c.pkt.length ∧ c.pkt.length ≤ 3840) →
        (r.ret = true →
          r.data.len ≤ ((exData 36864).len + (exAf 1).setup.pending_len)
              / (exAf 1).setup.expect_len
            * unit_size (exAf 1).setup.add_iec61937_header) ∧
        ∀ (k : Nat) (c : EncCall), r.calls[k]? = some c →
          0 ≤ c.dest - (if (exAf 1).setup.add_iec61937_header ≠ 0 then 8 else 0) ∧
          (k : Int) < ((exData 36864).len + (exAf 1).setup.pending_len)
              / (exAf 1).setup.expect_len ∧
          c.dest - (if (exAf 1).setup.add_iec61937_header ≠ 0 then 8 else 0)
            + unit_size (exAf 1).setup.add_iec61937_header
              * (((exData 36864).len + (exAf 1).setup.pending_len)
                  / (exAf 1).setup.expect_len - k)
            ≤ r.af.data.len ∧
          ((exAf 1).setup.add_iec61937_header ≠ 0 →
            0 ≤ AC3_FRAME_SIZE * 2 * 2 - 8 - c.ret ∧
            0 ≤ c.dest - 8 ∧ c.dest + c.pkt.length ≤ c.dest - 8 + 6144 ∧
            c.dest - 8 + 6144 ≤ r.af.data.len) ∧
          ((exAf 1).setup.add_iec61937_header = 0 →
            0 ≤ c.dest ∧ c.dest + c.pkt.length ≤ r.af.data.len)) :=
  writes_within_buffer (exLavc (List.replicate 1792 0x0B) 1) exMalloc (exAf 1) ()
    (exData 36864) (List.replicate 36864 7) (by decide) (by decide) (by decide) (by decide)

set_option maxRecDepth 20000 in

/-- Claim C24, the failing input.  Four samples of one byte are to be padded with
`sample_padding_u8` at the head of a block of 200 bytes `11`.  The call
`memset(buf, cnt, *(char *)padding)` has value and count exchanged: the value
stored is 4 and not `80`, and it is stored 128 times where `char` is unsigned,
and up to the end of the block (the count is `(size_t)-128`) where `char` is
signed, so that the byte at offset 4 is written too.  With a sample size of 2
the loop stores the 3 samples asked for and nothing else. -/
theorem fill_with_padding_u8 :
    fill_with_padding false (List.replicate 200 0x11) 0 4 1 sample_padding_u8
      = List.replicate 128 4 ++ List.replicate 72 0x11 ∧
    fill_with_padding true (List.replicate 200 0x11) 0 4 1 sample_padding_u8
      = List.replicate 200 4 ∧
    (∀ b : Bool,
      (fill_with_padding b (List.replicate 200 0x11) 0 4 1 sample_padding_u8).take 4
          ≠ List.replicate 4 0x80 ∧
      (fill_with_padding b (List.replicate 200 0x11) 0 4 1 sample_padding_u8)[4]?
          ≠ (List.replicate 200 0x11)[4]?) ∧
    (∀ b : Bool,
      fill_with_padding b (List.replicate 8 0x11) 0 3 2 sample_padding_signed
        = [0, 0, 0, 0, 0, 0, 0x11, 0x11]) := by
  refine ⟨by decide, by decide, ?_, ?_⟩
  · intro b
    cases b <;> decide
  · intro b
    cases b <;> decide

theorem imgfmt2pixfmt_other (n : Nat) :
    imgfmt2pixfmt (ImgFmt.other n) = PixFmt.AV_PIX_FMT_NONE := rfl

theorem pixfmt2imgfmt_other (n : Nat) : pixfmt2imgfmt (PixFmt.other n) = ImgFmt.zero := rfl

theorem conversion_map_named :
    ∀ e ∈ conversion_map,
      (match e.fmt with
        | ImgFmt.other _ => false
        | _ => true) = true ∧
      (match e.pix_fmt with
        | PixFmt.other _ => false
        | _ => true) = true := by
  decide

set_option maxRecDepth 100000 in

theorem img_round_trip_named (c : ImgName) :
    imgfmt2pixfmt (pixfmt2imgfmt (imgfmt2pixfmt (ImgFmt.img c))) = imgfmt2pixfmt (ImgFmt.img c) ∧
    ((∀ e ∈ conversion_map, e.fmt ≠ ImgFmt.img c) →
      imgfmt2pixfmt (ImgFmt.img c) = PixFmt.AV_PIX_FMT_NONE) ∧
    (pixfmt2imgfmt (imgfmt2pixfmt (ImgFmt.img c)) = ImgFmt.img c ↔
      first_of_pix_fmt (ImgFmt.img c)) := by
  cases c <;> (unfold first_of_pix_fmt; decide)

set_option maxRecDepth 100000 in

theorem pix_round_trip_named (c : PixName) :
    pixfmt2imgfmt (imgfmt2pixfmt (pixfmt2imgfmt (PixFmt.pix c))) = pixfmt2imgfmt (PixFmt.pix c) ∧
    ((∀ e ∈ conversion_map, e.pix_fmt ≠ PixFmt.pix c) →
      pixfmt2imgfmt (PixFmt.pix c) = ImgFmt.zero) := by
  cases c <;> decide

theorem first_of_pix_fmt_other (n : Nat) : ¬ first_of_pix_fmt (ImgFmt.other n) := by
  rintro ⟨e, he, h, -⟩
  have := (conversion_map_named e he).1
  rw [h] at this
  exact Bool.false_ne_true this

/-- Claim C25.  Pixel-format conversion stabilises after one round trip.  With
the `IMGFMT_*` and `AV_PIX_FMT_*` constants of `conversion_map` pairwise
distinct: for every image format `f`,
`imgfmt2pixfmt(pixfmt2imgfmt(imgfmt2pixfmt(f))) = imgfmt2pixfmt(f)`; for
every pixel format `p`,
`pixfmt2imgfmt(imgfmt2pixfmt(pixfmt2imgfmt(p))) = pixfmt2imgfmt(p)`; a format
that no entry of the table has maps to `AV_PIX_FMT_NONE`, respectively to 0;
and `pixfmt2imgfmt(imgfmt2pixfmt(f)) = f` holds exactly for the formats `f`
that stand in the first entry of the table with their pixel format. -/
theorem pixfmt_round_trip :
    (∀ f : ImgFmt,
      imgfmt2pixfmt (pixfmt2imgfmt (imgfmt2pixfmt f)) = imgfmt2pixfmt f) ∧
    (∀ p : PixFmt,
      pixfmt2imgfmt (imgfmt2pixfmt (pixfmt2imgfmt p)) = pixfmt2imgfmt p) ∧
    (∀ f : ImgFmt, (∀ e ∈ conversion_map, e.fmt ≠ f) →
      imgfmt2pixfmt f = PixFmt.AV_PIX_FMT_NONE) ∧
    (∀ p : PixFmt, (∀ e ∈ conversion_map, e.pix_fmt ≠ p) →
      pixfmt2imgfmt p = ImgFmt.zero) ∧
    (∀ f : ImgFmt, pixfmt2imgfmt (imgfmt2pixfmt f) = f ↔ first_of_pix_fmt f) := by
  have hz : imgfmt2pixfmt ImgFmt.zero = PixFmt.AV_PIX_FMT_NONE := rfl
  have hn : pixfmt2imgfmt PixFmt.AV_PIX_FMT_NONE = ImgFmt.zero := rfl
  refine ⟨?_, ?_, ?_, ?_, ?_⟩
  · intro f
    cases f with
    | zero => rw [hz, hn, hz]
    | img c => exact (img_round_trip_named c).1
    | other n => rw [imgfmt2pixfmt_other, hn, hz]
  · intro p
    cases p with
    | AV_PIX_FMT_NONE => rw [hn, hz, hn]
    | pix c => exact (pix_round_trip_named c).1
    | other n => rw [pixfmt2imgfmt_other, hz, hn]
  · intro f
    cases f with
    | zero => exact fun _ => hz
    | img c => exact (img_round_trip_named c).2.1
    | other n => exact fun _ => imgfmt2pixfmt_other n
  · intro p
    cases p with
    | AV_PIX_FMT_NONE => exact fun _ => hn
    | pix c => exact (pix_round_trip_named c).2
    | other n => exact fun _ => pixfmt2imgfmt_other n
  · intro f
    cases f with
    | zero =>
      rw [hz, hn]
      exact ⟨fun _ => ⟨MapEntry.mk ImgFmt.zero PixFmt.AV_PIX_FMT_NONE, by decide, rfl,
        by decide⟩, fun _ => rfl⟩
    | img c => exact (img_round_trip_named c).2.2
    | other n =>
      rw [imgfmt2pixfmt_other, hn]
      constructor
      · intro h
        exact absurd h (by simp)
      · intro h
        exact absurd h (first_of_pix_fmt_other n)

end Ac3enc
